import Mathlib

/-!
# Multi-stage lock-free message router: SPSC ring buffer, routers and workers

A shallow embedding of the C++ sources (`include/spsc_queue.hpp`,
`include/message.hpp`, `include/config.hpp`, `src/components/router.cpp`,
`src/components/processor.cpp`) together with the properties stated for them.

Conventions used by the embedding:

* `uint8_t`, `size_t` and `uint64_t` values are natural numbers; arithmetic that
  the C++ performs on them is reduced modulo `2 ^ 8` or `2 ^ 64` where the
  source computes it;
* a `bool f(T& out)` method becomes a function that takes the old value of
  `out` and returns the new one next to the result;
* a `std::unordered_map` is an association list with unique keys;
* a worker thread (`Stage1Router::run`, `Stage2Router::run`, `Processor::run`)
  is a step function over a program counter, one step per access to the shared
  flag or to a queue, each queue operation being taken as atomic; the other
  threads are a schedule of bursts of actions (stores to the flag, clock
  readings, pushes and pops on the queues), one burst before each step. The
  schedule is also the fuel of a run.

The file has two parts: the definitions, then the properties.
-/

namespace MessageRouter

/-! ## `include/spsc_queue.hpp` -/

/-- Number of distinct values of `size_t` (and of `uint64_t`) on the x86-64 target. -/
def SIZE_T_MOD : Nat := 2 ^ 64

/-- The data members of `SPSCQueue<T, Capacity>`: the two atomic indices and the
slot array `T buffer_[Capacity]`. -/
structure SPSCQueue (T : Type) where
  head_ : Nat
  tail_ : Nat
  buffer_ : List T
deriving DecidableEq, Repr

namespace SPSCQueue

variable {T : Type}

/-- The constructor `SPSCQueue() : head_(0), tail_(0) {}`. The slot array is not
initialised by it, so its initial contents `slots` are arbitrary. -/
def fresh (slots : List T) : SPSCQueue T :=
  { head_ := 0, tail_ := 0, buffer_ := slots }

/-- The expression `Capacity - 1` evaluated in `size_t`. -/
def mask (Capacity : Nat) : Nat := (Capacity + SIZE_T_MOD - 1) % SIZE_T_MOD

/-- The expression `(x + 1) & (Capacity - 1)` evaluated in `size_t`. -/
def advance (Capacity : Nat) (x : Nat) : Nat :=
  ((x + 1) % SIZE_T_MOD) &&& mask Capacity

/-- `bool try_push(const T& item)`. -/
def try_push (Capacity : Nat) (q : SPSCQueue T) (item : T) : Bool × SPSCQueue T :=
  let current_tail := q.tail_
  let next_tail := advance Capacity current_tail
  if next_tail = q.head_ then
    (false, q)
  else
    (true, { q with buffer_ := q.buffer_.set current_tail item, tail_ := next_tail })

/-- `bool try_pop(T& item)`: the second component is the value of `item` after
the call. -/
def try_pop (Capacity : Nat) (q : SPSCQueue T) (item : T) : Bool × T × SPSCQueue T :=
  let current_head := q.head_
  if current_head = q.tail_ then
    (false, item, q)
  else
    (true, q.buffer_.getD current_head item,
      { q with head_ := advance Capacity current_head })

/-- `bool empty() const`. -/
def empty (q : SPSCQueue T) : Bool := decide (q.head_ = q.tail_)

/-- `size_t size() const`. -/
def size (Capacity : Nat) (q : SPSCQueue T) : Nat :=
  let h := q.head_
  let t := q.tail_
  if t ≥ h then t - h else (Capacity + SIZE_T_MOD - h + t) % SIZE_T_MOD

/-- `static constexpr size_t capacity()`. -/
def capacity (Capacity : Nat) : Nat := mask Capacity

/-- One call made on a queue: `try_push(v)` or `try_pop(out)` where `out`
holds the given value before the call. -/
inductive Call (T : Type) where
  | push (v : T)
  | pop (out : T)
deriving DecidableEq, Repr

/-- What a call gives back: the boolean result and, for `try_pop`, the value
of the out-parameter after the call. -/
inductive Ret (T : Type) where
  | pushed (ok : Bool)
  | popped (ok : Bool) (out : T)
deriving DecidableEq, Repr

/-- Performs one call on the ring buffer. -/
def call (Capacity : Nat) (q : SPSCQueue T) : Call T → Ret T × SPSCQueue T
  | .push v => let r := try_push Capacity q v; (.pushed r.1, r.2)
  | .pop out => let r := try_pop Capacity q out; (.popped r.1 r.2.1, r.2.2)

/-- Performs the calls one after the other, collecting what each gives back. -/
def run (Capacity : Nat) : SPSCQueue T → List (Call T) → List (Ret T) × SPSCQueue T
  | q, [] => ([], q)
  | q, c :: cs =>
    let r := call Capacity q c
    let rest := run Capacity r.2 cs
    (r.1 :: rest.1, rest.2)

end SPSCQueue

/-! ## Reference model: a list used as a bounded FIFO

This model is written from the specification's description of the queue
("bounded FIFO", "one slot is sacrificed"), not from the ring-buffer code. -/

namespace ListQueue

variable {T : Type}

/-- Appends at the back unless `bound` elements are already held. -/
def try_push (bound : Nat) (l : List T) (v : T) : Bool × List T :=
  if l.length < bound then (true, l ++ [v]) else (false, l)

/-- Removes the front element, if there is one. -/
def try_pop (l : List T) (out : T) : Bool × T × List T :=
  match l with
  | [] => (false, out, [])
  | x :: xs => (true, x, xs)

/-- Performs one call on the list queue. -/
def call (bound : Nat) (l : List T) : SPSCQueue.Call T → SPSCQueue.Ret T × List T
  | .push v => let r := try_push bound l v; (.pushed r.1, r.2)
  | .pop out => let r := try_pop l out; (.popped r.1 r.2.1, r.2.2)

/-- Performs the calls one after the other on the list queue. -/
def run (bound : Nat) : List T → List (SPSCQueue.Call T) → List (SPSCQueue.Ret T) × List T
  | l, [] => ([], l)
  | l, c :: cs =>
    let r := call bound l c
    let rest := run bound r.2 cs
    (r.1 :: rest.1, rest.2)

end ListQueue

/-! ## Representation relation and index invariant of the ring buffer -/

namespace SPSCQueue

variable {T : Type}

/-- The ring buffer `q` of capacity parameter `C` holds exactly the elements of
`l`, oldest first, in the slots `head_, head_ + 1, ...` (indices modulo `C`). -/
def Holds (C : Nat) (q : SPSCQueue T) (l : List T) : Prop :=
  q.head_ < C ∧ q.tail_ < C ∧ q.buffer_.length = C ∧
  l.length = (if q.tail_ ≥ q.head_ then q.tail_ - q.head_ else C - q.head_ + q.tail_) ∧
  ∀ i, i < l.length → q.buffer_[(q.head_ + i) % C]? = l[i]?

/-- Both indices address a slot of the array. -/
def InRange (C : Nat) (q : SPSCQueue T) : Prop := q.head_ < C ∧ q.tail_ < C

end SPSCQueue

/-! ## `include/message.hpp`, `include/config.hpp` -/

/-- The fields of `struct Message`; `uint8_t` and `uint64_t` fields are natural
numbers. -/
structure Message where
  msg_type : Nat
  producer_id : Nat
  sequence_number : Nat
  timestamp_ns : Nat
  processor_id : Nat
  processing_ts_ns : Nat
  stage1_entry_ns : Nat
  stage1_exit_ns : Nat
  processing_entry_ns : Nat
  processing_exit_ns : Nat
  stage2_entry_ns : Nat
  stage2_exit_ns : Nat
deriving DecidableEq, Repr

/-- The default constructor `Message()`: every field is zero. -/
def Message.new : Message :=
  { msg_type := 0, producer_id := 0, sequence_number := 0, timestamp_ns := 0,
    processor_id := 0, processing_ts_ns := 0, stage1_entry_ns := 0, stage1_exit_ns := 0,
    processing_entry_ns := 0, processing_exit_ns := 0, stage2_entry_ns := 0,
    stage2_exit_ns := 0 }

/-- `struct Stage1Rule`. -/
structure Stage1Rule where
  msg_type : Nat
  processors : List Nat
deriving DecidableEq, Repr

/-- `struct Stage2Rule`. -/
structure Stage2Rule where
  msg_type : Nat
  strategy : Nat
  ordering_required : Bool
deriving DecidableEq, Repr

/-! ## `std::unordered_map` with `uint8_t` keys -/

namespace UnorderedMap

variable {V : Type}

/-- `m.find(k)`: `none` stands for `m.end()`. -/
def find (m : List (Nat × V)) (k : Nat) : Option V :=
  match m with
  | [] => none
  | (k', v) :: rest => if k' = k then some v else find rest k

/-- `m[k] = v`: inserts the key or replaces the value it is mapped to. -/
def assign (m : List (Nat × V)) (k : Nat) (v : V) : List (Nat × V) :=
  (k, v) :: m.filter (fun e => decide (e.1 ≠ k))

end UnorderedMap

/-! ## Faults, shared state and the other threads -/

/-- Reasons for which the model of a member function gives no result. -/
inductive Fault where
  | out_of_fuel
  | out_of_bounds
  | division_by_zero
deriving DecidableEq, Repr

/-- The state shared between the threads: the flag `g_running`, the reading of
the clock, the queues (a `std::shared_ptr` to a queue is the position of the
queue in `queues`) and the counters `stats_.messages_processed` and
`stats_.messages_produced`. -/
structure World where
  running : Bool
  clock : Nat
  queues : List (SPSCQueue Message)
  messages_processed : Nat
  messages_produced : Nat := 0
deriving DecidableEq, Repr

/-- What the rest of the system may do between two steps of the thread under
study: store to the flag, let time pass, push into a queue or pop from one. -/
inductive EnvAction where
  | store_running (b : Bool)
  | clock (t : Nat)
  | push (q : Nat) (m : Message)
  | pop (q : Nat)
deriving DecidableEq, Repr

namespace World

/-- `Message::get_timestamp_ns()`: the clock reading cast to `uint64_t`. -/
def get_timestamp_ns (w : World) : Nat := w.clock % SIZE_T_MOD

/-- Replaces queue number `i`. -/
def setQueue (w : World) (i : Nat) (q : SPSCQueue Message) : World :=
  { w with queues := w.queues.set i q }

/-- Effect of one action of another thread. -/
def act (C : Nat) (w : World) : EnvAction → World
  | .store_running b => { w with running := b }
  | .clock t => { w with clock := t }
  | .push i m =>
    match w.queues[i]? with
    | none => w
    | some q => w.setQueue i (q.try_push C m).2
  | .pop i =>
    match w.queues[i]? with
    | none => w
    | some q => w.setQueue i (q.try_pop C Message.new).2.2

/-- Effect of a finite burst of actions of other threads. -/
def acts (C : Nat) (w : World) (as : List EnvAction) : World :=
  as.foldl (act C) w

end World

/-- What a worker thread did to its queues, in order: a successful `try_pop`
from its input number `input`, or a successful `try_push` to its output number
`output`. Kept for stating properties; the C++ keeps no such record. -/
inductive Event where
  | popped (input : Nat) (msg : Message)
  | pushed (output : Nat) (msg : Message)
deriving DecidableEq, Repr

/-- The record consists of pop/push pairs: every popped message `m` is followed
at once by exactly one push, of a message `m'` to an output `j` with
`R m j m'`. -/
inductive Forwarded (R : Message → Nat → Message → Prop) : List Event → Prop where
  | nil : Forwarded R []
  | snoc (log : List Event) (i j : Nat) (m m' : Message) :
      Forwarded R log → R m j m' →
      Forwarded R (log ++ [Event.popped i m, Event.pushed j m'])

/-- Number of successful pops in a record. -/
def Event.pops (log : List Event) : Nat :=
  (log.filter (fun e => match e with | .popped _ _ => true | .pushed _ _ => false)).length

/-- Number of successful pushes in a record. -/
def Event.pushes (log : List Event) : Nat :=
  (log.filter (fun e => match e with | .popped _ _ => false | .pushed _ _ => true)).length
/-! ## `src/components/router.cpp`: `Stage1Router` -/

/-- Data members of `Stage1Router`. `input_queues_` and `output_queues_` list
the positions in `World.queues` of the queues the two vectors point to. -/
structure Stage1Router where
  routing_table_ : List (Nat × List Nat)
  input_queues_ : List Nat
  output_queues_ : List Nat
  rr_counters_ : List (Nat × Nat)
deriving DecidableEq, Repr

namespace Stage1Router

/-- The constructor: for each rule in turn, `routing_table_[rule.msg_type] =
rule.processors` and `rr_counters_[rule.msg_type].store(0)`. -/
def new (rules : List Stage1Rule) (input_queues output_queues : List Nat) : Stage1Router :=
  rules.foldl
    (fun r rule =>
      { r with
        routing_table_ := UnorderedMap.assign r.routing_table_ rule.msg_type rule.processors
        rr_counters_ := UnorderedMap.assign r.rr_counters_ rule.msg_type 0 })
    { routing_table_ := [], input_queues_ := input_queues,
      output_queues_ := output_queues, rr_counters_ := [] }

/-- The fallback `msg_type % static_cast<uint8_t>(output_queues_.size())`. -/
def fallback (count : Nat) (msg_type : Nat) : Except Fault Nat :=
  if count % 256 = 0 then .error .division_by_zero
  else .ok (msg_type % (count % 256))

/-- `uint8_t select_processor(uint8_t msg_type)`, with the router after the
call (the counter of the type may have been incremented). -/
def select_processor (r : Stage1Router) (msg_type : Nat) :
    Except Fault (Nat × Stage1Router) :=
  match UnorderedMap.find r.routing_table_ msg_type with
  | none => (fallback r.output_queues_.length msg_type).map (fun p => (p, r))
  | some processors =>
    if processors.isEmpty then
      (fallback r.output_queues_.length msg_type).map (fun p => (p, r))
    else if processors.length = 1 then
      .ok (processors.getD 0 0, r)
    else
      let counter := (UnorderedMap.find r.rr_counters_ msg_type).getD 0
      .ok (processors.getD (counter % processors.length) 0,
        { r with rr_counters_ :=
            UnorderedMap.assign r.rr_counters_ msg_type ((counter + 1) % SIZE_T_MOD) })

/-- Calls `select_processor` for each message type of the list in turn and
collects the results. -/
def select_all : Stage1Router → List Nat → Except Fault (List Nat × Stage1Router)
  | r, [] => .ok ([], r)
  | r, t :: ts =>
    match select_processor r t with
    | .error e => .error e
    | .ok (p, r') =>
      match select_all r' ts with
      | .error e => .error e
      | .ok (ps, r'') => .ok (p :: ps, r'')

/-- The candidate list in force for a type: that of the last rule naming the
type, since each rule overwrites the table entry of its type. -/
def rule_for (rules : List Stage1Rule) (t : Nat) : Option (List Nat) :=
  ((rules.filter (fun rule => decide (rule.msg_type = t))).getLast?).map
    (fun rule => rule.processors)

end Stage1Router

/-- Where a router thread stands in `run`. -/
inductive RouterPC where
  /-- about to evaluate `while (running.load(...))` -/
  | loop_head
  /-- about to call `try_pop` on input number `i` in the `for` loop -/
  | poll (i : Nat) (processed_any : Bool)
  /-- inside `while (true)`: about to stamp the exit time and call `try_push` -/
  | retry (i : Nat) (processed_any : Bool) (msg : Message) (target : Nat)
  /-- `run` has returned -/
  | returned
deriving DecidableEq, Repr

/-- Continuation of the `for` loop over the `n` input queues at position `i`;
after the last queue comes the next evaluation of the `while` condition. -/
def RouterPC.for_next (n i : Nat) (processed_any : Bool) : RouterPC :=
  if i < n then .poll i processed_any else .loop_head

/-- A `Stage1Router` thread: the object, where it stands, what it has done. -/
structure Stage1Thread where
  router : Stage1Router
  pc : RouterPC
  log : List Event
deriving DecidableEq, Repr

namespace Stage1Router

/-- The queue behind entry `i` of a vector of queue pointers. -/
def deref (w : World) (ptrs : List Nat) (i : Nat) : Option (Nat × SPSCQueue Message) :=
  match ptrs[i]? with
  | none => none
  | some p =>
    match w.queues[p]? with
    | none => none
    | some q => some (p, q)

/-- One step of `Stage1Router::run`: up to and including its next access to
the flag or to a queue. -/
def step (C : Nat) (s : Stage1Thread) (w : World) : Except Fault (Stage1Thread × World) :=
  match s.pc with
  | .returned => .ok (s, w)
  | .loop_head =>
    if w.running then
      .ok ({ s with pc := RouterPC.for_next s.router.input_queues_.length 0 false }, w)
    else
      .ok ({ s with pc := .returned }, w)
  | .poll i processed_any =>
    match deref w s.router.input_queues_ i with
    | none => .error .out_of_bounds
    | some (p, q) =>
      let r := q.try_pop C Message.new
      if r.1 then
        let msg := { r.2.1 with stage1_entry_ns := w.get_timestamp_ns }
        match s.router.select_processor msg.msg_type with
        | .error e => .error e
        | .ok (processor_id, router) =>
          .ok ({ router := router, pc := .retry i processed_any msg processor_id,
                 log := s.log ++ [Event.popped i r.2.1] }, w.setQueue p r.2.2)
      else
        .ok ({ s with pc :=
          RouterPC.for_next s.router.input_queues_.length (i + 1) processed_any }, w)
  | .retry i processed_any msg processor_id =>
    let msg := { msg with stage1_exit_ns := w.get_timestamp_ns }
    match deref w s.router.output_queues_ processor_id with
    | none => .error .out_of_bounds
    | some (p, q) =>
      let r := q.try_push C msg
      if r.1 then
        .ok ({ s with pc := RouterPC.for_next s.router.input_queues_.length (i + 1) true,
                      log := s.log ++ [Event.pushed processor_id msg] }, w.setQueue p r.2)
      else
        .ok ({ s with pc := .retry i processed_any msg processor_id }, w)

/-- Runs the thread against a schedule: before each step the other threads
perform the next burst of actions. The schedule is also the fuel: when it is
used up before `run` has returned the result is `out_of_fuel`. -/
def exec (C : Nat) : List (List EnvAction) → Stage1Thread → World →
    Except Fault (Stage1Thread × World)
  | [], s, w => if s.pc = .returned then .ok (s, w) else .error .out_of_fuel
  | as :: rest, s, w =>
    if s.pc = .returned then .ok (s, w)
    else
      match step C s (w.acts C as) with
      | .error e => .error e
      | .ok (s', w') => exec C rest s' w'

/-- `void Stage1Router::run(std::atomic<bool>& running)` from its first
statement. -/
def run (C : Nat) (schedule : List (List EnvAction)) (r : Stage1Router) (w : World) :
    Except Fault (Stage1Thread × World) :=
  exec C schedule { router := r, pc := .loop_head, log := [] } w

end Stage1Router

/-! ## `src/components/router.cpp`: `Stage2Router` -/

/-- Data members of `Stage2Router`. -/
structure Stage2Router where
  routing_table_ : List (Nat × Nat)
  input_queues_ : List Nat
  output_queues_ : List Nat
deriving DecidableEq, Repr

/-- A `Stage2Router` thread: the object, where it stands, what it has done. -/
structure Stage2Thread where
  router : Stage2Router
  pc : RouterPC
  log : List Event
deriving DecidableEq, Repr

namespace Stage2Router

/-- The constructor: for each rule in turn, `routing_table_[rule.msg_type] =
rule.strategy`. -/
def new (rules : List Stage2Rule) (input_queues output_queues : List Nat) : Stage2Router :=
  rules.foldl
    (fun r rule =>
      { r with routing_table_ :=
          UnorderedMap.assign r.routing_table_ rule.msg_type rule.strategy })
    { routing_table_ := [], input_queues_ := input_queues, output_queues_ := output_queues }

/-- The expression computing `strategy_id` in `run`: the table entry of the
type, else `msg_type % static_cast<uint8_t>(output_queues_.size())`. -/
def select_strategy (r : Stage2Router) (msg_type : Nat) : Except Fault Nat :=
  match UnorderedMap.find r.routing_table_ msg_type with
  | some strategy => .ok strategy
  | none => Stage1Router.fallback r.output_queues_.length msg_type

/-- One step of `Stage2Router::run`: up to and including its next access to
the flag or to a queue. -/
def step (C : Nat) (s : Stage2Thread) (w : World) : Except Fault (Stage2Thread × World) :=
  match s.pc with
  | .returned => .ok (s, w)
  | .loop_head =>
    if w.running then
      .ok ({ s with pc := RouterPC.for_next s.router.input_queues_.length 0 false }, w)
    else
      .ok ({ s with pc := .returned }, w)
  | .poll i processed_any =>
    match Stage1Router.deref w s.router.input_queues_ i with
    | none => .error .out_of_bounds
    | some (p, q) =>
      let r := q.try_pop C Message.new
      if r.1 then
        let msg := { r.2.1 with stage2_entry_ns := w.get_timestamp_ns }
        match s.router.select_strategy msg.msg_type with
        | .error e => .error e
        | .ok strategy_id =>
          .ok ({ s with pc := .retry i processed_any msg strategy_id,
                        log := s.log ++ [Event.popped i r.2.1] }, w.setQueue p r.2.2)
      else
        .ok ({ s with pc :=
          RouterPC.for_next s.router.input_queues_.length (i + 1) processed_any }, w)
  | .retry i processed_any msg strategy_id =>
    let msg := { msg with stage2_exit_ns := w.get_timestamp_ns }
    match Stage1Router.deref w s.router.output_queues_ strategy_id with
    | none => .error .out_of_bounds
    | some (p, q) =>
      let r := q.try_push C msg
      if r.1 then
        .ok ({ s with pc := RouterPC.for_next s.router.input_queues_.length (i + 1) true,
                      log := s.log ++ [Event.pushed strategy_id msg] }, w.setQueue p r.2)
      else
        .ok ({ s with pc := .retry i processed_any msg strategy_id }, w)

/-- Runs the thread against a schedule of bursts of actions of the other
threads, one burst before each step; the schedule is also the fuel. -/
def exec (C : Nat) : List (List EnvAction) → Stage2Thread → World →
    Except Fault (Stage2Thread × World)
  | [], s, w => if s.pc = .returned then .ok (s, w) else .error .out_of_fuel
  | as :: rest, s, w =>
    if s.pc = .returned then .ok (s, w)
    else
      match step C s (w.acts C as) with
      | .error e => .error e
      | .ok (s', w') => exec C rest s' w'

/-- `void Stage2Router::run(std::atomic<bool>& running)` from its first
statement. -/
def run (C : Nat) (schedule : List (List EnvAction)) (r : Stage2Router) (w : World) :
    Except Fault (Stage2Thread × World) :=
  exec C schedule { router := r, pc := .loop_head, log := [] } w

/-- The strategy in force for a type: that of the last rule naming the type,
since each rule overwrites the table entry of its type. -/
def rule_for (rules : List Stage2Rule) (t : Nat) : Option Nat :=
  ((rules.filter (fun rule => decide (rule.msg_type = t))).getLast?).map
    (fun rule => rule.strategy)

/-- The destination the specification gives for type `t` with `count`
strategies: the strategy of the Stage2 rule for `t`, or `t mod count` when no
rule names `t`. -/
def destination (rules : List Stage2Rule) (count : Nat) (t : Nat) : Nat :=
  match rule_for rules t with
  | some strategy => strategy
  | none => t % count

end Stage2Router

/-! ## `src/components/processor.cpp` -/

/-- Data members of `Processor`; the two queue pointers are positions in
`World.queues`, and `stats_.messages_processed` is `World.messages_processed`. -/
structure Processor where
  id_ : Nat
  input_queue_ : Nat
  output_queue_ : Nat
  processing_times_ : List (Nat × Nat)
deriving DecidableEq, Repr

/-- Where a processor thread stands in `run`. -/
inductive ProcessorPC where
  /-- about to evaluate the outer `while (running.load(...))` -/
  | loop_head
  /-- about to call `input_queue_->try_pop(msg)` -/
  | poll
  /-- in `busy_wait_ns(ns)`: about to read `start` -/
  | wait_start (msg : Message) (ns : Nat)
  /-- in `busy_wait_ns(ns)`: about to read `now` and compare -/
  | waiting (msg : Message) (ns : Nat) (start : Nat)
  /-- about to stamp `processing_exit_ns` and `processing_ts_ns` -/
  | stamp_exit (msg : Message)
  /-- about to evaluate the inner `while (running.load(...))` -/
  | push_head (msg : Message)
  /-- about to call `output_queue_->try_push(msg)` -/
  | push (msg : Message)
  /-- `run` has returned -/
  | returned
deriving DecidableEq, Repr

/-- A `Processor` thread: the object, where it stands, what it has done. -/
structure ProcessorThread where
  processor : Processor
  pc : ProcessorPC
  log : List Event
deriving DecidableEq, Repr

namespace Processor

/-- `uint64_t get_processing_time(uint8_t msg_type) const`. -/
def get_processing_time (p : Processor) (msg_type : Nat) : Nat :=
  match UnorderedMap.find p.processing_times_ msg_type with
  | some ns => ns
  | none => 100

/-- One step of `Processor::run`: up to and including its next access to the
flag, to the clock after the first, or to a queue. -/
def step (C : Nat) (s : ProcessorThread) (w : World) :
    Except Fault (ProcessorThread × World) :=
  match s.pc with
  | .returned => .ok (s, w)
  | .loop_head =>
    if w.running then .ok ({ s with pc := .poll }, w)
    else .ok ({ s with pc := .returned }, w)
  | .poll =>
    match w.queues[s.processor.input_queue_]? with
    | none => .error .out_of_bounds
    | some q =>
      let r := q.try_pop C Message.new
      if r.1 then
        let msg := { r.2.1 with processing_entry_ns := w.get_timestamp_ns,
                                processor_id := s.processor.id_ }
        let processing_time := s.processor.get_processing_time msg.msg_type
        .ok ({ s with pc := if processing_time > 0 then .wait_start msg processing_time
                            else .stamp_exit msg,
                      log := s.log ++ [Event.popped 0 r.2.1] },
             w.setQueue s.processor.input_queue_ r.2.2)
      else
        .ok ({ s with pc := .loop_head }, w)
  | .wait_start msg ns => .ok ({ s with pc := .waiting msg ns w.clock }, w)
  | .waiting msg ns start =>
    let elapsed := (((w.clock : Int) - (start : Int)) % (SIZE_T_MOD : Int)).toNat
    if elapsed ≥ ns then .ok ({ s with pc := .stamp_exit msg }, w)
    else .ok (s, w)
  | .stamp_exit msg =>
    let msg := { msg with processing_exit_ns := w.get_timestamp_ns }
    let msg := { msg with processing_ts_ns := msg.processing_exit_ns }
    .ok ({ s with pc := .push_head msg }, w)
  | .push_head msg =>
    if w.running then .ok ({ s with pc := .push msg }, w)
    else .ok ({ s with pc := .loop_head }, w)
  | .push msg =>
    match w.queues[s.processor.output_queue_]? with
    | none => .error .out_of_bounds
    | some q =>
      let r := q.try_push C msg
      if r.1 then
        .ok ({ s with pc := .loop_head, log := s.log ++ [Event.pushed 0 msg] },
             { (w.setQueue s.processor.output_queue_ r.2) with
               messages_processed := (w.messages_processed + 1) % SIZE_T_MOD })
      else
        .ok ({ s with pc := .push_head msg }, w)

/-- Runs the thread against a schedule of bursts of actions of the other
threads, one burst before each step; the schedule is also the fuel. -/
def exec (C : Nat) : List (List EnvAction) → ProcessorThread → World →
    Except Fault (ProcessorThread × World)
  | [], s, w => if s.pc = .returned then .ok (s, w) else .error .out_of_fuel
  | as :: rest, s, w =>
    if s.pc = .returned then .ok (s, w)
    else
      match step C s (w.acts C as) with
      | .error e => .error e
      | .ok (s', w') => exec C rest s' w'

/-- `void Processor::run(std::atomic<bool>& running)` from its first statement. -/
def run (C : Nat) (schedule : List (List EnvAction)) (p : Processor) (w : World) :
    Except Fault (ProcessorThread × World) :=
  exec C schedule { processor := p, pc := .loop_head, log := [] } w

end Processor

/-! ## Concrete scenarios used to exercise the model -/

namespace Scenario

/-- A message of type 3 with sequence number 1. -/
def msgA : Message := { Message.new with msg_type := 3, sequence_number := 1, timestamp_ns := 2 }

/-- A message of type 3 with sequence number 2. -/
def msgB : Message := { Message.new with msg_type := 3, sequence_number := 2, timestamp_ns := 3 }

/-- An empty queue of capacity parameter 4. -/
def emptyQueue : SPSCQueue Message := SPSCQueue.fresh (List.replicate 4 Message.new)

/-- A queue of capacity parameter 4 into which `msgA` has been pushed. -/
def queueA : SPSCQueue Message := (SPSCQueue.try_push 4 emptyQueue msgA).2

/-- A queue of capacity parameter 4 into which `msgA` then `msgB` have been pushed. -/
def queueAB : SPSCQueue Message := (SPSCQueue.try_push 4 queueA msgB).2

/-- The flag is set, queue 0 holds `msgA`, queue 1 is empty. -/
def worldA : World :=
  { running := true, clock := 5, queues := [queueA, emptyQueue], messages_processed := 0 }

/-- The flag is set, queue 0 holds `msgA` and `msgB`, queue 1 is empty. -/
def worldAB : World :=
  { running := true, clock := 5, queues := [queueAB, emptyQueue], messages_processed := 0 }

/-- Processor 0 reading queue 0 and writing queue 1, with no configured
processing time (so 100 ns for every type). -/
def processor : Processor :=
  { id_ := 0, input_queue_ := 0, output_queue_ := 1, processing_times_ := [] }

/-- The flag is cleared while the processor busy-waits on the message it has
popped; no other thread touches the queues. -/
def stopDuringWait : List (List EnvAction) :=
  [[], [], [], [.clock 200, .store_running false], [], [], []]

/-- The flag is cleared right after the first message has been popped; no other
thread touches the queues. -/
def stopAfterFirstPop : List (List EnvAction) :=
  [[], [], [.clock 9, .store_running false], [], []]

/-- The flag is cleared after the processor has pushed the first message; no
other thread touches the queues. -/
def stopAfterFirstPush : List (List EnvAction) :=
  [[], [], [], [.clock 200], [], [], [], [.store_running false]]

/-- A queue of capacity parameter 2 (one usable slot) holding `msgA`. -/
def smallQueueA : SPSCQueue Message :=
  (SPSCQueue.try_push 2 (SPSCQueue.fresh [Message.new, Message.new]) msgA).2

/-- A queue of capacity parameter 2 (one usable slot) holding `msgB`: it is full. -/
def smallQueueB : SPSCQueue Message :=
  (SPSCQueue.try_push 2 (SPSCQueue.fresh [Message.new, Message.new]) msgB).2

/-- The flag is set, queue 0 holds `msgA`, queue 1 is full. -/
def worldFull : World :=
  { running := true, clock := 5, queues := [smallQueueA, smallQueueB],
    messages_processed := 0 }

/-- The flag is cleared while a router retries its push on the full queue 1;
two steps later the consumer of queue 1 pops from it. -/
def stopWhileFull : List (List EnvAction) :=
  [[], [], [.store_running false], [.clock 9], [.pop 1], []]

/-- The flag is cleared while the processor retries its push on the full
queue 1; no other thread touches the queues. -/
def stopWhileFullProcessor : List (List EnvAction) :=
  [[], [], [], [.clock 200], [], [], [], [.store_running false], []]

/-- A Stage1 router from queue 0 to queue 1 with the rule `3 -> [0]`. -/
def stage1 : Stage1Router := Stage1Router.new [⟨3, [0]⟩] [0] [1]

/-- A Stage2 router from queue 0 to queue 1 with the rule `3 -> 0`. -/
def stage2 : Stage2Router := Stage2Router.new [⟨3, 0, true⟩] [0] [1]

end Scenario

/-! ## Relations between a message as popped and as pushed -/

/-- `m'` is `m` except possibly for the two Stage1 stamps. -/
def Message.restamped1 (m m' : Message) : Prop :=
  m' = { m with stage1_entry_ns := m'.stage1_entry_ns, stage1_exit_ns := m'.stage1_exit_ns }

/-- `m'` is `m` except possibly for the two Stage2 stamps. -/
def Message.restamped2 (m m' : Message) : Prop :=
  m' = { m with stage2_entry_ns := m'.stage2_entry_ns, stage2_exit_ns := m'.stage2_exit_ns }

/-- What holds of a `Stage1Router` thread at every step: its record is made of
pop/push pairs, followed by the pop of the message in hand when it stands in
the retry loop. -/
def Stage1Router.Inv (s : Stage1Thread) : Prop :=
  match s.pc with
  | .retry i _ msg _ =>
    ∃ log m, s.log = log ++ [Event.popped i m] ∧
      Forwarded (fun a _ b => a.restamped1 b) log ∧ m.restamped1 msg
  | _ => Forwarded (fun a _ b => a.restamped1 b) s.log

/-- What holds of a `Stage2Router` thread built as `r` at every step: the
router object is still `r`, its record is made of pop/push pairs in which the
output is the one `select_strategy` gives for the type, followed by the pop of
the message in hand when it stands in the retry loop. -/
def Stage2Router.Inv (r : Stage2Router) (s : Stage2Thread) : Prop :=
  s.router = r ∧
  match s.pc with
  | .retry i _ msg target =>
    ∃ log m, s.log = log ++ [Event.popped i m] ∧
      Forwarded (fun a j b => a.restamped2 b ∧ r.select_strategy a.msg_type = .ok j) log ∧
      m.restamped2 msg ∧ r.select_strategy m.msg_type = .ok target
  | _ => Forwarded (fun a j b => a.restamped2 b ∧ r.select_strategy a.msg_type = .ok j) s.log
/-! ## Double-precision arithmetic

IEEE arithmetic cannot be evaluated inside a proof. The functions of the
sources that compute with `double` take the operations they use as a
parameter, and a property that needs a law of these operations states it as a
hypothesis. `DoubleOps.exact` interprets them by exact rational arithmetic. -/

/-- The operations on `double` used by the sources. -/
structure DoubleOps (D : Type) where
  /-- the value of a decimal literal such as `1000.0` or `0.99` -/
  lit : ℚ → D
  /-- the conversion `static_cast<double>(n)` of an unsigned integer -/
  ofNat : Nat → D
  /-- the sum `a + b` -/
  add : D → D → D
  /-- the difference `a - b` -/
  sub : D → D → D
  /-- the product `a * b` -/
  mul : D → D → D
  /-- the quotient `a / b` -/
  div : D → D → D
  /-- the absolute value `std::abs(a)` -/
  abs : D → D
  /-- the comparison `a < b` -/
  lt : D → D → Bool
  /-- the conversion `static_cast<size_t>(a)` -/
  toSize : D → Nat

/-- The operations computed exactly, on rational numbers. -/
def DoubleOps.exact : DoubleOps ℚ :=
  { lit := fun x => x
    ofNat := fun n => (n : ℚ)
    add := fun a b => a + b
    sub := fun a b => a - b
    mul := fun a b => a * b
    div := fun a b => a / b
    abs := fun a => |a|
    lt := fun a b => decide (a < b)
    toSize := fun a => Int.toNat ⌊a⌋ }

/-- The difference `a - b` evaluated in `uint64_t`. -/
def uint64_sub (a b : Nat) : Nat := (a + SIZE_T_MOD - b) % SIZE_T_MOD

/-! ## `include/message.hpp`: derived latencies -/

namespace Message

variable {D : Type}

/-- `static Message create(uint8_t type, uint8_t producer_id, uint64_t seq_num)`,
where `now` is what `get_timestamp_ns()` returns. -/
def create (type producer_id seq_num now : Nat) : Message :=
  { Message.new with msg_type := type, producer_id := producer_id,
                     sequence_number := seq_num, timestamp_ns := now }

/-- `double end_to_end_latency_us() const`. -/
def end_to_end_latency_us (ops : DoubleOps D) (m : Message) : D :=
  if m.stage2_exit_ns > m.timestamp_ns then
    ops.div (ops.ofNat (uint64_sub m.stage2_exit_ns m.timestamp_ns)) (ops.lit 1000)
  else ops.lit 0

/-- `double stage1_latency_us() const`. -/
def stage1_latency_us (ops : DoubleOps D) (m : Message) : D :=
  if m.stage1_exit_ns > m.stage1_entry_ns then
    ops.div (ops.ofNat (uint64_sub m.stage1_exit_ns m.stage1_entry_ns)) (ops.lit 1000)
  else ops.lit 0

/-- `double processing_latency_us() const`. -/
def processing_latency_us (ops : DoubleOps D) (m : Message) : D :=
  if m.processing_exit_ns > m.processing_entry_ns then
    ops.div (ops.ofNat (uint64_sub m.processing_exit_ns m.processing_entry_ns)) (ops.lit 1000)
  else ops.lit 0

/-- `double stage2_latency_us() const`. -/
def stage2_latency_us (ops : DoubleOps D) (m : Message) : D :=
  if m.stage2_exit_ns > m.stage2_entry_ns then
    ops.div (ops.ofNat (uint64_sub m.stage2_exit_ns m.stage2_entry_ns)) (ops.lit 1000)
  else ops.lit 0

end Message

/-- A message whose Stage1 exit stamp lies before its entry stamp (the clock
went backwards), whose processing stamps coincide, and whose Stage2 exit stamp
lies 2500 ns after the entry and 6500 ns after the creation. -/
def Scenario.stamped : Message :=
  { Message.new with timestamp_ns := 1000, stage1_entry_ns := 3000, stage1_exit_ns := 2000,
                     processing_entry_ns := 4000, processing_exit_ns := 4000,
                     stage2_entry_ns := 5000, stage2_exit_ns := 7500 }

/-! ## `include/statistics.hpp`: `OrderTracker` -/

/-- Data members of `struct OrderTracker`. The `std::map` is an association
list with unique keys; the two atomic counters are `uint64_t` values. -/
structure OrderTracker where
  last_sequence : List (Nat × Nat)
  messages_received : Nat
  order_violations : Nat
deriving DecidableEq, Repr

namespace OrderTracker

/-- A default-constructed tracker: empty map, both counters zero. -/
def new : OrderTracker :=
  { last_sequence := [], messages_received := 0, order_violations := 0 }

/-- `void track(const Message& msg)`. -/
def track (t : OrderTracker) (msg : Message) : OrderTracker :=
  let messages_received := (t.messages_received + 1) % SIZE_T_MOD
  let key := msg.msg_type
  let order_violations :=
    match UnorderedMap.find t.last_sequence key with
    | some last =>
      if msg.sequence_number ≤ last then (t.order_violations + 1) % SIZE_T_MOD
      else t.order_violations
    | none => t.order_violations
  { last_sequence := UnorderedMap.assign t.last_sequence key msg.sequence_number,
    messages_received := messages_received,
    order_violations := order_violations }

/-- `bool is_ordered() const`. -/
def is_ordered (t : OrderTracker) : Bool := decide (t.order_violations = 0)

/-- Calls `track` for each message of the list in turn. -/
def track_all (t : OrderTracker) (msgs : List Message) : OrderTracker :=
  msgs.foldl track t

end OrderTracker

/-! ## Order violations of a sequence of messages, as the specification counts them -/

namespace Delivery

/-- The sequence number of the last message of type `ty` in `history`, if any:
"the preceding message of the same type". -/
def preceding (history : List Message) (ty : Nat) : Option Nat :=
  ((history.filter (fun m => decide (m.msg_type = ty))).getLast?).map
    (fun m => m.sequence_number)

/-- The message `m`, arriving after `history`, has a sequence number not
greater than that of the preceding message of its type. -/
def out_of_order (history : List Message) (m : Message) : Bool :=
  match preceding history m.msg_type with
  | some prev => decide (m.sequence_number ≤ prev)
  | none => false

/-- Number of positions of `msgs`, arriving after `history`, that are out of
order. -/
def violations_after (history : List Message) : List Message → Nat
  | [] => 0
  | m :: rest =>
    (if out_of_order history m then 1 else 0) + violations_after (history ++ [m]) rest

/-- Number of positions of `msgs` at which the sequence number is not greater
than that of the preceding message of the same type. -/
def violation_count (msgs : List Message) : Nat := violations_after [] msgs

/-- The sequence numbers of the messages of type `ty`, in order of arrival. -/
def sequence_of (msgs : List Message) (ty : Nat) : List Nat :=
  (msgs.filter (fun m => decide (m.msg_type = ty))).map (fun m => m.sequence_number)

end Delivery

namespace Delivery

/-- The sequence `l`, continuing after a last value `prev` if there is one, is
strictly increasing from one element to the next. -/
def IncreasingAfter (prev : Option Nat) (l : List Nat) : Prop :=
  match prev with
  | some a => List.Chain (· < ·) a l
  | none => List.Chain' (· < ·) l

end Delivery

/-! ## `include/statistics.hpp`: `LatencyStats` -/

/-- Data member of `struct LatencyStats`: the recorded samples, of type
`double`. -/
structure LatencyStats (D : Type) where
  latencies : List D
deriving DecidableEq, Repr

namespace LatencyStats

variable {D : Type}

/-- `void add(double latency_us)`. -/
def add (s : LatencyStats D) (latency_us : D) : LatencyStats D :=
  { latencies := s.latencies ++ [latency_us] }

/-- `void clear()`. -/
def clear (_s : LatencyStats D) : LatencyStats D := { latencies := [] }

/-- The ordering `a <= b` that `operator<` gives: `b < a` is false. -/
def le (ops : DoubleOps D) (a b : D) : Prop := ops.lt b a = false

instance (ops : DoubleOps D) : DecidableRel (le ops) :=
  fun a b => inferInstanceAs (Decidable (ops.lt b a = false))

/-- `std::sort(sorted.begin(), sorted.end())`: the samples in ascending order. -/
def sort (ops : DoubleOps D) (samples : List D) : List D :=
  samples.insertionSort (le ops)

/-- `double percentile(double p) const`. -/
def percentile (ops : DoubleOps D) (s : LatencyStats D) (p : D) : D :=
  if s.latencies.isEmpty then ops.lit 0
  else
    let sorted := sort ops s.latencies
    let index := ops.toSize (ops.mul p (ops.ofNat sorted.length))
    let index := if index ≥ sorted.length then sorted.length - 1 else index
    sorted.getD index (ops.lit 0)

/-- `double p50() const`. -/
def p50 (ops : DoubleOps D) (s : LatencyStats D) : D := percentile ops s (ops.lit 0.50)

/-- `double p90() const`. -/
def p90 (ops : DoubleOps D) (s : LatencyStats D) : D := percentile ops s (ops.lit 0.90)

/-- `double p99() const`. -/
def p99 (ops : DoubleOps D) (s : LatencyStats D) : D := percentile ops s (ops.lit 0.99)

/-- `double p999() const`. -/
def p999 (ops : DoubleOps D) (s : LatencyStats D) : D := percentile ops s (ops.lit 0.999)

/-- `*std::max_element(first, last)` on a non-empty range starting with
`first`: the first of the greatest elements. -/
def max_element (ops : DoubleOps D) (first : D) (rest : List D) : D :=
  rest.foldl (fun largest x => if ops.lt largest x then x else largest) first

/-- `double max() const`. -/
def max (ops : DoubleOps D) (s : LatencyStats D) : D :=
  match s.latencies with
  | [] => ops.lit 0
  | first :: rest => max_element ops first rest

end LatencyStats

/-! ## `include/statistics.hpp`: `SystemStatistics` -/

/-- Data members of `class SystemStatistics` (the mutex apart). -/
structure SystemStatistics (D : Type) where
  messages_produced : Nat
  messages_processed : Nat
  messages_delivered : Nat
  messages_lost : Nat
  stage1_queue_depths : List Nat
  stage2_queue_depths : List Nat
  stage1_latencies : LatencyStats D
  processing_latencies : LatencyStats D
  stage2_latencies : LatencyStats D
  total_latencies : LatencyStats D
  producer_order_trackers : List OrderTracker
deriving DecidableEq, Repr

namespace SystemStatistics

variable {D : Type}

/-- The constructor `SystemStatistics(num_producers, num_processors,
num_strategies)`. -/
def new (num_producers num_processors num_strategies : Nat) : SystemStatistics D :=
  { messages_produced := 0, messages_processed := 0, messages_delivered := 0,
    messages_lost := 0,
    stage1_queue_depths := List.replicate num_processors 0,
    stage2_queue_depths := List.replicate num_strategies 0,
    stage1_latencies := { latencies := [] },
    processing_latencies := { latencies := [] },
    stage2_latencies := { latencies := [] },
    total_latencies := { latencies := [] },
    producer_order_trackers := List.replicate num_producers OrderTracker.new }

/-- `void record_message_latencies(const Message& msg)`. -/
def record_message_latencies (ops : DoubleOps D) (s : SystemStatistics D) (msg : Message) :
    SystemStatistics D :=
  { s with
    stage1_latencies := s.stage1_latencies.add (msg.stage1_latency_us ops)
    processing_latencies := s.processing_latencies.add (msg.processing_latency_us ops)
    stage2_latencies := s.stage2_latencies.add (msg.stage2_latency_us ops)
    total_latencies := s.total_latencies.add (msg.end_to_end_latency_us ops) }

/-- `void track_message_order(const Message& msg)`. -/
def track_message_order (s : SystemStatistics D) (msg : Message) : SystemStatistics D :=
  match s.producer_order_trackers[msg.producer_id]? with
  | some tracker =>
    { s with producer_order_trackers :=
        s.producer_order_trackers.set msg.producer_id (tracker.track msg) }
  | none => s

/-- `bool validate() const`. -/
def validate (s : SystemStatistics D) : Bool :=
  let produced := s.messages_produced
  let delivered := s.messages_delivered
  if produced ≠ delivered then false
  else s.producer_order_trackers.all (fun tracker => tracker.is_ordered)

/-- `uint64_t total_order_violations() const`. -/
def total_order_violations (s : SystemStatistics D) : Nat :=
  s.producer_order_trackers.foldl
    (fun total tracker => (total + tracker.order_violations) % SIZE_T_MOD) 0

end SystemStatistics

/-- The exit status `main` returns after a run: `stats.validate() ? 0 : 1`
(`src/main.cpp`, last statement of the `try` block). -/
def main_exit_status {D : Type} (stats : SystemStatistics D) : Nat :=
  if stats.validate then 0 else 1

/-- Statistics of a run with two producers in which everything produced was
delivered but the second producer saw one order violation. -/
def Scenario.statsViolation : SystemStatistics ℚ :=
  { (SystemStatistics.new 2 1 1 : SystemStatistics ℚ) with
    messages_produced := 5, messages_delivered := 5,
    producer_order_trackers := [OrderTracker.mk [(3, 9)] 3 0, OrderTracker.mk [(3, 4)] 2 1] }

/-- Statistics of a run with two producers in which everything produced was
delivered in order. -/
def Scenario.statsClean : SystemStatistics ℚ :=
  { (SystemStatistics.new 2 1 1 : SystemStatistics ℚ) with
    messages_produced := 5, messages_delivered := 5,
    producer_order_trackers := [OrderTracker.mk [(3, 9)] 3 0, OrderTracker.mk [(3, 4)] 2 0] }

/-! ## `include/config.hpp`, `src/core/config.cpp`: `SystemConfig::validate` -/

/-- `struct ProducerConfig`; `distribution` maps a message type to a
probability of type `double`. -/
structure ProducerConfig (D : Type) where
  count : Nat
  messages_per_sec : Nat
  distribution : List (Nat × D)
deriving DecidableEq, Repr

/-- `struct ProcessorConfig`. -/
structure ProcessorConfig where
  count : Nat
  processing_times_ns : List (Nat × Nat)
deriving DecidableEq, Repr

/-- `struct StrategyConfig`. -/
structure StrategyConfig where
  count : Nat
  processing_times_ns : List (Nat × Nat)
deriving DecidableEq, Repr

/-- `struct SystemConfig`. -/
structure SystemConfig (D : Type) where
  scenario : String
  duration_secs : Nat
  producers : ProducerConfig D
  processors : ProcessorConfig
  strategies : StrategyConfig
  stage1_rules : List Stage1Rule
  stage2_rules : List Stage2Rule
deriving DecidableEq, Repr

/-- The lines `SystemConfig::validate` writes to `std::cerr`, one constructor
per message, in the order of the source text. -/
inductive Diagnostic (D : Type) where
  | duration_secs_zero
  | producers_count
  | distribution_sum (sum : D)
  | processors_count
  | strategies_count
  | stage1_rules_empty
  | stage1_rule_without_processors (msg_type : Nat)
  | stage1_rule_unknown_processor (proc_id : Nat)
  | stage2_rules_empty
  | stage2_rule_unknown_strategy (strategy : Nat)
deriving DecidableEq, Repr

namespace SystemConfig

variable {D : Type}

/-- Body of the loop over `stage1_rules` in `validate`: the error the rule
makes `validate` report, if any. -/
def stage1_rule_error (processors_count : Nat) (rule : Stage1Rule) : Option (Diagnostic D) :=
  if rule.processors.isEmpty then
    some (Diagnostic.stage1_rule_without_processors rule.msg_type)
  else
    match rule.processors.find? (fun proc_id => decide (proc_id ≥ processors_count)) with
    | some proc_id => some (Diagnostic.stage1_rule_unknown_processor proc_id)
    | none => none

/-- The loop over `stage1_rules` in `validate`: the first error, if any. -/
def stage1_rules_error (processors_count : Nat) (rules : List Stage1Rule) :
    Option (Diagnostic D) :=
  rules.findSome? (stage1_rule_error processors_count)

/-- The loop `for (const auto& [type, prob] : producers.distribution) sum +=
prob;` of `validate`, starting from `0.0`. -/
def distribution_sum (ops : DoubleOps D) (distribution : List (Nat × D)) : D :=
  distribution.foldl (fun sum entry => ops.add sum entry.2) (ops.lit 0.0)

/-- `bool SystemConfig::validate() const`: the lines written to `std::cerr`
and the value returned. -/
def validate (ops : DoubleOps D) (cfg : SystemConfig D) : List (Diagnostic D) × Bool :=
  if cfg.duration_secs = 0 then ([Diagnostic.duration_secs_zero], false)
  else if cfg.producers.count = 0 ∨ cfg.producers.count > 16 then
    ([Diagnostic.producers_count], false)
  else
    let sum := distribution_sum ops cfg.producers.distribution
    let warning : List (Diagnostic D) :=
      if ops.lt (ops.lit 0.01) (ops.abs (ops.sub sum (ops.lit 1.0))) then
        [Diagnostic.distribution_sum sum]
      else []
    if cfg.processors.count = 0 ∨ cfg.processors.count > 16 then
      (warning ++ [Diagnostic.processors_count], false)
    else if cfg.strategies.count = 0 ∨ cfg.strategies.count > 16 then
      (warning ++ [Diagnostic.strategies_count], false)
    else if cfg.stage1_rules.isEmpty then
      (warning ++ [Diagnostic.stage1_rules_empty], false)
    else
      match stage1_rules_error cfg.processors.count cfg.stage1_rules with
      | some error => (warning ++ [error], false)
      | none =>
        if cfg.stage2_rules.isEmpty then
          (warning ++ [Diagnostic.stage2_rules_empty], false)
        else
          match cfg.stage2_rules.find?
              (fun rule => decide (rule.strategy ≥ cfg.strategies.count)) with
          | some rule =>
            (warning ++ [Diagnostic.stage2_rule_unknown_strategy rule.strategy], false)
          | none => (warning, true)

end SystemConfig

/-- A configuration with two producers, two processors and one strategy, in
which type 0 is balanced over both processors. -/
def Scenario.config : SystemConfig ℚ :=
  { scenario := "baseline", duration_secs := 10,
    producers := { count := 2, messages_per_sec := 1000, distribution := [(0, 1/2), (1, 1/2)] },
    processors := { count := 2, processing_times_ns := [(0, 100), (1, 200)] },
    strategies := { count := 1, processing_times_ns := [(0, 100)] },
    stage1_rules := [Stage1Rule.mk 0 [0, 1], Stage1Rule.mk 1 [1]],
    stage2_rules := [Stage2Rule.mk 0 0 true, Stage2Rule.mk 1 0 false] }

/-- The configuration `Scenario.config` with a Stage1 rule naming a processor
that does not exist. -/
def Scenario.configBadRule : SystemConfig ℚ :=
  { Scenario.config with stage1_rules := [Stage1Rule.mk 0 [0, 1], Stage1Rule.mk 1 [2]] }

/-- Laws of `operator<`, of `p * n` and of the conversion to `size_t` on the
doubles that satisfy `ok` (values that are not NaN and whose product with a
sample count converts to `size_t`): `<` is asymmetric, `<=` (the negation of
`>`) is transitive, and the index `static_cast<size_t>(p * n)` does not
decrease when a non-negative `p` grows. -/
structure DoubleOps.Ordered {D : Type} (ops : DoubleOps D) (ok : D → Prop) : Prop where
  asymm : ∀ a b, ok a → ok b → ops.lt a b = true → ops.lt b a = false
  trans : ∀ a b c, ok a → ok b → ok c →
    ops.lt b a = false → ops.lt c b = false → ops.lt c a = false
  index_mono : ∀ p q n, ok p → ok q → ops.lt p (ops.lit 0) = false → ops.lt q p = false →
    ops.toSize (ops.mul p (ops.ofNat n)) ≤ ops.toSize (ops.mul q (ops.ofNat n))

/-- Three latency samples, recorded out of order. -/
def Scenario.samples : LatencyStats ℚ := { latencies := [3, 1, 2] }

/-! ## `include/timer.hpp`, `src/components/producer.cpp` -/

namespace Timer

/-- `uint64_t elapsed_nanoseconds() const` of a timer started at clock reading
`start`, when the clock reads `now`. -/
def elapsed_nanoseconds (start now : Nat) : Nat :=
  (((now : Int) - (start : Int)) % (SIZE_T_MOD : Int)).toNat

/-- `double elapsed_seconds() const` of a timer started at clock reading
`start`, when the clock reads `now`: the difference in nanoseconds converted to
`double` and divided by `1e9`. -/
def elapsed_seconds {D : Type} (ops : DoubleOps D) (start now : Nat) : D :=
  if start ≤ now then ops.div (ops.ofNat (now - start)) (ops.lit 1000000000)
  else ops.sub (ops.lit 0) (ops.div (ops.ofNat (start - now)) (ops.lit 1000000000))

end Timer

/-- Data members of `Producer`. `output_queue_` is the position of the queue in
`World.queues`; `type_distribution_` lists the indices that successive calls
`type_distribution_(rng_)` yield; `stats_.messages_produced` is
`World.messages_produced`. -/
structure Producer (D : Type) where
  id_ : Nat
  messages_per_sec_ : Nat
  output_queue_ : Nat
  msg_types_ : List Nat
  probabilities_ : List D
  type_distribution_ : List Nat
  sequence_number_ : Nat
deriving DecidableEq, Repr

/-- Local variables of `Producer::run`: `interval_ns`, the start time of
`timer`, `next_send_time` and `messages_sent`. -/
structure ProducerLocals where
  interval_ns : Nat
  start_time_ : Nat
  next_send_time : Nat
  messages_sent : Nat
deriving DecidableEq, Repr

/-- The end of the emission branch of `Producer::run`: `next_send_time +=
interval_ns; if (next_send_time < current_time) next_send_time =
current_time;`. -/
def ProducerLocals.plan (l : ProducerLocals) (current_time : Nat) : ProducerLocals :=
  let next_send_time := (l.next_send_time + l.interval_ns) % SIZE_T_MOD
  { l with next_send_time :=
      if next_send_time < current_time then current_time else next_send_time }

/-- Where a producer thread stands in `run`. -/
inductive ProducerPC where
  /-- at the first statement of `run` -/
  | start
  /-- about to evaluate the outer `while (running.load(...))` -/
  | loop_head (l : ProducerLocals)
  /-- about to evaluate `timer.elapsed_seconds() >= duration_secs` -/
  | check_duration (l : ProducerLocals)
  /-- about to read `current_time` and compare it with `next_send_time` -/
  | read_time (l : ProducerLocals)
  /-- about to call `Message::create(msg_type, id_, sequence_number_++)` -/
  | create (l : ProducerLocals) (current_time : Nat) (msg_type : Nat)
  /-- about to evaluate the inner `while (running.load(...))` -/
  | push_head (l : ProducerLocals) (current_time : Nat) (msg : Message)
  /-- about to call `output_queue_->try_push(msg)` -/
  | push (l : ProducerLocals) (current_time : Nat) (msg : Message)
  /-- `run` has returned -/
  | returned
deriving DecidableEq, Repr

/-- A `Producer` thread: the object, where it stands, what it has done. -/
structure ProducerThread (D : Type) where
  producer : Producer D
  pc : ProducerPC
  log : List Event
deriving DecidableEq, Repr

namespace Producer

variable {D : Type}

/-- The constructor: `sequence_number_(0)`, and for each entry of
`config.distribution` in turn its type is appended to `msg_types_` and its
probability to `probabilities_`. `draws` are the indices the generator will
yield. -/
def new (id : Nat) (config : ProducerConfig D) (output_queue : Nat) (draws : List Nat) :
    Producer D :=
  { id_ := id, messages_per_sec_ := config.messages_per_sec, output_queue_ := output_queue,
    msg_types_ := config.distribution.map (fun entry => entry.1),
    probabilities_ := config.distribution.map (fun entry => entry.2),
    type_distribution_ := draws, sequence_number_ := 0 }

/-- `uint8_t generate_message_type()`, with the producer after the call (the
generator has advanced). Reading `msg_types_` past its end is a fault. -/
def generate_message_type (p : Producer D) : Except Fault (Nat × Producer D) :=
  match p.type_distribution_ with
  | [] => .error .out_of_fuel
  | index :: rest =>
    match p.msg_types_[index]? with
    | none => .error .out_of_bounds
    | some msg_type => .ok (msg_type, { p with type_distribution_ := rest })

/-- One step of `Producer::run`: up to and including its next access to the
flag, to the clock or to the queue. -/
def step (ops : DoubleOps D) (C : Nat) (duration_secs : Nat) (s : ProducerThread D)
    (w : World) : Except Fault (ProducerThread D × World) :=
  match s.pc with
  | .returned => .ok (s, w)
  | .start =>
    if s.producer.messages_per_sec_ = 0 then .error .division_by_zero
    else
      let l : ProducerLocals :=
        { interval_ns := 1000000000 / s.producer.messages_per_sec_,
          start_time_ := w.clock, next_send_time := 0, messages_sent := 0 }
      .ok ({ s with pc := .loop_head l }, w)
  | .loop_head l =>
    if w.running then .ok ({ s with pc := .check_duration l }, w)
    else .ok ({ s with pc := .returned }, w)
  | .check_duration l =>
    if ops.lt (Timer.elapsed_seconds ops l.start_time_ w.clock) (ops.ofNat duration_secs) then
      .ok ({ s with pc := .read_time l }, w)
    else .ok ({ s with pc := .returned }, w)
  | .read_time l =>
    let current_time := Timer.elapsed_nanoseconds l.start_time_ w.clock
    if current_time ≥ l.next_send_time then
      match s.producer.generate_message_type with
      | .error e => .error e
      | .ok (msg_type, producer) =>
        .ok ({ s with producer := producer, pc := .create l current_time msg_type }, w)
    else .ok ({ s with pc := .loop_head l }, w)
  | .create l current_time msg_type =>
    let msg := Message.create msg_type s.producer.id_ s.producer.sequence_number_
      w.get_timestamp_ns
    let producer := { s.producer with
      sequence_number_ := (s.producer.sequence_number_ + 1) % SIZE_T_MOD }
    .ok ({ s with producer := producer, pc := .push_head l current_time msg }, w)
  | .push_head l current_time msg =>
    if w.running then .ok ({ s with pc := .push l current_time msg }, w)
    else .ok ({ s with pc := .loop_head (l.plan current_time) }, w)
  | .push l current_time msg =>
    match w.queues[s.producer.output_queue_]? with
    | none => .error .out_of_bounds
    | some q =>
      let r := q.try_push C msg
      if r.1 then
        let l := { l with messages_sent := (l.messages_sent + 1) % SIZE_T_MOD }
        .ok ({ s with pc := .loop_head (l.plan current_time),
                      log := s.log ++ [Event.pushed 0 msg] },
             { (w.setQueue s.producer.output_queue_ r.2) with
               messages_produced := (w.messages_produced + 1) % SIZE_T_MOD })
      else
        .ok ({ s with pc := .push_head l current_time msg }, w)

/-- Runs the thread against a schedule of bursts of actions of the other
threads, one burst before each step; the schedule is also the fuel. -/
def exec (ops : DoubleOps D) (C : Nat) (duration_secs : Nat) :
    List (List EnvAction) → ProducerThread D → World → Except Fault (ProducerThread D × World)
  | [], s, w => if s.pc = .returned then .ok (s, w) else .error .out_of_fuel
  | as :: rest, s, w =>
    if s.pc = .returned then .ok (s, w)
    else
      match step ops C duration_secs s (w.acts C as) with
      | .error e => .error e
      | .ok (s', w') => exec ops C duration_secs rest s' w'

/-- `void Producer::run(std::atomic<bool>& running, uint32_t duration_secs)`
from its first statement. -/
def run (ops : DoubleOps D) (C : Nat) (duration_secs : Nat) (schedule : List (List EnvAction))
    (p : Producer D) (w : World) : Except Fault (ProducerThread D × World) :=
  exec ops C duration_secs schedule { producer := p, pc := .start, log := [] } w

/-- The messages pushed, in push order. -/
def sent (log : List Event) : List Message :=
  log.filterMap (fun e => match e with | .pushed _ m => some m | .popped _ _ => none)

end Producer
/-- What holds of the thread of a producer with id `id` at every step, when the
counter `messages_produced` started at `c0` and no other thread sets the flag
again once it is clear: the messages pushed so far carry `id` and the sequence
numbers `0, 1, 2, ...` modulo `2^64`, the counter has been incremented once per
push, and `sequence_number_` is the number of pushes (plus one while a created
message waits to be pushed), unless the flag was cleared while a message was
waiting. -/
def Producer.Inv {D : Type} (id c0 : Nat) (s : ProducerThread D) (w : World) : Prop :=
  s.producer.id_ = id ∧
  (Producer.sent s.log).map (fun m => m.producer_id) =
    List.replicate (Producer.sent s.log).length id ∧
  (Producer.sent s.log).map (fun m => m.sequence_number) =
    (List.range (Producer.sent s.log).length).map (fun k => k % SIZE_T_MOD) ∧
  w.messages_produced = (c0 + (Producer.sent s.log).length) % SIZE_T_MOD ∧
  match s.pc with
  | .start => s.producer.sequence_number_ = (Producer.sent s.log).length % SIZE_T_MOD
  | .loop_head _ =>
    s.producer.sequence_number_ = (Producer.sent s.log).length % SIZE_T_MOD ∨ w.running = false
  | .check_duration _ =>
    s.producer.sequence_number_ = (Producer.sent s.log).length % SIZE_T_MOD
  | .read_time _ =>
    s.producer.sequence_number_ = (Producer.sent s.log).length % SIZE_T_MOD
  | .create _ _ _ =>
    s.producer.sequence_number_ = (Producer.sent s.log).length % SIZE_T_MOD
  | .push_head _ _ msg =>
    msg.producer_id = id ∧ msg.sequence_number = (Producer.sent s.log).length % SIZE_T_MOD ∧
    s.producer.sequence_number_ = ((Producer.sent s.log).length + 1) % SIZE_T_MOD
  | .push _ _ msg =>
    msg.producer_id = id ∧ msg.sequence_number = (Producer.sent s.log).length % SIZE_T_MOD ∧
    s.producer.sequence_number_ = ((Producer.sent s.log).length + 1) % SIZE_T_MOD
  | .returned => True

namespace Scenario

/-- One producer sending 1000 messages per second of the types 3 and 5. -/
def producerConfig : ProducerConfig ℚ :=
  { count := 1, messages_per_sec := 1000, distribution := [(3, 1/2), (5, 1/2)] }

/-- The flag is set and the only queue is empty. -/
def producerWorld : World :=
  { running := true, clock := 5, queues := [emptyQueue], messages_processed := 0 }

/-- Time passes so that two emissions are due, then the flag is cleared. -/
def twoEmissions : List (List EnvAction) :=
  [[], [], [], [], [.clock 7], [], [], [.clock 2000005], [], [], [], [], [],
    [.store_running false]]

end Scenario

namespace Scenario

/-- One producer asked for two thousand million messages per second, all of
type 0: the interval between two emissions is 0 ns. -/
def fastConfig : ProducerConfig ℚ :=
  { count := 1, messages_per_sec := 2000000000, distribution := [(0, 1)] }

/-- The flag is set, the clock stands at 0 and the only queue has one usable
slot, with indices `head` and `tail`. -/
def fastWorld (head tail : Nat) (slots : List Message) (processed produced : Nat) : World :=
  { running := true, clock := 0, queues := [{ head_ := head, tail_ := tail, buffer_ := slots }],
    messages_processed := processed, messages_produced := produced }

/-- The consumer of the queue pops before every step of the producer while the
producer emits `n` messages (six steps each, after the first step of `run`);
then the flag is cleared. The clock does not advance. -/
def popAlways (n : Nat) : List (List EnvAction) :=
  [] :: (List.replicate (6 * n) [EnvAction.pop 0] ++ [[EnvAction.store_running false]])

/-- The thread of the fast producer with id 0 at the head of its loop after `k`
emissions, with `d` draws of the generator left. -/
def fastThread (k d : Nat) : ProducerThread ℚ :=
  { producer :=
      { id_ := 0, messages_per_sec_ := 2000000000, output_queue_ := 0, msg_types_ := [0],
        probabilities_ := [1], type_distribution_ := List.replicate d 0,
        sequence_number_ := k % SIZE_T_MOD },
    pc := .loop_head
      { interval_ns := 0, start_time_ := 0, next_send_time := 0,
        messages_sent := k % SIZE_T_MOD },
    log := (List.range k).map (fun j => Event.pushed 0 (Message.create 0 0 (j % SIZE_T_MOD) 0)) }

end Scenario

/-! ## Phase timestamps of a message on its way through the pipeline

Each predicate says that the stamps written so far are in non-decreasing order
and none is later than the clock reading `now`. -/

namespace Message

/-- After `Message::create`: `timestamp_ns` is not later than `now`. -/
def Produced (m : Message) (now : Nat) : Prop := m.timestamp_ns ≤ now

/-- After Stage1 has stamped the entry time. -/
def Entered1 (m : Message) (now : Nat) : Prop :=
  m.timestamp_ns ≤ m.stage1_entry_ns ∧ m.stage1_entry_ns ≤ now

/-- After Stage1 has stamped the exit time. -/
def Routed1 (m : Message) (now : Nat) : Prop :=
  m.timestamp_ns ≤ m.stage1_entry_ns ∧ m.stage1_entry_ns ≤ m.stage1_exit_ns ∧
  m.stage1_exit_ns ≤ now

/-- After the processor has stamped the entry time. -/
def EnteredProcessing (m : Message) (now : Nat) : Prop :=
  m.timestamp_ns ≤ m.stage1_entry_ns ∧ m.stage1_entry_ns ≤ m.stage1_exit_ns ∧
  m.stage1_exit_ns ≤ m.processing_entry_ns ∧ m.processing_entry_ns ≤ now

/-- After the processor has stamped the exit time. -/
def Processed (m : Message) (now : Nat) : Prop :=
  m.timestamp_ns ≤ m.stage1_entry_ns ∧ m.stage1_entry_ns ≤ m.stage1_exit_ns ∧
  m.stage1_exit_ns ≤ m.processing_entry_ns ∧ m.processing_entry_ns ≤ m.processing_exit_ns ∧
  m.processing_exit_ns ≤ now

/-- After Stage2 has stamped the entry time. -/
def Entered2 (m : Message) (now : Nat) : Prop :=
  m.timestamp_ns ≤ m.stage1_entry_ns ∧ m.stage1_entry_ns ≤ m.stage1_exit_ns ∧
  m.stage1_exit_ns ≤ m.processing_entry_ns ∧ m.processing_entry_ns ≤ m.processing_exit_ns ∧
  m.processing_exit_ns ≤ m.stage2_entry_ns ∧ m.stage2_entry_ns ≤ now

/-- After Stage2 has stamped the exit time: the whole chain of the seven
stamps. -/
def Delivered (m : Message) (now : Nat) : Prop :=
  m.timestamp_ns ≤ m.stage1_entry_ns ∧ m.stage1_entry_ns ≤ m.stage1_exit_ns ∧
  m.stage1_exit_ns ≤ m.processing_entry_ns ∧ m.processing_entry_ns ≤ m.processing_exit_ns ∧
  m.processing_exit_ns ≤ m.stage2_entry_ns ∧ m.stage2_entry_ns ≤ m.stage2_exit_ns ∧
  m.stage2_exit_ns ≤ now

end Message

/-- Every queue of the world is a well-formed ring buffer of capacity parameter
`C` and every message it holds satisfies `P` at the present clock reading. -/
def World.Timely (P : Message → Nat → Prop) (C : Nat) (w : World) : Prop :=
  ∀ (i : Nat) (q : SPSCQueue Message), w.queues[i]? = some q →
    ∃ l, SPSCQueue.Holds C q l ∧ ∀ m ∈ l, P m w.get_timestamp_ns

/-- The clock reading (`get_timestamp_ns`) after an action of another thread,
when it was `now` before. -/
def EnvAction.reading (now : Nat) : EnvAction → Nat
  | .clock t => t % SIZE_T_MOD
  | _ => now

/-- The clock reading after a burst of actions. -/
def EnvAction.readingAfter (now : Nat) (as : List EnvAction) : Nat :=
  as.foldl EnvAction.reading now

/-- What is asked of one action of another thread at clock reading `now`: a
new clock reading is not earlier than `now`, and a message pushed satisfies `P`
at `now`. -/
def EnvAction.Admissible (P : Message → Nat → Prop) (now : Nat) : EnvAction → Prop
  | .clock t => now ≤ t % SIZE_T_MOD
  | .push _ m => P m now
  | _ => True

/-- A burst of actions of the other threads, starting at clock reading `now`,
in which successive clock readings are non-decreasing and every message pushed
satisfies `P` at the reading of the moment. -/
def EnvAction.TimelyBurst (P : Message → Nat → Prop) : Nat → List EnvAction → Prop
  | _, [] => True
  | now, a :: rest => a.Admissible P now ∧ EnvAction.TimelyBurst P (a.reading now) rest

/-- A schedule, starting at clock reading `now`, all of whose bursts are timely. -/
def EnvAction.TimelySchedule (P : Message → Nat → Prop) :
    Nat → List (List EnvAction) → Prop
  | _, [] => True
  | now, as :: rest =>
    EnvAction.TimelyBurst P now as ∧
    EnvAction.TimelySchedule P (EnvAction.readingAfter now as) rest

/-- The predicate `P` keeps holding as time passes. -/
def Message.Lasting (P : Message → Nat → Prop) : Prop :=
  ∀ m a b, a ≤ b → P m a → P m b
/-- What holds of a `Stage1Router` thread at every step when the messages in
the queues were produced before the present clock reading: the messages it has
pushed carry the stamps up to `stage1_exit_ns` in order, and the message in
hand the stamps up to `stage1_entry_ns`. -/
def Stage1Router.Stamps (C : Nat) (s : Stage1Thread) (w : World) : Prop :=
  w.Timely Message.Produced C ∧
  (∀ j m, Event.pushed j m ∈ s.log → m.Routed1 w.get_timestamp_ns) ∧
  match s.pc with
  | .retry _ _ msg _ => msg.Entered1 w.get_timestamp_ns
  | _ => True

/-- What holds of a `Processor` thread at every step when the messages in the
queues have passed Stage1: the messages it has pushed carry the stamps up to
`processing_exit_ns` in order, and the message in hand the stamps written so
far. -/
def Processor.Stamps (C : Nat) (s : ProcessorThread) (w : World) : Prop :=
  w.Timely Message.Routed1 C ∧
  (∀ j m, Event.pushed j m ∈ s.log → m.Processed w.get_timestamp_ns) ∧
  match s.pc with
  | .wait_start msg _ => msg.EnteredProcessing w.get_timestamp_ns
  | .waiting msg _ _ => msg.EnteredProcessing w.get_timestamp_ns
  | .stamp_exit msg => msg.EnteredProcessing w.get_timestamp_ns
  | .push_head msg => msg.Processed w.get_timestamp_ns
  | .push msg => msg.Processed w.get_timestamp_ns
  | _ => True

/-- What holds of a `Stage2Router` thread at every step when the messages in
the queues have passed a processor: the messages it has pushed carry all seven
stamps in order, and the message in hand the stamps up to `stage2_entry_ns`. -/
def Stage2Router.Stamps (C : Nat) (s : Stage2Thread) (w : World) : Prop :=
  w.Timely Message.Processed C ∧
  (∀ j m, Event.pushed j m ∈ s.log → m.Delivered w.get_timestamp_ns) ∧
  match s.pc with
  | .retry _ _ msg _ => msg.Entered2 w.get_timestamp_ns
  | _ => True

/-- What holds of a `Producer` thread at every step: the messages it has pushed,
and the message in hand, were created before the present clock reading. -/
def Producer.Stamps {D : Type} (s : ProducerThread D) (w : World) : Prop :=
  (∀ j m, Event.pushed j m ∈ s.log → m.Produced w.get_timestamp_ns) ∧
  match s.pc with
  | .push_head _ _ msg => msg.Produced w.get_timestamp_ns
  | .push _ _ msg => msg.Produced w.get_timestamp_ns
  | _ => True
namespace Scenario

/-- A message of type 3 that has passed Stage1 and a processor, stamped 1, 2, 3,
4, 5 on the way. -/
def msgProcessed : Message :=
  { Message.new with msg_type := 3, sequence_number := 1, timestamp_ns := 1,
                     stage1_entry_ns := 2, stage1_exit_ns := 3,
                     processing_entry_ns := 4, processing_exit_ns := 5 }

/-- The flag is set, the clock reads 5, queue 0 holds `msgProcessed`, queue 1 is
empty. -/
def worldProcessed : World :=
  { running := true, clock := 5,
    queues := [(SPSCQueue.try_push 4 emptyQueue msgProcessed).2, emptyQueue],
    messages_processed := 0 }

end Scenario

/-! ## Order of the messages of one producer and one type along the pipeline -/

/-- The messages a thread popped, in pop order. -/
def Event.popped_msgs (log : List Event) : List Message :=
  log.filterMap (fun e => match e with | .popped _ m => some m | .pushed _ _ => none)

/-- The messages a thread popped from its input number `i`, in pop order. -/
def Event.popped_from (i : Nat) (log : List Event) : List Message :=
  log.filterMap (fun e => match e with
    | .popped i' m => if i' = i then some m else none
    | .pushed _ _ => none)

/-- The messages a thread pushed, in push order. -/
def Event.pushed_msgs (log : List Event) : List Message :=
  log.filterMap (fun e => match e with | .pushed _ m => some m | .popped _ _ => none)

/-- The messages a thread pushed to its output number `j`, in push order. -/
def Event.pushed_to (j : Nat) (log : List Event) : List Message :=
  log.filterMap (fun e => match e with
    | .pushed j' m => if j' = j then some m else none
    | .popped _ _ => none)

/-- The message comes from producer `p` and has type `t`. -/
def Message.from_of (p t : Nat) (m : Message) : Bool :=
  decide (m.producer_id = p) && decide (m.msg_type = t)

/-- The sequence numbers of the messages of producer `p` and type `t` among
`msgs`, in the order of `msgs`. -/
def Delivery.stream (p t : Nat) (msgs : List Message) : List Nat :=
  (msgs.filter (Message.from_of p t)).map (fun m => m.sequence_number)

/-- The hop leaves producer, type and sequence number of the message alone. -/
def Message.same_identity (m m' : Message) : Prop :=
  m'.producer_id = m.producer_id ∧ m'.msg_type = m.msg_type ∧
  m'.sequence_number = m.sequence_number

/-- The record of a processor: each popped message is either pushed at once,
with `R` relating the message as popped and as pushed, or not pushed at all. -/
inductive Handled (R : Message → Message → Prop) : List Event → Prop where
  | nil : Handled R []
  | pushed (log : List Event) (m m' : Message) :
      Handled R log → R m m' → Handled R (log ++ [Event.popped 0 m, Event.pushed 0 m'])
  | dropped (log : List Event) (m : Message) :
      Handled R log → Handled R (log ++ [Event.popped 0 m])

/-- What holds of a `Stage1Router` thread whose routing table is `table` at
every step: the table is unchanged, and the record consists of pop/push pairs
in which producer, type and sequence number are kept and a message whose type
has a single candidate goes to that candidate. -/
def Stage1Router.Routes (table : List (Nat × List Nat)) (s : Stage1Thread) : Prop :=
  s.router.routing_table_ = table ∧
  match s.pc with
  | .retry i _ msg target =>
    ∃ log m, s.log = log ++ [Event.popped i m] ∧
      Forwarded (fun a j b => a.same_identity b ∧
        ∀ j', UnorderedMap.find table a.msg_type = some [j'] → j = j') log ∧
      m.same_identity msg ∧
      ∀ j', UnorderedMap.find table m.msg_type = some [j'] → target = j'
  | _ =>
    Forwarded (fun a j b => a.same_identity b ∧
      ∀ j', UnorderedMap.find table a.msg_type = some [j'] → j = j') s.log

/-- What holds of a `Processor` thread at every step: its record is made of
popped messages each pushed at once or not at all, with producer, type and
sequence number kept, followed by the pop of the message in hand. -/
def Processor.Keeps (s : ProcessorThread) : Prop :=
  match s.pc with
  | .wait_start msg _ =>
    ∃ log m, s.log = log ++ [Event.popped 0 m] ∧ Handled Message.same_identity log ∧
      m.same_identity msg
  | .waiting msg _ _ =>
    ∃ log m, s.log = log ++ [Event.popped 0 m] ∧ Handled Message.same_identity log ∧
      m.same_identity msg
  | .stamp_exit msg =>
    ∃ log m, s.log = log ++ [Event.popped 0 m] ∧ Handled Message.same_identity log ∧
      m.same_identity msg
  | .push_head msg =>
    ∃ log m, s.log = log ++ [Event.popped 0 m] ∧ Handled Message.same_identity log ∧
      m.same_identity msg
  | .push msg =>
    ∃ log m, s.log = log ++ [Event.popped 0 m] ∧ Handled Message.same_identity log ∧
      m.same_identity msg
  | _ => Handled Message.same_identity s.log
namespace Scenario

/-- The message `msgA` as Stage1 pushes it at clock reading 5. -/
def msgA1 : Message := { msgA with stage1_entry_ns := 5, stage1_exit_ns := 5 }

/-- The message `msgB` as Stage1 pushes it at clock reading 5. -/
def msgB1 : Message := { msgB with stage1_entry_ns := 5, stage1_exit_ns := 5 }

/-- The message `msgA1` as processor 0 pushes it at clock reading 5. -/
def msgA2 : Message :=
  { msgA1 with processing_entry_ns := 5, processor_id := 0, processing_exit_ns := 5,
               processing_ts_ns := 5 }

/-- The message `msgB1` as processor 0 pushes it at clock reading 5. -/
def msgB2 : Message :=
  { msgB1 with processing_entry_ns := 5, processor_id := 0, processing_exit_ns := 5,
               processing_ts_ns := 5 }

/-- The flag is set, queue 0 holds the messages `a` then `b`, queue 1 is empty. -/
def worldOf (a b : Message) : World :=
  { running := true, clock := 5,
    queues := [(SPSCQueue.try_push 4 (SPSCQueue.try_push 4 emptyQueue a).2 b).2, emptyQueue],
    messages_processed := 0 }

/-- No other thread acts while a router forwards two messages; then the flag is
cleared. -/
def forwardTwo : List (List EnvAction) :=
  [[], [], [], [], [], [], [.store_running false]]

/-- No other thread acts while a processor handles two messages; then the flag
is cleared. -/
def processTwo : List (List EnvAction) :=
  [[], [], [], [], [], [], [], [], [], [], [.store_running false]]

/-- Processor 0 reading queue 0 and writing queue 1, with processing time 0 for
type 3. -/
def processorFast : Processor :=
  { id_ := 0, input_queue_ := 0, output_queue_ := 1, processing_times_ := [(3, 0)] }

/-- The processor threads after their runs: processor 0 has handled `msgA1` and
`msgB1`, the others have handled nothing. -/
def processed : Nat → ProcessorThread
  | 0 => { processor := processorFast, pc := .returned,
           log := [Event.popped 0 msgA1, Event.pushed 0 msgA2,
                   Event.popped 0 msgB1, Event.pushed 0 msgB2] }
  | _ + 1 => { processor := processorFast, pc := .returned, log := [] }

/-- The record of Stage1 after forwarding `msgA` and `msgB`. -/
def log1 : List Event :=
  [Event.popped 0 msgA, Event.pushed 0 msgA1, Event.popped 0 msgB, Event.pushed 0 msgB1]

/-- The record of Stage2 after forwarding `msgA2` and `msgB2`. -/
def log2 : List Event :=
  [Event.popped 0 msgA2,
   Event.pushed 0 { msgA2 with stage2_entry_ns := 5, stage2_exit_ns := 5 },
   Event.popped 0 msgB2,
   Event.pushed 0 { msgB2 with stage2_entry_ns := 5, stage2_exit_ns := 5 }]

end Scenario

/-- The condition of the first `static_assert` of `SPSCQueue`:
`(Capacity & (Capacity - 1)) == 0`, evaluated in `size_t`. -/
def SPSCQueue.static_assert_capacity (Capacity : Nat) : Bool :=
  decide (Capacity &&& SPSCQueue.mask Capacity = 0)

/-- The configuration `cfg` with the distribution of its producers replaced. -/
def SystemConfig.with_distribution {D : Type} (cfg : SystemConfig D)
    (distribution : List (Nat × D)) : SystemConfig D :=
  { cfg with producers := { cfg.producers with distribution := distribution } }

/-- The configuration `Scenario.config` without any distribution entry. -/
def Scenario.configNoDistribution : SystemConfig ℚ :=
  Scenario.config.with_distribution []

/-- The configuration `Scenario.config` with a distribution summing to 3. -/
def Scenario.configHeavyDistribution : SystemConfig ℚ :=
  Scenario.config.with_distribution [(0, 1), (1, 2)]

/-- The configuration `cfg` with the rate of its producers replaced. -/
def SystemConfig.with_rate {D : Type} (cfg : SystemConfig D) (messages_per_sec : Nat) :
    SystemConfig D :=
  { cfg with producers := { cfg.producers with messages_per_sec := messages_per_sec } }

/-- The configuration `Scenario.config` with `messages_per_sec` set to 0. -/
def Scenario.configZeroRate : SystemConfig ℚ := Scenario.config.with_rate 0
/-- Every candidate of every non-empty entry of the routing table is `< n`, and
the router has `n` output queues. -/
def Stage1Router.TableBounded (n : Nat) (r : Stage1Router) : Prop :=
  (∀ t L, UnorderedMap.find r.routing_table_ t = some L → ∀ p ∈ L, p < n) ∧
  r.output_queues_.length = n

/-- What holds of a `Stage1Router` thread with `n` output queues and a bounded
table at every step: every push went to an output `< n`, and so will the push
of the message in hand. -/
def Stage1Router.Bounded (n : Nat) (s : Stage1Thread) : Prop :=
  Stage1Router.TableBounded n s.router ∧
  (∀ j m, Event.pushed j m ∈ s.log → j < n) ∧
  match s.pc with
  | .retry _ _ _ target => target < n
  | _ => True

namespace Scenario

end Scenario

/-! ## `src/components/strategy.cpp` -/

/-- `static void busy_wait_ns(uint64_t nanoseconds)` after `start` has been read:
the loop reads `now` from the clock until the elapsed time reaches `nanoseconds`.
The list holds the readings the clock will give, which are also the fuel; the
readings left over are returned. -/
def Timer.busy_wait_loop (nanoseconds start : Nat) : List Nat → Except Fault (List Nat)
  | [] => .error .out_of_fuel
  | now :: readings =>
    if Timer.elapsed_nanoseconds start now ≥ nanoseconds then .ok readings
    else Timer.busy_wait_loop nanoseconds start readings

/-- `static void busy_wait_ns(uint64_t nanoseconds)`: reads `start`, then loops. -/
def Timer.busy_wait_ns (nanoseconds : Nat) : List Nat → Except Fault (List Nat)
  | [] => .error .out_of_fuel
  | start :: readings => Timer.busy_wait_loop nanoseconds start readings

/-- Data members of `Strategy`. `input_queue_` is the position of the queue in
`World.queues`; `stats_` is passed to `process_message` and returned by it. -/
structure Strategy where
  id_ : Nat
  input_queue_ : Nat
  processing_time_ns_ : Nat
deriving DecidableEq, Repr

namespace Strategy

/-- The constructor `Strategy(id, config, input_queue, stats)`. -/
def new (id : Nat) (config : StrategyConfig) (input_queue : Nat) : Strategy :=
  { id_ := id, input_queue_ := input_queue,
    processing_time_ns_ :=
      match UnorderedMap.find config.processing_times_ns id with
      | some ns => ns
      | none => 100 }

/-- `void Strategy::process_message(const Message& msg)`, given the readings the
clock will give during the busy-wait: the values `stats_` takes, one after each
of the three statements that follow the busy-wait, in program order. -/
def process_message_trace {D : Type} (ops : DoubleOps D) (p : Strategy)
    (stats : SystemStatistics D) (msg : Message) (readings : List Nat) :
    Except Fault (List (SystemStatistics D)) :=
  match (if p.processing_time_ns_ > 0 then Timer.busy_wait_ns p.processing_time_ns_ readings
         else .ok readings) with
  | .error e => .error e
  | .ok _ =>
    let stats := stats.track_message_order msg
    let trace := [stats]
    let stats := stats.record_message_latencies ops msg
    let trace := trace ++ [stats]
    let stats := { stats with messages_delivered := (stats.messages_delivered + 1) % SIZE_T_MOD }
    .ok (trace ++ [stats])

/-- `void Strategy::process_message(const Message& msg)`: the value of `stats_`
when the call returns. -/
def process_message {D : Type} (ops : DoubleOps D) (p : Strategy)
    (stats : SystemStatistics D) (msg : Message) (readings : List Nat) :
    Except Fault (SystemStatistics D) :=
  match process_message_trace ops p stats msg readings with
  | .error e => .error e
  | .ok trace => .ok (trace.getLastD stats)

/-- A sequence of calls of `process_message`, each by some strategy on some
message with the clock readings of its busy-wait, on the shared statistics. -/
def deliveries {D : Type} (ops : DoubleOps D) :
    List (Strategy × Message × List Nat) → SystemStatistics D →
    Except Fault (SystemStatistics D)
  | [], stats => .ok stats
  | (p, msg, readings) :: rest, stats =>
    match process_message ops p stats msg readings with
    | .error e => .error e
    | .ok stats => deliveries ops rest stats

/-- The clock readings let the busy-wait of the strategy end: either there is no
busy-wait, or some reading after the first is at least `processing_time_ns_`
later than the first. -/
def Awakes (p : Strategy) (readings : List Nat) : Prop :=
  p.processing_time_ns_ = 0 ∨
    ∃ start rest now, readings = start :: rest ∧ now ∈ rest ∧
      p.processing_time_ns_ ≤ Timer.elapsed_nanoseconds start now

/-- The four latency vectors have as many samples as `messages_delivered` counts. -/
def Counted {D : Type} (stats : SystemStatistics D) : Prop :=
  stats.stage1_latencies.latencies.length = stats.messages_delivered ∧
  stats.processing_latencies.latencies.length = stats.messages_delivered ∧
  stats.stage2_latencies.latencies.length = stats.messages_delivered ∧
  stats.total_latencies.latencies.length = stats.messages_delivered

end Strategy

namespace Scenario

/-- The strategy 0 of `Scenario.config`, reading queue 0. -/
def strategy : Strategy := Strategy.new 0 Scenario.config.strategies 0

/-- Two deliveries by `Scenario.strategy`: `msgProcessed`, then `stamped`. -/
def twoDeliveries : List (Strategy × Message × List Nat) :=
  [(strategy, msgProcessed, [5, 40, 900]), (strategy, Scenario.stamped, [1000, 2000])]

end Scenario

/-! ## What each hop writes into a message -/

/-- `m'` is `m` except for `processing_entry_ns`, and for `processor_id`, which
is `id`. -/
def Message.entered_by (id : Nat) (m m' : Message) : Prop :=
  m' = { m with processing_entry_ns := m'.processing_entry_ns, processor_id := id }

/-- `m'` is `m` except for `processing_entry_ns` and `processing_exit_ns`, for
`processor_id`, which is `id`, and for `processing_ts_ns`, which is the
`processing_exit_ns` of `m'`. -/
def Message.processed_by (id : Nat) (m m' : Message) : Prop :=
  m' = { m with processing_entry_ns := m'.processing_entry_ns, processor_id := id,
                processing_exit_ns := m'.processing_exit_ns,
                processing_ts_ns := m'.processing_exit_ns }

/-- What holds of the thread of a processor with id `id` at every step: the
object keeps its id, its record is made of popped messages each pushed at once or
not at all, a pushed message being the popped one except for the fields of the
processor; the message in hand is the popped one except for the fields written
so far. -/
def Processor.Frames (id : Nat) (s : ProcessorThread) : Prop :=
  s.processor.id_ = id ∧
  match s.pc with
  | .wait_start msg _ =>
    ∃ log m, s.log = log ++ [Event.popped 0 m] ∧ Handled (Message.processed_by id) log ∧
      m.entered_by id msg
  | .waiting msg _ _ =>
    ∃ log m, s.log = log ++ [Event.popped 0 m] ∧ Handled (Message.processed_by id) log ∧
      m.entered_by id msg
  | .stamp_exit msg =>
    ∃ log m, s.log = log ++ [Event.popped 0 m] ∧ Handled (Message.processed_by id) log ∧
      m.entered_by id msg
  | .push_head msg =>
    ∃ log m, s.log = log ++ [Event.popped 0 m] ∧ Handled (Message.processed_by id) log ∧
      m.processed_by id msg
  | .push msg =>
    ∃ log m, s.log = log ++ [Event.popped 0 m] ∧ Handled (Message.processed_by id) log ∧
      m.processed_by id msg
  | _ => Handled (Message.processed_by id) s.log

/-- The message is one that `Message::create` returns for producer `id`. -/
def Message.created_by (id : Nat) (m : Message) : Prop :=
  ∃ type seq_num now, m = Message.create type id seq_num now

/-- What holds of the thread of a producer with id `id` at every step: the object
keeps its id, and the messages pushed and the message in hand are as
`Message::create` returned them. -/
def Producer.Creates {D : Type} (id : Nat) (s : ProducerThread D) : Prop :=
  s.producer.id_ = id ∧
  (∀ j m, Event.pushed j m ∈ s.log → m.created_by id) ∧
  match s.pc with
  | .push_head _ _ msg => msg.created_by id
  | .push _ _ msg => msg.created_by id
  | _ => True
/-- Processor 1 reading queue 0 and writing queue 1, with processing time 0 for
type 3. -/
def Scenario.processorOne : Processor :=
  { id_ := 1, input_queue_ := 0, output_queue_ := 1, processing_times_ := [(3, 0)] }

/-! # Properties

## Arithmetic of the index mask -/

theorem mask_pow_two (k : Nat) (hk : k < 64) : SPSCQueue.mask (2 ^ k) = 2 ^ k - 1 := by
  have hpos : 0 < 2 ^ k := Nat.pos_pow_of_pos k (by decide)
  have hlt : 2 ^ k < 2 ^ 64 := Nat.pow_lt_pow_right (by decide) hk
  unfold SPSCQueue.mask SIZE_T_MOD
  have h1 : 2 ^ k + 2 ^ 64 - 1 = (2 ^ k - 1) + 2 ^ 64 := by omega
  rw [h1, Nat.add_mod_right, Nat.mod_eq_of_lt (by omega)]

theorem advance_pow_two (k : Nat) (hk : k < 64) (x : Nat) :
    SPSCQueue.advance (2 ^ k) x = (x + 1) % 2 ^ k := by
  unfold SPSCQueue.advance
  rw [mask_pow_two k hk, Nat.and_pow_two_sub_one_eq_mod]
  unfold SIZE_T_MOD
  exact Nat.mod_mod_of_dvd _ (Nat.pow_dvd_pow 2 (Nat.le_of_lt hk))

theorem succ_mod_cases (C x : Nat) (hx : x < C) :
    (x + 1) % C = if x + 1 = C then 0 else x + 1 := by
  split
  · next h => rw [h, Nat.mod_self]
  · next h => exact Nat.mod_eq_of_lt (by omega)

theorem add_mod_cases (C h i : Nat) (hh : h < C) (hi : i < C) :
    (h + i) % C = if h + i < C then h + i else h + i - C := by
  split
  · next hlt => exact Nat.mod_eq_of_lt hlt
  · next hge =>
    have h1 : h + i = (h + i - C) + C := by omega
    rw [h1, Nat.add_mod_right, Nat.mod_eq_of_lt (by omega)]
    omega

namespace SPSCQueue

variable {T : Type}

theorem try_push_eq (k : Nat) (hk : k < 64) (q : SPSCQueue T) (v : T) :
    try_push (2 ^ k) q v =
      if (q.tail_ + 1) % 2 ^ k = q.head_ then (false, q)
      else (true, { q with buffer_ := q.buffer_.set q.tail_ v,
                           tail_ := (q.tail_ + 1) % 2 ^ k }) := by
  simp only [try_push, advance_pow_two k hk]

theorem try_pop_eq (k : Nat) (hk : k < 64) (q : SPSCQueue T) (out : T) :
    try_pop (2 ^ k) q out =
      if q.head_ = q.tail_ then (false, out, q)
      else (true, q.buffer_.getD q.head_ out,
            { q with head_ := (q.head_ + 1) % 2 ^ k }) := by
  simp only [try_pop, advance_pow_two k hk]

theorem holds_fresh (C : Nat) (hC : 0 < C) (slots : List T) (hlen : slots.length = C) :
    Holds C (fresh slots) [] := by
  refine ⟨hC, hC, hlen, by simp [fresh], ?_⟩
  intro i hi
  simp at hi

theorem holds_push (k : Nat) (hk : k < 64) (q : SPSCQueue T) (l : List T) (v : T)
    (h : Holds (2 ^ k) q l) :
    (try_push (2 ^ k) q v).1 = (ListQueue.try_push (2 ^ k - 1) l v).1 ∧
    Holds (2 ^ k) (try_push (2 ^ k) q v).2 (ListQueue.try_push (2 ^ k - 1) l v).2 := by
  obtain ⟨hh, ht, hb, hl, hel⟩ := h
  rw [try_push_eq k hk]
  generalize 2 ^ k = C at *
  have hs := succ_mod_cases C q.tail_ ht
  unfold ListQueue.try_push
  by_cases hfull : (q.tail_ + 1) % C = q.head_
  · have hnl : ¬ l.length < C - 1 := by
      rw [hs] at hfull
      split at hfull <;> split at hl <;> omega
    simp only [hfull, hnl, if_true, if_false]
    exact ⟨trivial, hh, ht, hb, hl, hel⟩
  · have hlt : l.length < C - 1 := by
      rw [hs] at hfull
      split at hfull <;> split at hl <;> omega
    simp only [hfull, hlt, if_true, if_false]
    refine ⟨trivial, hh, Nat.mod_lt _ (by omega), ?_, ?_, ?_⟩
    · simp [hb]
    · simp only [List.length_append, List.length_singleton]
      rw [hs]
      split <;> split at hl <;> split <;> omega
    · intro i hi
      simp only [List.length_append, List.length_singleton] at hi
      have hidx := add_mod_cases C q.head_ i hh (by omega)
      by_cases hi' : i < l.length
      · have hne : q.tail_ ≠ (q.head_ + i) % C := by
          rw [hidx]
          split <;> split at hl <;> omega
        rw [List.getElem?_set, if_neg hne, hel i hi', List.getElem?_append_left hi']
      · have hil : i = l.length := by omega
        have heq : q.tail_ = (q.head_ + i) % C := by
          rw [hidx]
          split <;> split at hl <;> omega
        rw [List.getElem?_set, if_pos heq, if_pos (by omega), hil]
        simp

theorem holds_pop (k : Nat) (hk : k < 64) (q : SPSCQueue T) (l : List T) (out : T)
    (h : Holds (2 ^ k) q l) :
    (try_pop (2 ^ k) q out).1 = (ListQueue.try_pop l out).1 ∧
    (try_pop (2 ^ k) q out).2.1 = (ListQueue.try_pop l out).2.1 ∧
    Holds (2 ^ k) (try_pop (2 ^ k) q out).2.2 (ListQueue.try_pop l out).2.2 := by
  obtain ⟨hh, ht, hb, hl, hel⟩ := h
  rw [try_pop_eq k hk]
  generalize 2 ^ k = C at *
  have hs := succ_mod_cases C q.head_ hh
  cases l with
  | nil =>
    have hemp : q.head_ = q.tail_ := by
      simp only [List.length_nil] at hl
      split at hl <;> omega
    rw [if_pos hemp]
    exact ⟨rfl, rfl, hh, ht, hb, hl, hel⟩
  | cons x xs =>
    have hne : q.head_ ≠ q.tail_ := by
      simp only [List.length_cons] at hl
      split at hl <;> omega
    rw [if_neg hne]
    refine ⟨rfl, ?_, Nat.mod_lt _ (by omega), ht, hb, ?_, ?_⟩ <;>
      dsimp only [ListQueue.try_pop]
    · have h0 := hel 0 (by simp)
      simp only [Nat.add_zero, Nat.mod_eq_of_lt hh, List.getElem?_cons_zero] at h0
      rw [List.getD_eq_getElem?_getD, h0]
      rfl
    · simp only [List.length_cons] at hl
      rw [hs]
      split <;> split at hl <;> split <;> omega
    · intro i hi
      have h1 := hel (i + 1) (by simp only [List.length_cons]; omega)
      simp only [List.getElem?_cons_succ] at h1
      rw [← h1, Nat.mod_add_mod]
      congr 2
      omega

theorem holds_run (k : Nat) (hk : k < 64) (calls : List (Call T)) :
    ∀ (q : SPSCQueue T) (l : List T), Holds (2 ^ k) q l →
      (run (2 ^ k) q calls).1 = (ListQueue.run (2 ^ k - 1) l calls).1 ∧
      Holds (2 ^ k) (run (2 ^ k) q calls).2 (ListQueue.run (2 ^ k - 1) l calls).2 := by
  induction calls with
  | nil => intro q l h; exact ⟨rfl, h⟩
  | cons c cs ih =>
    intro q l h
    have hstep : (call (2 ^ k) q c).1 = (ListQueue.call (2 ^ k - 1) l c).1 ∧
        Holds (2 ^ k) (call (2 ^ k) q c).2 (ListQueue.call (2 ^ k - 1) l c).2 := by
      cases c with
      | push v =>
        obtain ⟨h1, h2⟩ := holds_push k hk q l v h
        exact ⟨by simp only [call, ListQueue.call, h1], h2⟩
      | pop out =>
        obtain ⟨h1, h2, h3⟩ := holds_pop k hk q l out h
        exact ⟨by simp only [call, ListQueue.call, h1, h2], h3⟩
    obtain ⟨hr, hq⟩ := ih _ _ hstep.2
    exact ⟨by simp only [run, ListQueue.run, hstep.1, hr], hq⟩

theorem inRange_call (k : Nat) (hk : k < 64) (q : SPSCQueue T) (c : Call T)
    (h : InRange (2 ^ k) q) : InRange (2 ^ k) (call (2 ^ k) q c).2 := by
  have hpos : 0 < 2 ^ k := Nat.pos_pow_of_pos k (by decide)
  obtain ⟨hh, ht⟩ := h
  cases c with
  | push v =>
    simp only [call, try_push_eq k hk]
    split
    · exact ⟨hh, ht⟩
    · exact ⟨hh, Nat.mod_lt _ hpos⟩
  | pop out =>
    simp only [call, try_pop_eq k hk]
    split
    · exact ⟨hh, ht⟩
    · exact ⟨Nat.mod_lt _ hpos, ht⟩

theorem inRange_run (k : Nat) (hk : k < 64) (calls : List (Call T)) :
    ∀ q : SPSCQueue T, InRange (2 ^ k) q → InRange (2 ^ k) (run (2 ^ k) q calls).2 := by
  induction calls with
  | nil => intro q h; exact h
  | cons c cs ih => intro q h; exact ih _ (inRange_call k hk q c h)

theorem size_of_inRange (k : Nat) (hk : k < 64) (q : SPSCQueue T)
    (h : InRange (2 ^ k) q) :
    size (2 ^ k) q = if q.tail_ ≥ q.head_ then q.tail_ - q.head_
      else 2 ^ k - q.head_ + q.tail_ := by
  have hlt : 2 ^ k < 2 ^ 64 := Nat.pow_lt_pow_right (by decide) hk
  obtain ⟨hh, ht⟩ := h
  unfold size SIZE_T_MOD
  generalize 2 ^ k = C at *
  by_cases hge : q.tail_ ≥ q.head_
  · simp only [hge, if_true]
  · simp only [hge, if_false]
    have h1 : C + 2 ^ 64 - q.head_ + q.tail_ = (C - q.head_ + q.tail_) + 2 ^ 64 := by omega
    rw [h1, Nat.add_mod_right, Nat.mod_eq_of_lt (by omega)]

/-- C1: a ring buffer of capacity parameter `C = 2 ^ k`, freshly constructed and
then driven by any finite sequence of `try_push` / `try_pop` calls made one at a
time, gives back at every call what a list used as a FIFO bounded to `C - 1`
elements gives back (same booleans, same popped values), and ends up holding
the very elements the list holds, oldest first. -/
theorem spsc_queue_refines_bounded_fifo (k : Nat) (hk : k < 64) (slots : List T)
    (hlen : slots.length = 2 ^ k) (calls : List (Call T)) :
    (run (2 ^ k) (fresh slots) calls).1 = (ListQueue.run (2 ^ k - 1) [] calls).1 ∧
    Holds (2 ^ k) (run (2 ^ k) (fresh slots) calls).2
      (ListQueue.run (2 ^ k - 1) [] calls).2 :=
  holds_run k hk calls _ _
    (holds_fresh (2 ^ k) (Nat.pos_pow_of_pos k (by decide)) slots hlen)

theorem spsc_queue_refines_bounded_fifo_witness :
    (2 < 64 ∧ [7, 7, 7, 7].length = 2 ^ 2) ∧
    (run (2 ^ 2) (fresh [7, 7, 7, 7])
        [.push 10, .push 11, .push 12, .push 13, .pop 0, .pop 0, .push 14,
         .pop 0, .pop 0, .pop 0]).1
      = [.pushed true, .pushed true, .pushed true, .pushed false, .popped true 10,
         .popped true 11, .pushed true, .popped true 12, .popped true 14,
         .popped false 0] ∧
    (run (2 ^ 2) (fresh [7, 7, 7, 7])
        [.push 10, .push 11, .push 12, .push 13, .pop 0, .pop 0, .push 14,
         .pop 0, .pop 0, .pop 0]).1
      = (ListQueue.run (2 ^ 2 - 1) []
        [.push 10, .push 11, .push 12, .push 13, .pop 0, .pop 0, .push 14,
         .pop 0, .pop 0, .pop 0]).1 :=
  ⟨⟨by decide, by decide⟩, by decide,
    (spsc_queue_refines_bounded_fifo 2 (by decide) [7, 7, 7, 7] (by decide)
      [.push 10, .push 11, .push 12, .push 13, .pop 0, .pop 0, .push 14,
       .pop 0, .pop 0, .pop 0]).1⟩

/-- C2: for a capacity parameter `C = 2 ^ k` and a tail index inside the slot
array, `try_push(v)` returns false exactly when `(tail + 1) mod C == head`, and
then the queue is unchanged; when it returns true, slot `tail` holds `v`,
`tail` has become `(tail + 1) mod C`, and `head`, the number of slots and every
other slot are as before. -/
theorem try_push_spec (k : Nat) (hk : k < 64) (q : SPSCQueue T) (v : T)
    (ht : q.tail_ < q.buffer_.length) :
    ((try_push (2 ^ k) q v).1 = false ↔ (q.tail_ + 1) % 2 ^ k = q.head_) ∧
    ((try_push (2 ^ k) q v).1 = false → (try_push (2 ^ k) q v).2 = q) ∧
    ((try_push (2 ^ k) q v).1 = true →
      (try_push (2 ^ k) q v).2.buffer_[q.tail_]? = some v ∧
      (try_push (2 ^ k) q v).2.tail_ = (q.tail_ + 1) % 2 ^ k ∧
      (try_push (2 ^ k) q v).2.head_ = q.head_ ∧
      (try_push (2 ^ k) q v).2.buffer_.length = q.buffer_.length ∧
      ∀ i, i ≠ q.tail_ → (try_push (2 ^ k) q v).2.buffer_[i]? = q.buffer_[i]?) := by
  rw [try_push_eq k hk]
  by_cases hfull : (q.tail_ + 1) % 2 ^ k = q.head_
  · simp [hfull]
  · simp only [hfull, if_false, iff_false, Bool.true_eq_false, not_false_eq_true,
      false_implies, true_and, forall_const]
    refine ⟨?_, by simp, ?_⟩
    · rw [List.getElem?_set, if_pos rfl, if_pos ht]
    · intro i hi
      rw [List.getElem?_set, if_neg (Ne.symm hi)]

theorem try_push_spec_witness :
    (1 < 64 ∧ (SPSCQueue.mk 0 1 [5, 6]).tail_ < (SPSCQueue.mk 0 1 [5, 6]).buffer_.length) ∧
    try_push (2 ^ 1) (SPSCQueue.mk 0 1 [5, 6]) 9 = (false, SPSCQueue.mk 0 1 [5, 6]) ∧
    try_push (2 ^ 1) (SPSCQueue.mk 1 1 [5, 6]) 9 = (true, SPSCQueue.mk 1 0 [5, 9]) ∧
    ((try_push (2 ^ 1) (SPSCQueue.mk 0 1 [5, 6]) 9).1 = false ↔
      ((SPSCQueue.mk 0 1 [5, 6]).tail_ + 1) % 2 ^ 1 = (SPSCQueue.mk 0 1 [5, 6]).head_) :=
  ⟨⟨by decide, by decide⟩, by decide, by decide,
    (try_push_spec 1 (by decide) (SPSCQueue.mk 0 1 [5, 6]) 9 (by decide)).1⟩

/-- C3: for a capacity parameter `C = 2 ^ k` and a head index inside the slot
array, `try_pop(out)` returns false exactly when `head == tail`, and then `out`
and the queue are unchanged; when it returns true, `out` is the value of slot
`head`, `head` has become `(head + 1) mod C`, and `tail` and the slot array are
as before. -/
theorem try_pop_spec (k : Nat) (hk : k < 64) (q : SPSCQueue T) (out : T)
    (hh : q.head_ < q.buffer_.length) :
    ((try_pop (2 ^ k) q out).1 = false ↔ q.head_ = q.tail_) ∧
    ((try_pop (2 ^ k) q out).1 = false →
      (try_pop (2 ^ k) q out).2.1 = out ∧ (try_pop (2 ^ k) q out).2.2 = q) ∧
    ((try_pop (2 ^ k) q out).1 = true →
      q.buffer_[q.head_]? = some (try_pop (2 ^ k) q out).2.1 ∧
      (try_pop (2 ^ k) q out).2.2.head_ = (q.head_ + 1) % 2 ^ k ∧
      (try_pop (2 ^ k) q out).2.2.tail_ = q.tail_ ∧
      (try_pop (2 ^ k) q out).2.2.buffer_ = q.buffer_) := by
  rw [try_pop_eq k hk]
  by_cases hemp : q.head_ = q.tail_
  · simp [hemp]
  · simp only [hemp, if_false, iff_false, Bool.true_eq_false, not_false_eq_true,
      false_implies, true_and, forall_const, and_true]
    rw [List.getD_eq_getElem?_getD, List.getElem?_eq_getElem hh]
    rfl

theorem try_pop_spec_witness :
    (1 < 64 ∧ (SPSCQueue.mk 1 0 [5, 6]).head_ < (SPSCQueue.mk 1 0 [5, 6]).buffer_.length) ∧
    try_pop (2 ^ 1) (SPSCQueue.mk 1 1 [5, 6]) 3 = (false, 3, SPSCQueue.mk 1 1 [5, 6]) ∧
    try_pop (2 ^ 1) (SPSCQueue.mk 1 0 [5, 6]) 3 = (true, 6, SPSCQueue.mk 0 0 [5, 6]) ∧
    ((try_pop (2 ^ 1) (SPSCQueue.mk 1 0 [5, 6]) 3).1 = false ↔
      (SPSCQueue.mk 1 0 [5, 6]).head_ = (SPSCQueue.mk 1 0 [5, 6]).tail_) :=
  ⟨⟨by decide, by decide⟩, by decide, by decide,
    (try_pop_spec 1 (by decide) (SPSCQueue.mk 1 0 [5, 6]) 3 (by decide)).1⟩

/-- C4: in every state reached from a freshly constructed queue of capacity
parameter `C = 2 ^ k` by any sequence of `try_push` / `try_pop` calls, `size()`
is at most `C - 1`, and `C - 1` is what `capacity()` returns. -/
theorem size_le_capacity (k : Nat) (hk : k < 64) (slots : List T)
    (calls : List (Call T)) :
    size (2 ^ k) (run (2 ^ k) (fresh slots) calls).2 ≤ capacity (2 ^ k) ∧
    capacity (2 ^ k) = 2 ^ k - 1 := by
  have hpos : 0 < 2 ^ k := Nat.pos_pow_of_pos k (by decide)
  have hr := inRange_run k hk calls (fresh slots) ⟨hpos, hpos⟩
  rw [size_of_inRange k hk _ hr]
  unfold capacity
  rw [mask_pow_two k hk]
  obtain ⟨hh, ht⟩ := hr
  refine ⟨?_, rfl⟩
  split <;> omega

theorem size_le_capacity_witness :
    2 < 64 ∧
    size (2 ^ 2) (run (2 ^ 2) (fresh [7, 7, 7, 7])
      [.push 10, .push 11, .push 12, .push 13, .push 14]).2 = 3 ∧
    capacity (2 ^ 2) = 3 ∧
    size (2 ^ 2) (run (2 ^ 2) (fresh [7, 7, 7, 7])
      [.push 10, .push 11, .push 12, .push 13, .push 14]).2 ≤ capacity (2 ^ 2) :=
  ⟨by decide, by decide, by decide,
    (size_le_capacity 2 (by decide) [7, 7, 7, 7]
      [.push 10, .push 11, .push 12, .push 13, .push 14]).1⟩

end SPSCQueue

/-! ## Records of pop/push pairs -/

theorem Forwarded.mono {R R' : Message → Nat → Message → Prop}
    (h : ∀ m j m', R m j m' → R' m j m') {log : List Event} (hf : Forwarded R log) :
    Forwarded R' log := by
  induction hf with
  | nil => exact Forwarded.nil
  | snoc log i j m m' _ hr ih => exact Forwarded.snoc log i j m m' ih (h _ _ _ hr)

theorem Forwarded.pops_eq_pushes {R : Message → Nat → Message → Prop} {log : List Event}
    (hf : Forwarded R log) : Event.pops log = Event.pushes log := by
  induction hf with
  | nil => rfl
  | snoc log i j m m' _ _ ih =>
    simp only [Event.pops, Event.pushes, List.filter_append, List.length_append] at ih ⊢
    simp [List.filter, ih]

theorem RouterPC.for_next_cases (n i : Nat) (b : Bool) :
    RouterPC.for_next n i b = .poll i b ∨ RouterPC.for_next n i b = .loop_head := by
  unfold RouterPC.for_next
  split
  · exact Or.inl rfl
  · exact Or.inr rfl

namespace Stage1Router

theorem inv_of_for_next (r : Stage1Router) (log : List Event) (n i : Nat) (b : Bool)
    (h : Forwarded (fun a _ b => a.restamped1 b) log) :
    Inv { router := r, pc := RouterPC.for_next n i b, log := log } := by
  rcases RouterPC.for_next_cases n i b with hc | hc <;> rw [hc] <;> exact h

theorem step_inv (C : Nat) (s : Stage1Thread) (w : World) (s' : Stage1Thread) (w' : World)
    (hinv : Inv s) (hstep : step C s w = .ok (s', w')) : Inv s' := by
  obtain ⟨router, pc, log⟩ := s
  cases pc with
  | returned =>
    simp only [step, Except.ok.injEq, Prod.mk.injEq] at hstep
    rw [← hstep.1]; exact hinv
  | loop_head =>
    simp only [step] at hstep
    split at hstep <;> simp only [Except.ok.injEq, Prod.mk.injEq] at hstep <;> rw [← hstep.1]
    · exact inv_of_for_next _ _ _ _ _ hinv
    · exact hinv
  | poll i any =>
    simp only [step] at hstep
    split at hstep
    · exact absurd hstep (by simp)
    · split at hstep
      · split at hstep
        · exact absurd hstep (by simp)
        · simp only [Except.ok.injEq, Prod.mk.injEq] at hstep
          rw [← hstep.1]
          exact ⟨log, _, rfl, hinv, rfl⟩
      · simp only [Except.ok.injEq, Prod.mk.injEq] at hstep
        rw [← hstep.1]
        exact inv_of_for_next _ _ _ _ _ hinv
  | retry i any msg target =>
    obtain ⟨log0, m, hlog, hf, hm⟩ := hinv
    simp only at hlog
    have hm' : ∀ t, m.restamped1 { msg with stage1_exit_ns := t } := by
      intro t
      unfold Message.restamped1 at hm ⊢
      rw [hm]
    simp only [step] at hstep
    split at hstep
    · exact absurd hstep (by simp)
    · split at hstep <;> simp only [Except.ok.injEq, Prod.mk.injEq] at hstep <;>
        rw [← hstep.1]
      · apply inv_of_for_next
        simp only [hlog, List.append_assoc, List.singleton_append]
        exact Forwarded.snoc log0 i target m _ hf (hm' _)
      · exact ⟨log0, m, hlog, hf, hm' _⟩

theorem exec_inv (C : Nat) (schedule : List (List EnvAction)) :
    ∀ (s : Stage1Thread) (w : World) (s' : Stage1Thread) (w' : World),
      Inv s → exec C schedule s w = .ok (s', w') →
      Forwarded (fun a _ b => a.restamped1 b) s'.log := by
  induction schedule with
  | nil =>
    intro s w s' w' hinv h
    simp only [exec] at h
    split at h
    · next hpc =>
      simp only [Except.ok.injEq, Prod.mk.injEq] at h
      rw [← h.1]
      unfold Inv at hinv
      rw [hpc] at hinv
      exact hinv
    · exact absurd h (by simp)
  | cons as rest ih =>
    intro s w s' w' hinv h
    simp only [exec] at h
    split at h
    · next hpc =>
      simp only [Except.ok.injEq, Prod.mk.injEq] at h
      rw [← h.1]
      unfold Inv at hinv
      rw [hpc] at hinv
      exact hinv
    · split at h
      · exact absurd h (by simp)
      · next s1 w1 hs => exact ih s1 w1 s' w' (step_inv C s _ s1 w1 hinv hs) h

theorem run_forwarded (C : Nat) (schedule : List (List EnvAction)) (r : Stage1Router)
    (w : World) (s' : Stage1Thread) (w' : World)
    (h : run C schedule r w = .ok (s', w')) :
    Forwarded (fun a _ b => a.restamped1 b) s'.log :=
  exec_inv C schedule { router := r, pc := .loop_head, log := [] } w s' w'
    (show Forwarded _ [] from Forwarded.nil) h

end Stage1Router

namespace Stage2Router

theorem inv_of_for_next_stage2 (r : Stage2Router) (log : List Event) (n i : Nat) (b : Bool)
    (h : Forwarded (fun a j b => a.restamped2 b ∧ r.select_strategy a.msg_type = .ok j) log) :
    Inv r { router := r, pc := RouterPC.for_next n i b, log := log } := by
  rcases RouterPC.for_next_cases n i b with hc | hc <;> rw [hc] <;> exact ⟨rfl, h⟩

theorem step_inv_stage2 (C : Nat) (r : Stage2Router) (s : Stage2Thread) (w : World)
    (s' : Stage2Thread) (w' : World)
    (hinv : Inv r s) (hstep : step C s w = .ok (s', w')) : Inv r s' := by
  obtain ⟨router, pc, log⟩ := s
  obtain ⟨hr, hinv⟩ := hinv
  simp only at hr
  subst hr
  cases pc with
  | returned =>
    simp only [step, Except.ok.injEq, Prod.mk.injEq] at hstep
    rw [← hstep.1]; exact ⟨rfl, hinv⟩
  | loop_head =>
    simp only [step] at hstep
    split at hstep <;> simp only [Except.ok.injEq, Prod.mk.injEq] at hstep <;> rw [← hstep.1]
    · exact inv_of_for_next_stage2 _ _ _ _ _ hinv
    · exact ⟨rfl, hinv⟩
  | poll i any =>
    simp only [step] at hstep
    split at hstep
    · exact absurd hstep (by simp)
    · split at hstep
      · split at hstep
        · exact absurd hstep (by simp)
        · next strategy_id hsel =>
          simp only [Except.ok.injEq, Prod.mk.injEq] at hstep
          rw [← hstep.1]
          exact ⟨rfl, log, _, rfl, hinv, rfl, hsel⟩
      · simp only [Except.ok.injEq, Prod.mk.injEq] at hstep
        rw [← hstep.1]
        exact inv_of_for_next_stage2 _ _ _ _ _ hinv
  | retry i any msg target =>
    obtain ⟨log0, m, hlog, hf, hm, hsel⟩ := hinv
    simp only at hlog
    have hm' : ∀ t, m.restamped2 { msg with stage2_exit_ns := t } := by
      intro t
      unfold Message.restamped2 at hm ⊢
      rw [hm]
    simp only [step] at hstep
    split at hstep
    · exact absurd hstep (by simp)
    · split at hstep <;> simp only [Except.ok.injEq, Prod.mk.injEq] at hstep <;>
        rw [← hstep.1]
      · apply inv_of_for_next_stage2
        simp only [hlog, List.append_assoc, List.singleton_append]
        exact Forwarded.snoc log0 i target m _ hf ⟨hm' _, hsel⟩
      · exact ⟨rfl, log0, m, hlog, hf, hm' _, hsel⟩

theorem exec_inv_stage2 (C : Nat) (r : Stage2Router) (schedule : List (List EnvAction)) :
    ∀ (s : Stage2Thread) (w : World) (s' : Stage2Thread) (w' : World),
      Inv r s → exec C schedule s w = .ok (s', w') →
      Forwarded (fun a j b => a.restamped2 b ∧ r.select_strategy a.msg_type = .ok j)
        s'.log := by
  induction schedule with
  | nil =>
    intro s w s' w' hinv h
    simp only [exec] at h
    split at h
    · next hpc =>
      simp only [Except.ok.injEq, Prod.mk.injEq] at h
      rw [← h.1]
      obtain ⟨_, hinv⟩ := hinv
      rw [hpc] at hinv
      exact hinv
    · exact absurd h (by simp)
  | cons as rest ih =>
    intro s w s' w' hinv h
    simp only [exec] at h
    split at h
    · next hpc =>
      simp only [Except.ok.injEq, Prod.mk.injEq] at h
      rw [← h.1]
      obtain ⟨_, hinv⟩ := hinv
      rw [hpc] at hinv
      exact hinv
    · split at h
      · exact absurd h (by simp)
      · next s1 w1 hs => exact ih s1 w1 s' w' (step_inv_stage2 C r s _ s1 w1 hinv hs) h

theorem run_forwarded_stage2 (C : Nat) (schedule : List (List EnvAction)) (r : Stage2Router)
    (w : World) (s' : Stage2Thread) (w' : World)
    (h : run C schedule r w = .ok (s', w')) :
    Forwarded (fun a j b => a.restamped2 b ∧ r.select_strategy a.msg_type = .ok j)
      s'.log :=
  exec_inv_stage2 C r schedule _ w s' w' ⟨rfl, Forwarded.nil⟩ h

end Stage2Router

/-- C6: `Stage1Router::run` and `Stage2Router::run` never drop a popped
message. (1, 2) A step taken inside the retry loop, whatever the flag reads,
either finds `try_push` failing and stays in the loop with the same message
(stamped anew) and the same output, or finds it succeeding, records the push to
that output and goes on with the next input. (3, 4) Whenever `run` returns, the record of the
thread is a sequence of pop/push pairs: each popped message was pushed exactly
once, unchanged but for the stamps of the stage, so the pushes are as many as
the pops. -/
theorem routers_never_drop (C : Nat) :
    (∀ (s s' : Stage1Thread) (w w' : World) (i : Nat) (any : Bool) (msg : Message)
        (target : Nat),
      s.pc = .retry i any msg target → Stage1Router.step C s w = .ok (s', w') →
      ∃ p q, Stage1Router.deref w s.router.output_queues_ target = some (p, q) ∧
        (((q.try_push C { msg with stage1_exit_ns := w.get_timestamp_ns }).1 = false ∧
            s' = { s with pc := (RouterPC.retry i any
                    { msg with stage1_exit_ns := w.get_timestamp_ns } target) } ∧
            w' = w) ∨
         ((q.try_push C { msg with stage1_exit_ns := w.get_timestamp_ns }).1 = true ∧
            s'.log = s.log ++
              [Event.pushed target { msg with stage1_exit_ns := w.get_timestamp_ns }] ∧
            s'.pc = RouterPC.for_next s.router.input_queues_.length (i + 1) true ∧
            w' = w.setQueue p
              (q.try_push C { msg with stage1_exit_ns := w.get_timestamp_ns }).2))) ∧
    (∀ (s s' : Stage2Thread) (w w' : World) (i : Nat) (any : Bool) (msg : Message)
        (target : Nat),
      s.pc = .retry i any msg target → Stage2Router.step C s w = .ok (s', w') →
      ∃ p q, Stage1Router.deref w s.router.output_queues_ target = some (p, q) ∧
        (((q.try_push C { msg with stage2_exit_ns := w.get_timestamp_ns }).1 = false ∧
            s' = { s with pc := (RouterPC.retry i any
                    { msg with stage2_exit_ns := w.get_timestamp_ns } target) } ∧
            w' = w) ∨
         ((q.try_push C { msg with stage2_exit_ns := w.get_timestamp_ns }).1 = true ∧
            s'.log = s.log ++
              [Event.pushed target { msg with stage2_exit_ns := w.get_timestamp_ns }] ∧
            s'.pc = RouterPC.for_next s.router.input_queues_.length (i + 1) true ∧
            w' = w.setQueue p
              (q.try_push C { msg with stage2_exit_ns := w.get_timestamp_ns }).2))) ∧
    (∀ (schedule : List (List EnvAction)) (r : Stage1Router) (w w' : World)
        (s' : Stage1Thread),
      Stage1Router.run C schedule r w = .ok (s', w') →
      Forwarded (fun m _ m' => m.restamped1 m') s'.log ∧
      Event.pushes s'.log = Event.pops s'.log) ∧
    (∀ (schedule : List (List EnvAction)) (r : Stage2Router) (w w' : World)
        (s' : Stage2Thread),
      Stage2Router.run C schedule r w = .ok (s', w') →
      Forwarded (fun m _ m' => m.restamped2 m') s'.log ∧
      Event.pushes s'.log = Event.pops s'.log) := by
  refine ⟨?_, ?_, ?_, ?_⟩
  · intro s s' w w' i any msg target hpc hstep
    obtain ⟨router, pc, log⟩ := s
    simp only at hpc
    subst hpc
    simp only [Stage1Router.step] at hstep
    split at hstep
    · exact absurd hstep (by simp)
    · next p q hd =>
      refine ⟨p, q, hd, ?_⟩
      split at hstep <;> simp only [Except.ok.injEq, Prod.mk.injEq] at hstep
      · next hok => exact Or.inr ⟨hok, by rw [← hstep.1], by rw [← hstep.1], hstep.2.symm⟩
      · next hno => exact Or.inl ⟨by simpa using hno, hstep.1.symm, hstep.2.symm⟩
  · intro s s' w w' i any msg target hpc hstep
    obtain ⟨router, pc, log⟩ := s
    simp only at hpc
    subst hpc
    simp only [Stage2Router.step] at hstep
    split at hstep
    · exact absurd hstep (by simp)
    · next p q hd =>
      refine ⟨p, q, hd, ?_⟩
      split at hstep <;> simp only [Except.ok.injEq, Prod.mk.injEq] at hstep
      · next hok => exact Or.inr ⟨hok, by rw [← hstep.1], by rw [← hstep.1], hstep.2.symm⟩
      · next hno => exact Or.inl ⟨by simpa using hno, hstep.1.symm, hstep.2.symm⟩
  · intro schedule r w w' s' h
    have hf := Stage1Router.run_forwarded C schedule r w s' w' h
    exact ⟨hf, hf.pops_eq_pushes.symm⟩
  · intro schedule r w w' s' h
    have hf : Forwarded (fun m _ m' => m.restamped2 m') s'.log :=
      Forwarded.mono (fun _ _ _ hr => hr.1)
        (Stage2Router.run_forwarded_stage2 C schedule r w s' w' h)
    exact ⟨hf, hf.pops_eq_pushes.symm⟩

theorem routers_never_drop_witness :
    Scenario.worldFull.queues.map (SPSCQueue.size 2) = [1, 1] ∧
    SPSCQueue.capacity 2 = 1 ∧
    (∃ s w, Stage1Router.run 2 Scenario.stopWhileFull Scenario.stage1 Scenario.worldFull
        = .ok (s, w) ∧
      s.log = [Event.popped 0 Scenario.msgA,
        Event.pushed 0 { Scenario.msgA with stage1_entry_ns := 5, stage1_exit_ns := 9 }] ∧
      w.running = false ∧
      w.queues.map (SPSCQueue.size 2) = [0, 1] ∧
      Forwarded (fun m _ m' => m.restamped1 m') s.log ∧
      Event.pushes s.log = Event.pops s.log) ∧
    (∃ s w, Stage2Router.run 2 Scenario.stopWhileFull Scenario.stage2 Scenario.worldFull
        = .ok (s, w) ∧
      s.log = [Event.popped 0 Scenario.msgA,
        Event.pushed 0 { Scenario.msgA with stage2_entry_ns := 5, stage2_exit_ns := 9 }] ∧
      w.running = false ∧
      w.queues.map (SPSCQueue.size 2) = [0, 1] ∧
      Forwarded (fun m _ m' => m.restamped2 m') s.log ∧
      Event.pushes s.log = Event.pops s.log) :=
  ⟨by decide, by decide,
   ⟨_, _, rfl, rfl, rfl, by decide,
     (routers_never_drop 2).2.2.1 Scenario.stopWhileFull Scenario.stage1
       Scenario.worldFull _ _ rfl⟩,
   ⟨_, _, rfl, rfl, rfl, by decide,
     (routers_never_drop 2).2.2.2 Scenario.stopWhileFull Scenario.stage2
       Scenario.worldFull _ _ rfl⟩⟩

/-! ## The association-list map and the tables built by the constructors -/

namespace UnorderedMap

variable {V : Type}

theorem find_filter_ne (m : List (Nat × V)) (k k' : Nat) (h : k ≠ k') :
    find (m.filter (fun e => decide (e.1 ≠ k))) k' = find m k' := by
  induction m with
  | nil => rfl
  | cons e rest ih =>
    obtain ⟨a, v⟩ := e
    by_cases ha : a = k
    · subst ha
      simp only [List.filter, ne_eq, not_true_eq_false, decide_False, find, if_neg h]
      exact ih
    · simp only [List.filter, ne_eq, ha, not_false_eq_true, decide_True, find]
      rw [ih]

theorem find_assign (m : List (Nat × V)) (k k' : Nat) (v : V) :
    find (assign m k v) k' = if k = k' then some v else find m k' := by
  unfold assign
  by_cases h : k = k'
  · simp only [find, h, if_true]
  · simp only [find, h, if_false]
    exact find_filter_ne m k k' h

end UnorderedMap

namespace Stage1Router

theorem new_append (rules : List Stage1Rule) (rule : Stage1Rule) (ins outs : List Nat) :
    new (rules ++ [rule]) ins outs =
      { new rules ins outs with
        routing_table_ := UnorderedMap.assign (new rules ins outs).routing_table_
          rule.msg_type rule.processors
        rr_counters_ := UnorderedMap.assign (new rules ins outs).rr_counters_
          rule.msg_type 0 } := by
  simp only [new, List.foldl_append, List.foldl_cons, List.foldl_nil]

theorem rule_for_append (rules : List Stage1Rule) (rule : Stage1Rule) (t : Nat) :
    rule_for (rules ++ [rule]) t =
      if rule.msg_type = t then some rule.processors else rule_for rules t := by
  unfold rule_for
  by_cases h : rule.msg_type = t
  · simp [List.filter_append, List.filter, h]
  · simp [List.filter_append, List.filter, h]

theorem new_queues (rules : List Stage1Rule) (ins outs : List Nat) :
    (new rules ins outs).input_queues_ = ins ∧ (new rules ins outs).output_queues_ = outs := by
  induction rules using List.reverseRecOn with
  | nil => exact ⟨rfl, rfl⟩
  | append_singleton rules rule ih => rw [new_append]; exact ih

theorem find_new (rules : List Stage1Rule) (ins outs : List Nat) (t : Nat) :
    UnorderedMap.find (new rules ins outs).routing_table_ t = rule_for rules t := by
  induction rules using List.reverseRecOn with
  | nil => rfl
  | append_singleton rules rule ih =>
    rw [new_append, rule_for_append]
    simp only [UnorderedMap.find_assign, ih]

theorem counters_new (rules : List Stage1Rule) (ins outs : List Nat) (t : Nat) :
    (UnorderedMap.find (new rules ins outs).rr_counters_ t).getD 0 = 0 := by
  induction rules using List.reverseRecOn with
  | nil => rfl
  | append_singleton rules rule ih =>
    rw [new_append]
    simp only [UnorderedMap.find_assign]
    split
    · rfl
    · exact ih

end Stage1Router

namespace Stage2Router

theorem new_append_stage2 (rules : List Stage2Rule) (rule : Stage2Rule) (ins outs : List Nat) :
    new (rules ++ [rule]) ins outs =
      { new rules ins outs with
        routing_table_ := UnorderedMap.assign (new rules ins outs).routing_table_
          rule.msg_type rule.strategy } := by
  simp only [new, List.foldl_append, List.foldl_cons, List.foldl_nil]

theorem rule_for_append_stage2 (rules : List Stage2Rule) (rule : Stage2Rule) (t : Nat) :
    rule_for (rules ++ [rule]) t =
      if rule.msg_type = t then some rule.strategy else rule_for rules t := by
  unfold rule_for
  by_cases h : rule.msg_type = t
  · simp [List.filter_append, List.filter, h]
  · simp [List.filter_append, List.filter, h]

theorem new_queues_stage2 (rules : List Stage2Rule) (ins outs : List Nat) :
    (new rules ins outs).input_queues_ = ins ∧ (new rules ins outs).output_queues_ = outs := by
  induction rules using List.reverseRecOn with
  | nil => exact ⟨rfl, rfl⟩
  | append_singleton rules rule ih => rw [new_append_stage2]; exact ih

theorem find_new_stage2 (rules : List Stage2Rule) (ins outs : List Nat) (t : Nat) :
    UnorderedMap.find (new rules ins outs).routing_table_ t = rule_for rules t := by
  induction rules using List.reverseRecOn with
  | nil => rfl
  | append_singleton rules rule ih =>
    rw [new_append_stage2, rule_for_append_stage2]
    simp only [UnorderedMap.find_assign, ih]

end Stage2Router

/-! ## `select_processor`: what one call returns and changes -/

namespace Stage1Router

theorem fallback_ok (count t : Nat) (hpos : 0 < count) (hlt : count < 256) :
    fallback count t = .ok (t % count) := by
  unfold fallback
  rw [Nat.mod_eq_of_lt hlt, if_neg (by omega)]

theorem select_processor_fallback (r : Stage1Router) (t : Nat)
    (hpos : 0 < r.output_queues_.length) (hlt : r.output_queues_.length < 256)
    (hrule : UnorderedMap.find r.routing_table_ t = none ∨
      UnorderedMap.find r.routing_table_ t = some []) :
    select_processor r t = .ok (t % r.output_queues_.length, r) := by
  unfold select_processor
  rcases hrule with h | h <;> rw [h] <;> simp only [fallback_ok _ _ hpos hlt] <;> rfl

theorem select_processor_rule (r : Stage1Router) (t : Nat) (L : List Nat)
    (hrule : UnorderedMap.find r.routing_table_ t = some L) (hne : L ≠ []) :
    ∃ r', select_processor r t =
        .ok (L.getD ((UnorderedMap.find r.rr_counters_ t).getD 0 % L.length) 0, r') ∧
      r'.routing_table_ = r.routing_table_ ∧
      r'.output_queues_ = r.output_queues_ ∧
      r'.input_queues_ = r.input_queues_ ∧
      ∀ t', (UnorderedMap.find r'.rr_counters_ t').getD 0 =
        if t = t' ∧ 2 ≤ L.length then
          ((UnorderedMap.find r.rr_counters_ t).getD 0 + 1) % SIZE_T_MOD
        else (UnorderedMap.find r.rr_counters_ t').getD 0 := by
  have hlen : 0 < L.length := List.length_pos.mpr hne
  have hemp : L.isEmpty = false := by
    cases L with
    | nil => exact absurd rfl hne
    | cons a l => rfl
  unfold select_processor
  rw [hrule]
  simp only [hemp, Bool.false_eq_true, if_false]
  by_cases h1 : L.length = 1
  · refine ⟨r, ?_, rfl, rfl, rfl, ?_⟩
    · simp only [h1, if_true, Nat.mod_one]
    · intro t'
      rw [if_neg (by omega)]
  · refine ⟨{ r with rr_counters_ := (UnorderedMap.assign r.rr_counters_ t
        (((UnorderedMap.find r.rr_counters_ t).getD 0 + 1) % SIZE_T_MOD)) },
      ?_, rfl, rfl, rfl, ?_⟩
    · simp only [h1, if_false]
    · intro t'
      simp only [UnorderedMap.find_assign]
      by_cases ht : t = t'
      · subst ht
        simp only [if_true, true_and, Option.getD_some]
        rw [if_pos (by omega)]
      · simp only [ht, if_false, false_and]

theorem select_processor_total (r : Stage1Router) (t : Nat)
    (hpos : 0 < r.output_queues_.length) (hlt : r.output_queues_.length < 256) :
    ∃ p r', select_processor r t = .ok (p, r') ∧
      r'.routing_table_ = r.routing_table_ ∧
      r'.output_queues_ = r.output_queues_ ∧
      r'.input_queues_ = r.input_queues_ := by
  cases hfind : UnorderedMap.find r.routing_table_ t with
  | none =>
    exact ⟨_, r, select_processor_fallback r t hpos hlt (Or.inl hfind), rfl, rfl, rfl⟩
  | some L =>
    by_cases hne : L = []
    · subst hne
      exact ⟨_, r, select_processor_fallback r t hpos hlt (Or.inr hfind), rfl, rfl, rfl⟩
    · obtain ⟨r', h, h1, h2, h3, _⟩ := select_processor_rule r t L hfind hne
      exact ⟨_, r', h, h1, h2, h3⟩

theorem select_processor_counters (r r' : Stage1Router) (t p : Nat)
    (h : select_processor r t = .ok (p, r'))
    (hc : ∀ t', (UnorderedMap.find r.rr_counters_ t').getD 0 < SIZE_T_MOD) :
    ∀ t', (UnorderedMap.find r'.rr_counters_ t').getD 0 < SIZE_T_MOD := by
  have hpos : 0 < SIZE_T_MOD := by unfold SIZE_T_MOD; exact Nat.pos_pow_of_pos 64 (by decide)
  intro t'
  cases hfind : UnorderedMap.find r.routing_table_ t with
  | none =>
    simp only [select_processor, hfind] at h
    cases hf : fallback r.output_queues_.length t with
    | error e => rw [hf] at h; exact absurd h (by simp [Except.map])
    | ok v =>
      rw [hf] at h
      simp only [Except.map, Except.ok.injEq, Prod.mk.injEq] at h
      rw [← h.2]; exact hc t'
  | some L =>
    by_cases hne : L = []
    · subst hne
      simp only [select_processor, hfind, List.isEmpty_nil, if_true] at h
      cases hf : fallback r.output_queues_.length t with
      | error e => rw [hf] at h; exact absurd h (by simp [Except.map])
      | ok v =>
        rw [hf] at h
        simp only [Except.map, Except.ok.injEq, Prod.mk.injEq] at h
        rw [← h.2]; exact hc t'
    · obtain ⟨r1, h1, _, _, _, h5⟩ := select_processor_rule r t L hfind hne
      rw [h1] at h
      simp only [Except.ok.injEq, Prod.mk.injEq] at h
      rw [← h.2, h5 t']
      split
      · exact Nat.mod_lt _ hpos
      · exact hc t'

theorem select_processor_other (r r' : Stage1Router) (t p t' : Nat)
    (h : select_processor r t = .ok (p, r')) (hne : t ≠ t') :
    (UnorderedMap.find r'.rr_counters_ t').getD 0 =
      (UnorderedMap.find r.rr_counters_ t').getD 0 := by
  cases hfind : UnorderedMap.find r.routing_table_ t with
  | none =>
    simp only [select_processor, hfind] at h
    cases hf : fallback r.output_queues_.length t with
    | error e => rw [hf] at h; exact absurd h (by simp [Except.map])
    | ok v =>
      rw [hf] at h
      simp only [Except.map, Except.ok.injEq, Prod.mk.injEq] at h
      rw [← h.2]
  | some L =>
    by_cases hL : L = []
    · subst hL
      simp only [select_processor, hfind, List.isEmpty_nil, if_true] at h
      cases hf : fallback r.output_queues_.length t with
      | error e => rw [hf] at h; exact absurd h (by simp [Except.map])
      | ok v =>
        rw [hf] at h
        simp only [Except.map, Except.ok.injEq, Prod.mk.injEq] at h
        rw [← h.2]
    · obtain ⟨r1, h1, _, _, _, h5⟩ := select_processor_rule r t L hfind hL
      rw [h1] at h
      simp only [Except.ok.injEq, Prod.mk.injEq] at h
      rw [← h.2, h5 t', if_neg (fun hc => hne hc.1)]

theorem select_processor_frame (r r' : Stage1Router) (t p : Nat)
    (h : select_processor r t = .ok (p, r')) :
    r'.routing_table_ = r.routing_table_ ∧ r'.output_queues_ = r.output_queues_ ∧
    r'.input_queues_ = r.input_queues_ := by
  cases hfind : UnorderedMap.find r.routing_table_ t with
  | none =>
    simp only [select_processor, hfind] at h
    cases hf : fallback r.output_queues_.length t with
    | error e => rw [hf] at h; exact absurd h (by simp [Except.map])
    | ok v =>
      rw [hf] at h
      simp only [Except.map, Except.ok.injEq, Prod.mk.injEq] at h
      rw [← h.2]
      exact ⟨rfl, rfl, rfl⟩
  | some L =>
    by_cases hL : L = []
    · subst hL
      simp only [select_processor, hfind, List.isEmpty_nil, if_true] at h
      cases hf : fallback r.output_queues_.length t with
      | error e => rw [hf] at h; exact absurd h (by simp [Except.map])
      | ok v =>
        rw [hf] at h
        simp only [Except.map, Except.ok.injEq, Prod.mk.injEq] at h
        rw [← h.2]
        exact ⟨rfl, rfl, rfl⟩
    · obtain ⟨r1, h1, h2, h3, h4, _⟩ := select_processor_rule r t L hfind hL
      rw [h1] at h
      simp only [Except.ok.injEq, Prod.mk.injEq] at h
      rw [← h.2]
      exact ⟨h2, h3, h4⟩

theorem select_all_cons (r : Stage1Router) (t0 : Nat) (ts results : List Nat)
    (r' : Stage1Router) (h : select_all r (t0 :: ts) = .ok (results, r')) :
    ∃ p r1 rest, select_processor r t0 = .ok (p, r1) ∧
      select_all r1 ts = .ok (rest, r') ∧ results = p :: rest := by
  simp only [select_all] at h
  split at h
  · exact absurd h (by simp)
  · next p r1 h1 =>
    split at h
    · exact absurd h (by simp)
    · next rest r2 h2 =>
      simp only [Except.ok.injEq, Prod.mk.injEq] at h
      exact ⟨p, r1, rest, h1, h.2 ▸ h2, h.1.symm⟩

theorem select_all_spec (calls : List Nat) :
    ∀ (r r' : Stage1Router) (results : List Nat),
      (∀ t, (UnorderedMap.find r.rr_counters_ t).getD 0 < SIZE_T_MOD) →
      select_all r calls = .ok (results, r') →
        r'.routing_table_ = r.routing_table_ ∧
        r'.output_queues_ = r.output_queues_ ∧
        r'.input_queues_ = r.input_queues_ ∧
        ∀ i t L, calls[i]? = some t → UnorderedMap.find r.routing_table_ t = some L →
          L ≠ [] →
          results[i]? = L[(((UnorderedMap.find r.rr_counters_ t).getD 0 +
            (calls.take i).count t) % SIZE_T_MOD) % L.length]? := by
  induction calls with
  | nil =>
    intro r r' results _ h
    simp only [select_all, Except.ok.injEq, Prod.mk.injEq] at h
    rw [← h.2]
    exact ⟨rfl, rfl, rfl, fun i t L hi => by simp at hi⟩
  | cons t0 ts ih =>
    intro r r2 results0 hc h
    obtain ⟨p, r1, results, h1, h2, hres0⟩ := select_all_cons r t0 ts results0 r2 h
    subst hres0
    obtain ⟨htab, houts, hins⟩ := select_processor_frame r r1 t0 p h1
    obtain ⟨htab2, houts2, hins2, hres⟩ :=
      ih r1 r2 results (select_processor_counters r r1 t0 p h1 hc) h2
    refine ⟨htab2.trans htab, houts2.trans houts, hins2.trans hins, ?_⟩
    intro i t L hi hfind hL
    have hlen : 0 < L.length := List.length_pos.mpr hL
    cases i with
    | zero =>
      simp only [List.getElem?_cons_zero, Option.some.injEq] at hi
      subst hi
      obtain ⟨r', h', _⟩ := select_processor_rule r t0 L hfind hL
      rw [h'] at h1
      simp only [Except.ok.injEq, Prod.mk.injEq] at h1
      simp only [List.getElem?_cons_zero, List.take_zero, List.count_nil, Nat.add_zero,
        Nat.mod_eq_of_lt (hc t0)]
      rw [← h1.1, List.getD_eq_getElem?_getD,
        List.getElem?_eq_getElem (Nat.mod_lt _ hlen)]
      rfl
    | succ i =>
      simp only [List.getElem?_cons_succ] at hi
      have hrec := hres i t L hi (htab ▸ hfind) hL
      simp only [List.getElem?_cons_succ, List.take_succ_cons, List.count_cons]
      rw [hrec]
      by_cases ht : t0 = t
      · subst ht
        obtain ⟨r', h', _, _, _, h5⟩ := select_processor_rule r t0 L hfind hL
        rw [h'] at h1
        simp only [Except.ok.injEq, Prod.mk.injEq] at h1
        rw [← h1.2, h5 t0]
        simp only [true_and, beq_self_eq_true, if_true]
        by_cases h2len : 2 ≤ L.length
        · rw [if_pos h2len, Nat.mod_add_mod]
          congr 3
          omega
        · have h1len : L.length = 1 := by omega
          simp only [h1len, Nat.mod_one]
      · rw [select_processor_other r r1 t0 p t h1 ht]
        have hb : (t0 == t) = false := by simpa using ht
        simp only [hb, Bool.false_eq_true, if_false, Nat.add_zero]

theorem select_all_total (calls : List Nat) :
    ∀ r : Stage1Router, 0 < r.output_queues_.length → r.output_queues_.length < 256 →
      ∃ results r', select_all r calls = .ok (results, r') := by
  induction calls with
  | nil => intro r _ _; exact ⟨[], r, rfl⟩
  | cons t0 ts ih =>
    intro r hpos hlt
    obtain ⟨p, r1, h1, _, houts, _⟩ := select_processor_total r t0 hpos hlt
    obtain ⟨results, r2, h2⟩ := ih r1 (houts ▸ hpos) (houts ▸ hlt)
    exact ⟨p :: results, r2, by simp only [select_all, h1, h2]⟩

theorem select_all_new (rules : List Stage1Rule) (ins outs calls results : List Nat)
    (r' : Stage1Router) (h : select_all (new rules ins outs) calls = .ok (results, r')) :
    (∀ t, UnorderedMap.find r'.routing_table_ t = rule_for rules t) ∧
    r'.output_queues_ = outs ∧
    ∀ i t L, calls[i]? = some t → rule_for rules t = some L → L ≠ [] →
      results[i]? = L[((calls.take i).count t % SIZE_T_MOD) % L.length]? := by
  have hpos : 0 < SIZE_T_MOD := by unfold SIZE_T_MOD; exact Nat.pos_pow_of_pos 64 (by decide)
  obtain ⟨htab, houts, _, hres⟩ := select_all_spec calls (new rules ins outs) r' results
    (fun t => by rw [counters_new]; exact hpos) h
  refine ⟨fun t => by rw [htab, find_new], houts.trans (new_queues rules ins outs).2, ?_⟩
  intro i t L hi hrule hL
  have := hres i t L hi (by rw [find_new]; exact hrule) hL
  rw [counters_new, Nat.zero_add] at this
  exact this

/-- C8 (amended): with the table built by the constructor from `rules`, in any
sequence of `select_processor` calls that runs without fault, the call at
position `i`, of a type `t` whose candidate list `L` is non-empty, returns
`L[(k mod 2^64) mod len(L)]` where `k` is the number of earlier calls of type
`t` (calls of other types do not count: the counters are per type); this is
`L[k mod len(L)]` as long as `k < 2^64`. With 1 to 255 output queues no
sequence of calls faults. -/
theorem select_processor_round_robin (rules : List Stage1Rule)
    (ins outs calls : List Nat) :
    (∀ results r', select_all (new rules ins outs) calls = .ok (results, r') →
      ∀ i t L, calls[i]? = some t → rule_for rules t = some L → L ≠ [] →
        results[i]? = L[((calls.take i).count t % SIZE_T_MOD) % L.length]? ∧
        ((calls.take i).count t < SIZE_T_MOD →
          results[i]? = L[(calls.take i).count t % L.length]?)) ∧
    (0 < outs.length → outs.length < 256 →
      ∃ results r', select_all (new rules ins outs) calls = .ok (results, r')) := by
  refine ⟨?_, fun hpos hlt => ?_⟩
  · intro results r' h i t L hi hrule hL
    have hres := (select_all_new rules ins outs calls results r' h).2.2 i t L hi hrule hL
    refine ⟨hres, fun hk => ?_⟩
    rw [hres, Nat.mod_eq_of_lt hk]
  · exact select_all_total calls _
      ((new_queues rules ins outs).2.symm ▸ hpos) ((new_queues rules ins outs).2.symm ▸ hlt)

theorem select_processor_round_robin_witness :
    (select_all (new [⟨0, [2, 0, 1]⟩, ⟨1, [1, 2]⟩] [] [0, 1, 2]) [0, 1, 0, 7, 0, 1, 0]).map
      (fun x => x.1) = .ok [2, 1, 0, 1, 1, 2, 2] ∧
    ∃ results r', select_all (new [⟨0, [2, 0, 1]⟩, ⟨1, [1, 2]⟩] [] [0, 1, 2])
      [0, 1, 0, 7, 0, 1, 0] = .ok (results, r') ∧
      results[4]? = [2, 0, 1][(([0, 1, 0, 7, 0, 1, 0].take 4).count 0 % SIZE_T_MOD) % 3]? :=
  ⟨rfl, _, _, rfl,
    ((select_processor_round_robin [⟨0, [2, 0, 1]⟩, ⟨1, [1, 2]⟩] [] [0, 1, 2]
      [0, 1, 0, 7, 0, 1, 0]).1 _ _ rfl 4 0 [2, 0, 1] rfl rfl (by decide)).1⟩

/-- C8 (as stated, refuted): with the single rule `0 -> [0, 1, 2]`, after
`2^64` calls of type 0 the counter of the type, a `size_t`, is back at zero: the
call number `k = 2^64` returns processor `0`, whereas `L[k mod len(L)]` is
`L[1] = 1`. -/
theorem select_processor_counter_wraps :
    ∃ results r',
      select_all (new [⟨0, [0, 1, 2]⟩] [] [0, 1, 2]) (List.replicate (2 ^ 64 + 1) 0)
        = .ok (results, r') ∧
      (List.replicate (2 ^ 64 + 1) 0)[2 ^ 64]? = some 0 ∧
      ((List.replicate (2 ^ 64 + 1) 0).take (2 ^ 64)).count 0 = 2 ^ 64 ∧
      results[2 ^ 64]? = some 0 ∧
      ([0, 1, 2] : List Nat)[2 ^ 64 % 3]? = some 1 := by
  obtain ⟨results, r', h⟩ := select_all_total (List.replicate (2 ^ 64 + 1) 0)
    (new [⟨0, [0, 1, 2]⟩] [] [0, 1, 2]) (by decide) (by decide)
  have hget : (List.replicate (2 ^ 64 + 1) 0)[2 ^ 64]? = some 0 := by
    rw [List.getElem?_replicate, if_pos (Nat.lt_succ_self _)]
  have hcount : ((List.replicate (2 ^ 64 + 1) 0).take (2 ^ 64)).count 0 = 2 ^ 64 := by
    rw [List.take_replicate, List.count_replicate_self, Nat.min_eq_left (Nat.le_succ _)]
  have hres := (select_all_new [⟨0, [0, 1, 2]⟩] [] [0, 1, 2] _ results r' h).2.2
    (2 ^ 64) 0 [0, 1, 2] hget rfl (by decide)
  refine ⟨results, r', h, hget, hcount, ?_, by decide⟩
  rw [hres, hcount]
  have hzero : (2 ^ 64 % SIZE_T_MOD) % ([0, 1, 2] : List Nat).length = 0 := by decide
  rw [hzero]
  rfl

/-- C9: for a router built from `rules` with `n` output queues, `1 ≤ n ≤ 16`,
and a type `t` that no rule names or whose rule has an empty list, after any
history of calls `select_processor(t)` returns `t mod n` (and changes
nothing). -/
theorem select_processor_fallback_mod (rules : List Stage1Rule) (ins outs : List Nat)
    (t : Nat) (h1 : 1 ≤ outs.length) (h16 : outs.length ≤ 16)
    (hrule : rule_for rules t = none ∨ rule_for rules t = some [])
    (history results : List Nat) (r : Stage1Router)
    (hhist : select_all (new rules ins outs) history = .ok (results, r)) :
    select_processor r t = .ok (t % outs.length, r) := by
  obtain ⟨htab, houts, _⟩ := select_all_new rules ins outs history results r hhist
  have h := select_processor_fallback r t (by rw [houts]; omega) (by rw [houts]; omega)
    (by rw [htab]; exact hrule)
  rw [houts] at h
  exact h

theorem select_processor_fallback_mod_witness :
    (1 ≤ [0, 1, 2].length ∧ [0, 1, 2].length ≤ 16 ∧
      rule_for [⟨3, [0]⟩, ⟨4, []⟩, ⟨5, [1, 2]⟩] 7 = none ∧
      rule_for [⟨3, [0]⟩, ⟨4, []⟩, ⟨5, [1, 2]⟩] 4 = some []) ∧
    (∃ results r, select_all (new [⟨3, [0]⟩, ⟨4, []⟩, ⟨5, [1, 2]⟩] [] [0, 1, 2]) [5, 3, 5]
        = .ok (results, r) ∧
      select_processor r 7 = .ok (7 % 3, r) ∧ select_processor r 4 = .ok (4 % 3, r)) :=
  ⟨⟨by decide, by decide, by decide, by decide⟩, _, _, rfl,
    select_processor_fallback_mod [⟨3, [0]⟩, ⟨4, []⟩, ⟨5, [1, 2]⟩] [] [0, 1, 2] 7
      (by decide) (by decide) (Or.inl (by decide)) [5, 3, 5] _ _ rfl,
    select_processor_fallback_mod [⟨3, [0]⟩, ⟨4, []⟩, ⟨5, [1, 2]⟩] [] [0, 1, 2] 4
      (by decide) (by decide) (Or.inr (by decide)) [5, 3, 5] _ _ rfl⟩

end Stage1Router

namespace Stage2Router

theorem select_strategy_new (rules : List Stage2Rule) (ins outs : List Nat) (t j : Nat)
    (hlt : outs.length < 256)
    (h : select_strategy (new rules ins outs) t = .ok j) :
    j = destination rules outs.length t := by
  unfold select_strategy at h
  unfold destination
  rw [find_new_stage2] at h
  cases hr : rule_for rules t with
  | some strategy =>
    rw [hr] at h
    simp only [Except.ok.injEq] at h
    exact h.symm
  | none =>
    rw [hr] at h
    simp only [(new_queues_stage2 rules ins outs).2, Stage1Router.fallback,
      Nat.mod_eq_of_lt hlt] at h
    split at h
    · exact absurd h (by simp)
    · simp only [Except.ok.injEq] at h
      exact h.symm

/-- C10: for a Stage2 router built from `rules` with `n < 256` output queues,
whenever `run` returns, its record is a sequence of pop/push pairs in which
every popped message of type `t` is pushed once, with its type unchanged, to
the output whose index is the strategy of the Stage2 rule for `t`, or `t mod n`
when no rule names `t`; there is no other push. With `n > 0` the index computed
for any type is that destination. -/
theorem stage2_pushes_to_rule_destination (C : Nat) (rules : List Stage2Rule)
    (ins outs : List Nat) (hlt : outs.length < 256) :
    (∀ (schedule : List (List EnvAction)) (w w' : World) (s' : Stage2Thread),
      run C schedule (new rules ins outs) w = .ok (s', w') →
      Forwarded (fun m j m' => m'.msg_type = m.msg_type ∧
        j = destination rules outs.length m.msg_type) s'.log) ∧
    (0 < outs.length → ∀ t,
      select_strategy (new rules ins outs) t = .ok (destination rules outs.length t)) := by
  refine ⟨fun schedule w w' s' h => ?_, fun hpos t => ?_⟩
  · refine (run_forwarded_stage2 C schedule _ w s' w' h).mono ?_
    intro m j m' hr
    refine ⟨?_, select_strategy_new rules ins outs _ j hlt hr.2⟩
    have h1 := hr.1
    unfold Message.restamped2 at h1
    rw [h1]
  · unfold select_strategy destination
    rw [find_new_stage2]
    cases hr : rule_for rules t with
    | some strategy => rfl
    | none =>
      simp only [(new_queues_stage2 rules ins outs).2]
      exact Stage1Router.fallback_ok _ _ hpos hlt

theorem stage2_pushes_to_rule_destination_witness :
    ([1].length < 256 ∧ destination [⟨3, 0, true⟩] [1].length 3 = 0 ∧
      destination [⟨3, 0, true⟩] [1, 2, 3].length 5 = 2) ∧
    ∃ s w, run 4 Scenario.stopAfterFirstPop (new [⟨3, 0, true⟩] [0] [1]) Scenario.worldAB = .ok (s, w) ∧
      s.log = [Event.popped 0 Scenario.msgA,
        Event.pushed 0 { Scenario.msgA with stage2_entry_ns := 5, stage2_exit_ns := 9 }] ∧
      Forwarded (fun m j m' => m'.msg_type = m.msg_type ∧
        j = destination [⟨3, 0, true⟩] [1].length m.msg_type) s.log :=
  ⟨⟨by decide, by decide, by decide⟩, _, _, rfl, rfl,
    (stage2_pushes_to_rule_destination 4 [⟨3, 0, true⟩] [0] [1] (by decide)).1
      Scenario.stopAfterFirstPop Scenario.worldAB _ _ rfl⟩

end Stage2Router

/-! ## Shutdown: what the loops do once the flag is clear -/

/-- C5 (the code at two failing inputs): (1) the flag is cleared while
`Processor::run` busy-waits on the message it has popped; the inner
`while (running.load())` is then not entered and `try_push` is never called.
(2) The flag is cleared while the processor retries its push on a full output
queue; the inner loop is left without the push having succeeded. Either way
`run` returns having popped one message and pushed none: the input queue is
empty, the output queue holds what it held before and `messages_processed` is
still zero. -/
theorem processor_drops_popped_message_on_shutdown :
    (Scenario.worldA.queues.map (SPSCQueue.size 4) = [1, 0] ∧
      ∃ s w, Processor.run 4 Scenario.stopDuringWait Scenario.processor Scenario.worldA
          = .ok (s, w) ∧
        s.pc = .returned ∧
        s.log = [Event.popped 0 Scenario.msgA] ∧
        Event.pops s.log = 1 ∧ Event.pushes s.log = 0 ∧
        w.queues.map (SPSCQueue.size 4) = [0, 0] ∧
        w.messages_processed = 0) ∧
    (Scenario.worldFull.queues.map (SPSCQueue.size 2) = [1, 1] ∧
      ∃ s w, Processor.run 2 Scenario.stopWhileFullProcessor Scenario.processor
          Scenario.worldFull = .ok (s, w) ∧
        s.pc = .returned ∧
        s.log = [Event.popped 0 Scenario.msgA] ∧
        Event.pops s.log = 1 ∧ Event.pushes s.log = 0 ∧
        w.queues.map (SPSCQueue.size 2) = [0, 1] ∧
        w.queues[1]? = some Scenario.smallQueueB ∧
        w.messages_processed = 0) :=
  ⟨⟨by decide, _, _, rfl, rfl, rfl, by decide, by decide, by decide, rfl⟩,
   ⟨by decide, _, _, rfl, rfl, rfl, by decide, by decide, by decide, by decide, rfl⟩⟩

/-- C7: the loops do not drain their input at shutdown. In each of these runs
the input queue (queue 0) holds two messages, no other thread pushes into it,
and the flag is cleared after the first message has been taken;
`Stage1Router::run`, `Processor::run` and `Stage2Router::run` then return at the
next evaluation of `while (running.load())`, one message forwarded and one left
in the input queue, which is not empty when `run` returns. -/
theorem run_returns_with_input_not_drained :
    (∃ s w, Stage1Router.run 4 Scenario.stopAfterFirstPop Scenario.stage1 Scenario.worldAB
        = .ok (s, w) ∧
      w.running = false ∧ w.queues.map SPSCQueue.empty = [false, false] ∧
      w.queues.map (SPSCQueue.size 4) = [1, 1]) ∧
    (∃ s w, Processor.run 4 Scenario.stopAfterFirstPush Scenario.processor Scenario.worldAB
        = .ok (s, w) ∧
      w.running = false ∧ w.queues.map SPSCQueue.empty = [false, false] ∧
      w.queues.map (SPSCQueue.size 4) = [1, 1]) ∧
    (∃ s w, Stage2Router.run 4 Scenario.stopAfterFirstPop Scenario.stage2 Scenario.worldAB
        = .ok (s, w) ∧
      w.running = false ∧ w.queues.map SPSCQueue.empty = [false, false] ∧
      w.queues.map (SPSCQueue.size 4) = [1, 1]) :=
  ⟨⟨_, _, rfl, rfl, by decide, by decide⟩, ⟨_, _, rfl, rfl, by decide, by decide⟩,
    ⟨_, _, rfl, rfl, by decide, by decide⟩⟩

namespace Stage1Router

theorem step_to_returned (C : Nat) (s s' : Stage1Thread) (w w' : World)
    (h : step C s w = .ok (s', w')) (hs : s.pc ≠ .returned) (hs' : s'.pc = .returned) :
    w'.running = false := by
  obtain ⟨router, pc, log⟩ := s
  cases pc with
  | returned => exact absurd rfl hs
  | loop_head =>
    simp only [step] at h
    split at h <;> simp only [Except.ok.injEq, Prod.mk.injEq] at h
    · next hrun =>
      rw [← h.1] at hs'
      rcases RouterPC.for_next_cases router.input_queues_.length 0 false with hc | hc <;>
        rw [hc] at hs' <;> exact absurd hs' (by simp)
    · next hrun => rw [← h.2]; simpa using hrun
  | poll i any =>
    simp only [step] at h
    split at h
    · exact absurd h (by simp)
    · split at h
      · split at h
        · exact absurd h (by simp)
        · simp only [Except.ok.injEq, Prod.mk.injEq] at h
          rw [← h.1] at hs'
          exact absurd hs' (by simp)
      · simp only [Except.ok.injEq, Prod.mk.injEq] at h
        rw [← h.1] at hs'
        rcases RouterPC.for_next_cases router.input_queues_.length (i + 1) any with hc | hc <;>
          rw [hc] at hs' <;> exact absurd hs' (by simp)
  | retry i any msg target =>
    simp only [step] at h
    split at h
    · exact absurd h (by simp)
    · split at h <;> simp only [Except.ok.injEq, Prod.mk.injEq] at h <;>
        rw [← h.1] at hs'
      · rcases RouterPC.for_next_cases router.input_queues_.length (i + 1) true with hc | hc <;>
          rw [hc] at hs' <;> exact absurd hs' (by simp)
      · exact absurd hs' (by simp)

theorem exec_returned (C : Nat) (schedule : List (List EnvAction)) :
    ∀ (s s' : Stage1Thread) (w w' : World),
      (s.pc = .returned → w.running = false) →
      exec C schedule s w = .ok (s', w') → s'.pc = .returned ∧ w'.running = false := by
  induction schedule with
  | nil =>
    intro s s' w w' hinv h
    simp only [exec] at h
    split at h
    · next hpc =>
      simp only [Except.ok.injEq, Prod.mk.injEq] at h
      rw [← h.1, ← h.2]
      exact ⟨hpc, hinv hpc⟩
    · exact absurd h (by simp)
  | cons as rest ih =>
    intro s s' w w' hinv h
    simp only [exec] at h
    split at h
    · next hpc =>
      simp only [Except.ok.injEq, Prod.mk.injEq] at h
      rw [← h.1, ← h.2]
      exact ⟨hpc, hinv hpc⟩
    · next hpc =>
      split at h
      · exact absurd h (by simp)
      · next s1 w1 hs =>
        exact ih s1 s' w1 w' (fun h1 => step_to_returned C s s1 _ w1 hs hpc h1) h

theorem exec_at_clear_flag (C : Nat) (as : List EnvAction) (rest : List (List EnvAction))
    (s : Stage1Thread) (w : World) (hpc : s.pc = .loop_head)
    (hrun : (w.acts C as).running = false) :
    exec C (as :: rest) s w = .ok ({ s with pc := .returned }, w.acts C as) := by
  obtain ⟨router, pc, log⟩ := s
  simp only at hpc
  subst hpc
  cases rest <;> simp [exec, step, hrun]

end Stage1Router

namespace Stage2Router

theorem step_to_returned_stage2 (C : Nat) (s s' : Stage2Thread) (w w' : World)
    (h : step C s w = .ok (s', w')) (hs : s.pc ≠ .returned) (hs' : s'.pc = .returned) :
    w'.running = false := by
  obtain ⟨router, pc, log⟩ := s
  cases pc with
  | returned => exact absurd rfl hs
  | loop_head =>
    simp only [step] at h
    split at h <;> simp only [Except.ok.injEq, Prod.mk.injEq] at h
    · next hrun =>
      rw [← h.1] at hs'
      rcases RouterPC.for_next_cases router.input_queues_.length 0 false with hc | hc <;>
        rw [hc] at hs' <;> exact absurd hs' (by simp)
    · next hrun => rw [← h.2]; simpa using hrun
  | poll i any =>
    simp only [step] at h
    split at h
    · exact absurd h (by simp)
    · split at h
      · split at h
        · exact absurd h (by simp)
        · simp only [Except.ok.injEq, Prod.mk.injEq] at h
          rw [← h.1] at hs'
          exact absurd hs' (by simp)
      · simp only [Except.ok.injEq, Prod.mk.injEq] at h
        rw [← h.1] at hs'
        rcases RouterPC.for_next_cases router.input_queues_.length (i + 1) any with hc | hc <;>
          rw [hc] at hs' <;> exact absurd hs' (by simp)
  | retry i any msg target =>
    simp only [step] at h
    split at h
    · exact absurd h (by simp)
    · split at h <;> simp only [Except.ok.injEq, Prod.mk.injEq] at h <;>
        rw [← h.1] at hs'
      · rcases RouterPC.for_next_cases router.input_queues_.length (i + 1) true with hc | hc <;>
          rw [hc] at hs' <;> exact absurd hs' (by simp)
      · exact absurd hs' (by simp)

theorem exec_returned_stage2 (C : Nat) (schedule : List (List EnvAction)) :
    ∀ (s s' : Stage2Thread) (w w' : World),
      (s.pc = .returned → w.running = false) →
      exec C schedule s w = .ok (s', w') → s'.pc = .returned ∧ w'.running = false := by
  induction schedule with
  | nil =>
    intro s s' w w' hinv h
    simp only [exec] at h
    split at h
    · next hpc =>
      simp only [Except.ok.injEq, Prod.mk.injEq] at h
      rw [← h.1, ← h.2]
      exact ⟨hpc, hinv hpc⟩
    · exact absurd h (by simp)
  | cons as rest ih =>
    intro s s' w w' hinv h
    simp only [exec] at h
    split at h
    · next hpc =>
      simp only [Except.ok.injEq, Prod.mk.injEq] at h
      rw [← h.1, ← h.2]
      exact ⟨hpc, hinv hpc⟩
    · next hpc =>
      split at h
      · exact absurd h (by simp)
      · next s1 w1 hs =>
        exact ih s1 s' w1 w' (fun h1 => step_to_returned_stage2 C s s1 _ w1 hs hpc h1) h

theorem exec_at_clear_flag_stage2 (C : Nat) (as : List EnvAction) (rest : List (List EnvAction))
    (s : Stage2Thread) (w : World) (hpc : s.pc = .loop_head)
    (hrun : (w.acts C as).running = false) :
    exec C (as :: rest) s w = .ok ({ s with pc := .returned }, w.acts C as) := by
  obtain ⟨router, pc, log⟩ := s
  simp only at hpc
  subst hpc
  cases rest <;> simp [exec, step, hrun]

end Stage2Router

namespace Processor

theorem step_to_returned_processor (C : Nat) (s s' : ProcessorThread) (w w' : World)
    (h : step C s w = .ok (s', w')) (hs : s.pc ≠ .returned) (hs' : s'.pc = .returned) :
    w'.running = false := by
  obtain ⟨processor, pc, log⟩ := s
  cases pc with
  | returned => exact absurd rfl hs
  | loop_head =>
    simp only [step] at h
    split at h <;> simp only [Except.ok.injEq, Prod.mk.injEq] at h
    · rw [← h.1] at hs'; exact absurd hs' (by simp)
    · next hrun => rw [← h.2]; simpa using hrun
  | poll =>
    simp only [step] at h
    split at h
    · exact absurd h (by simp)
    · split at h <;> simp only [Except.ok.injEq, Prod.mk.injEq] at h <;>
        rw [← h.1] at hs'
      · simp only at hs'
        split at hs' <;> exact absurd hs' (by simp)
      · exact absurd hs' (by simp)
  | wait_start msg ns =>
    simp only [step, Except.ok.injEq, Prod.mk.injEq] at h
    rw [← h.1] at hs'; exact absurd hs' (by simp)
  | waiting msg ns start =>
    simp only [step] at h
    split at h <;> simp only [Except.ok.injEq, Prod.mk.injEq] at h <;>
      rw [← h.1] at hs' <;> exact absurd hs' (by simp)
  | stamp_exit msg =>
    simp only [step, Except.ok.injEq, Prod.mk.injEq] at h
    rw [← h.1] at hs'; exact absurd hs' (by simp)
  | push_head msg =>
    simp only [step] at h
    split at h <;> simp only [Except.ok.injEq, Prod.mk.injEq] at h <;>
      rw [← h.1] at hs' <;> exact absurd hs' (by simp)
  | push msg =>
    simp only [step] at h
    split at h
    · exact absurd h (by simp)
    · split at h <;> simp only [Except.ok.injEq, Prod.mk.injEq] at h <;>
        rw [← h.1] at hs' <;> exact absurd hs' (by simp)

theorem exec_returned_processor (C : Nat) (schedule : List (List EnvAction)) :
    ∀ (s s' : ProcessorThread) (w w' : World),
      (s.pc = .returned → w.running = false) →
      exec C schedule s w = .ok (s', w') → s'.pc = .returned ∧ w'.running = false := by
  induction schedule with
  | nil =>
    intro s s' w w' hinv h
    simp only [exec] at h
    split at h
    · next hpc =>
      simp only [Except.ok.injEq, Prod.mk.injEq] at h
      rw [← h.1, ← h.2]
      exact ⟨hpc, hinv hpc⟩
    · exact absurd h (by simp)
  | cons as rest ih =>
    intro s s' w w' hinv h
    simp only [exec] at h
    split at h
    · next hpc =>
      simp only [Except.ok.injEq, Prod.mk.injEq] at h
      rw [← h.1, ← h.2]
      exact ⟨hpc, hinv hpc⟩
    · next hpc =>
      split at h
      · exact absurd h (by simp)
      · next s1 w1 hs =>
        exact ih s1 s' w1 w' (fun h1 => step_to_returned_processor C s s1 _ w1 hs hpc h1) h

theorem exec_at_clear_flag_processor (C : Nat) (as : List EnvAction) (rest : List (List EnvAction))
    (s : ProcessorThread) (w : World) (hpc : s.pc = .loop_head)
    (hrun : (w.acts C as).running = false) :
    exec C (as :: rest) s w = .ok ({ s with pc := .returned }, w.acts C as) := by
  obtain ⟨processor, pc, log⟩ := s
  simp only at hpc
  subst hpc
  cases rest <;> simp [exec, step, hrun]

end Processor

/-- How the loops end. (1-3) Whenever `Stage1Router::run`, `Processor::run` or
`Stage2Router::run` evaluates the condition of its outer `while` and the flag
reads false, it returns at once: nothing more is popped and every queue is left
as it stands, empty or not. (4-6) They return in no other way, so the flag reads
false when `run` returns. -/
theorem run_returns_at_clear_flag (C : Nat) :
    (∀ (as : List EnvAction) (rest : List (List EnvAction)) (s : Stage1Thread) (w : World),
      s.pc = .loop_head → (w.acts C as).running = false →
      Stage1Router.exec C (as :: rest) s w = .ok ({ s with pc := .returned }, w.acts C as)) ∧
    (∀ (as : List EnvAction) (rest : List (List EnvAction)) (s : ProcessorThread) (w : World),
      s.pc = .loop_head → (w.acts C as).running = false →
      Processor.exec C (as :: rest) s w = .ok ({ s with pc := .returned }, w.acts C as)) ∧
    (∀ (as : List EnvAction) (rest : List (List EnvAction)) (s : Stage2Thread) (w : World),
      s.pc = .loop_head → (w.acts C as).running = false →
      Stage2Router.exec C (as :: rest) s w = .ok ({ s with pc := .returned }, w.acts C as)) ∧
    (∀ (schedule : List (List EnvAction)) (r : Stage1Router) (w w' : World)
        (s' : Stage1Thread),
      Stage1Router.run C schedule r w = .ok (s', w') → w'.running = false) ∧
    (∀ (schedule : List (List EnvAction)) (p : Processor) (w w' : World)
        (s' : ProcessorThread),
      Processor.run C schedule p w = .ok (s', w') → w'.running = false) ∧
    (∀ (schedule : List (List EnvAction)) (r : Stage2Router) (w w' : World)
        (s' : Stage2Thread),
      Stage2Router.run C schedule r w = .ok (s', w') → w'.running = false) :=
  ⟨fun as rest s w => Stage1Router.exec_at_clear_flag C as rest s w,
   fun as rest s w => Processor.exec_at_clear_flag_processor C as rest s w,
   fun as rest s w => Stage2Router.exec_at_clear_flag_stage2 C as rest s w,
   fun schedule _ w w' s' h =>
     (Stage1Router.exec_returned C schedule _ s' w w' (fun hc => absurd hc (by simp)) h).2,
   fun schedule _ w w' s' h =>
     (Processor.exec_returned_processor C schedule _ s' w w' (fun hc => absurd hc (by simp)) h).2,
   fun schedule _ w w' s' h =>
     (Stage2Router.exec_returned_stage2 C schedule _ s' w w' (fun hc => absurd hc (by simp)) h).2⟩

theorem run_returns_at_clear_flag_witness :
    (Scenario.worldAB.acts 4 [.store_running false]).running = false ∧
    (Scenario.worldAB.acts 4 [.store_running false]).queues.map (SPSCQueue.size 4) = [2, 0] ∧
    Stage1Router.exec 4 [[.store_running false]]
        { router := Scenario.stage1, pc := .loop_head, log := [] } Scenario.worldAB
      = .ok ({ router := Scenario.stage1, pc := .returned, log := [] },
          Scenario.worldAB.acts 4 [.store_running false]) ∧
    Processor.exec 4 [[.store_running false]]
        { processor := Scenario.processor, pc := .loop_head, log := [] } Scenario.worldAB
      = .ok ({ processor := Scenario.processor, pc := .returned, log := [] },
          Scenario.worldAB.acts 4 [.store_running false]) ∧
    Stage2Router.exec 4 [[.store_running false]]
        { router := Scenario.stage2, pc := .loop_head, log := [] } Scenario.worldAB
      = .ok ({ router := Scenario.stage2, pc := .returned, log := [] },
          Scenario.worldAB.acts 4 [.store_running false]) :=
  ⟨rfl, by decide,
    (run_returns_at_clear_flag 4).1 [.store_running false] [] _ Scenario.worldAB rfl rfl,
    (run_returns_at_clear_flag 4).2.1 [.store_running false] [] _ Scenario.worldAB rfl rfl,
    (run_returns_at_clear_flag 4).2.2.1 [.store_running false] [] _ Scenario.worldAB rfl rfl⟩
/-! ## Occupancy and emptiness of the ring buffer -/

theorem int_sub_emod_cases (C h t : Nat) (hh : h < C) (ht : t < C) :
    ((t : Int) - (h : Int)) % (C : Int) =
      ((if t ≥ h then t - h else C - h + t : Nat) : Int) := by
  by_cases hge : t ≥ h
  · rw [if_pos hge]
    have h1 : ((t : Int) - (h : Int)) = ((t - h : Nat) : Int) := by omega
    rw [h1]
    exact Int.emod_eq_of_lt (by omega) (by omega)
  · rw [if_neg hge]
    have h1 : ((t : Int) - (h : Int)) = ((C - h + t : Nat) : Int) + (C : Int) * (-1) := by
      omega
    rw [h1, Int.add_mul_emod_self_left]
    exact Int.emod_eq_of_lt (by omega) (by omega)

/-- C20: for a capacity parameter `C = 2 ^ k` and indices `head, tail < C`,
`size()` is `(tail - head) mod C` (the difference taken in the integers),
`empty()` is true exactly when `head == tail`, and that is exactly when
`size()` is zero. -/
theorem SPSCQueue.size_eq_sub_mod {T : Type} (k : Nat) (hk : k < 64) (q : SPSCQueue T)
    (hh : q.head_ < 2 ^ k) (ht : q.tail_ < 2 ^ k) :
    ((SPSCQueue.size (2 ^ k) q : Nat) : Int) =
      ((q.tail_ : Int) - (q.head_ : Int)) % ((2 ^ k : Nat) : Int) ∧
    (q.empty = true ↔ q.head_ = q.tail_) ∧
    (q.head_ = q.tail_ ↔ SPSCQueue.size (2 ^ k) q = 0) := by
  have hsize := SPSCQueue.size_of_inRange k hk q ⟨hh, ht⟩
  refine ⟨?_, ?_, ?_⟩
  · rw [hsize, int_sub_emod_cases (2 ^ k) q.head_ q.tail_ hh ht]
  · simp [SPSCQueue.empty]
  · rw [hsize]
    constructor
    · intro h
      rw [h, if_pos (Nat.le_refl _), Nat.sub_self]
    · intro h
      split at h <;> omega

theorem SPSCQueue.size_eq_sub_mod_witness :
    (2 < 64 ∧ (SPSCQueue.mk 3 1 [7, 7, 7, 7]).head_ < 2 ^ 2 ∧
      (SPSCQueue.mk 3 1 [7, 7, 7, 7]).tail_ < 2 ^ 2) ∧
    SPSCQueue.size (2 ^ 2) (SPSCQueue.mk 3 1 [7, 7, 7, 7]) = 2 ∧
    ((1 : Int) - 3) % 4 = 2 ∧
    (SPSCQueue.mk 3 1 [7, 7, 7, 7]).empty = false ∧
    ((SPSCQueue.size (2 ^ 2) (SPSCQueue.mk 3 1 [7, 7, 7, 7]) : Nat) : Int) =
      (((SPSCQueue.mk 3 1 [7, 7, 7, 7]).tail_ : Int) -
        ((SPSCQueue.mk 3 1 [7, 7, 7, 7]).head_ : Int)) % ((2 ^ 2 : Nat) : Int) :=
  ⟨⟨by decide, by decide, by decide⟩, by decide, by decide, by decide,
    (SPSCQueue.size_eq_sub_mod 2 (by decide) (SPSCQueue.mk 3 1 [7, 7, 7, 7])
      (by decide) (by decide)).1⟩

/-! ## Derived latencies -/

theorem uint64_sub_of_le (a b : Nat) (ha : a < SIZE_T_MOD) (hb : b ≤ a) :
    uint64_sub a b = a - b := by
  unfold uint64_sub
  have h1 : a + SIZE_T_MOD - b = (a - b) + SIZE_T_MOD := by omega
  rw [h1, Nat.add_mod_right, Nat.mod_eq_of_lt (by omega)]

theorem exact_interval_nonneg (a b : Nat) :
    (0 : ℚ) ≤ (if a > b then
      DoubleOps.exact.div (DoubleOps.exact.ofNat (a - b)) (DoubleOps.exact.lit 1000)
      else DoubleOps.exact.lit 0) := by
  split
  · show (0 : ℚ) ≤ ((a - b : Nat) : ℚ) / 1000
    positivity
  · exact le_refl _

theorem Message.stage1_latency_us_eq {D : Type} (ops : DoubleOps D) (m : Message)
    (h1 : m.stage1_exit_ns < SIZE_T_MOD) :
    m.stage1_latency_us ops =
      if m.stage1_exit_ns > m.stage1_entry_ns then
        ops.div (ops.ofNat (m.stage1_exit_ns - m.stage1_entry_ns)) (ops.lit 1000)
      else ops.lit 0 := by
  unfold Message.stage1_latency_us
  split
  · next h => rw [uint64_sub_of_le _ _ h1 (Nat.le_of_lt h)]
  · rfl

theorem Message.processing_latency_us_eq {D : Type} (ops : DoubleOps D) (m : Message)
    (hp : m.processing_exit_ns < SIZE_T_MOD) :
    m.processing_latency_us ops =
      if m.processing_exit_ns > m.processing_entry_ns then
        ops.div (ops.ofNat (m.processing_exit_ns - m.processing_entry_ns)) (ops.lit 1000)
      else ops.lit 0 := by
  unfold Message.processing_latency_us
  split
  · next h => rw [uint64_sub_of_le _ _ hp (Nat.le_of_lt h)]
  · rfl

theorem Message.stage2_latency_us_eq {D : Type} (ops : DoubleOps D) (m : Message)
    (h2 : m.stage2_exit_ns < SIZE_T_MOD) :
    m.stage2_latency_us ops =
      if m.stage2_exit_ns > m.stage2_entry_ns then
        ops.div (ops.ofNat (m.stage2_exit_ns - m.stage2_entry_ns)) (ops.lit 1000)
      else ops.lit 0 := by
  unfold Message.stage2_latency_us
  split
  · next h => rw [uint64_sub_of_le _ _ h2 (Nat.le_of_lt h)]
  · rfl

theorem Message.end_to_end_latency_us_eq {D : Type} (ops : DoubleOps D) (m : Message)
    (h2 : m.stage2_exit_ns < SIZE_T_MOD) :
    m.end_to_end_latency_us ops =
      if m.stage2_exit_ns > m.timestamp_ns then
        ops.div (ops.ofNat (m.stage2_exit_ns - m.timestamp_ns)) (ops.lit 1000)
      else ops.lit 0 := by
  unfold Message.end_to_end_latency_us
  split
  · next h => rw [uint64_sub_of_le _ _ h2 (Nat.le_of_lt h)]
  · rfl

/-- C17: for a message whose exit stamps are `uint64_t` values, each derived
latency is `double(exit - entry) / 1000.0` with `exit - entry` the true
(positive, not wrapped) difference when `exit > entry`, and is `0.0` when
`exit <= entry`; the pairs are those of the four functions. Computed exactly,
none of the four is negative. -/
theorem Message.latencies_clamped {D : Type} (ops : DoubleOps D) (m : Message)
    (h1 : m.stage1_exit_ns < SIZE_T_MOD) (hp : m.processing_exit_ns < SIZE_T_MOD)
    (h2 : m.stage2_exit_ns < SIZE_T_MOD) :
    (m.stage1_latency_us ops =
      if m.stage1_exit_ns > m.stage1_entry_ns then
        ops.div (ops.ofNat (m.stage1_exit_ns - m.stage1_entry_ns)) (ops.lit 1000)
      else ops.lit 0) ∧
    (m.processing_latency_us ops =
      if m.processing_exit_ns > m.processing_entry_ns then
        ops.div (ops.ofNat (m.processing_exit_ns - m.processing_entry_ns)) (ops.lit 1000)
      else ops.lit 0) ∧
    (m.stage2_latency_us ops =
      if m.stage2_exit_ns > m.stage2_entry_ns then
        ops.div (ops.ofNat (m.stage2_exit_ns - m.stage2_entry_ns)) (ops.lit 1000)
      else ops.lit 0) ∧
    (m.end_to_end_latency_us ops =
      if m.stage2_exit_ns > m.timestamp_ns then
        ops.div (ops.ofNat (m.stage2_exit_ns - m.timestamp_ns)) (ops.lit 1000)
      else ops.lit 0) ∧
    (0 : ℚ) ≤ m.stage1_latency_us DoubleOps.exact ∧
    (0 : ℚ) ≤ m.processing_latency_us DoubleOps.exact ∧
    (0 : ℚ) ≤ m.stage2_latency_us DoubleOps.exact ∧
    (0 : ℚ) ≤ m.end_to_end_latency_us DoubleOps.exact := by
  refine ⟨Message.stage1_latency_us_eq ops m h1, Message.processing_latency_us_eq ops m hp,
    Message.stage2_latency_us_eq ops m h2, Message.end_to_end_latency_us_eq ops m h2,
    ?_, ?_, ?_, ?_⟩
  · rw [Message.stage1_latency_us_eq _ m h1]; exact exact_interval_nonneg _ _
  · rw [Message.processing_latency_us_eq _ m hp]; exact exact_interval_nonneg _ _
  · rw [Message.stage2_latency_us_eq _ m h2]; exact exact_interval_nonneg _ _
  · rw [Message.end_to_end_latency_us_eq _ m h2]; exact exact_interval_nonneg _ _

theorem Message.latencies_clamped_witness :
    (Scenario.stamped.stage1_exit_ns < SIZE_T_MOD ∧
      Scenario.stamped.processing_exit_ns < SIZE_T_MOD ∧
      Scenario.stamped.stage2_exit_ns < SIZE_T_MOD) ∧
    Scenario.stamped.stage1_latency_us DoubleOps.exact = 0 ∧
    Scenario.stamped.processing_latency_us DoubleOps.exact = 0 ∧
    Scenario.stamped.stage2_latency_us DoubleOps.exact = 5 / 2 ∧
    Scenario.stamped.end_to_end_latency_us DoubleOps.exact = 13 / 2 ∧
    (0 : ℚ) ≤ Scenario.stamped.stage1_latency_us DoubleOps.exact :=
  ⟨⟨by decide, by decide, by decide⟩, by decide, by decide,
    by norm_num [Message.stage2_latency_us, DoubleOps.exact, uint64_sub, Scenario.stamped,
      Message.new, SIZE_T_MOD],
    by norm_num [Message.end_to_end_latency_us, DoubleOps.exact, uint64_sub, Scenario.stamped,
      Message.new, SIZE_T_MOD],
    (Message.latencies_clamped DoubleOps.exact Scenario.stamped
      (by decide) (by decide) (by decide)).2.2.2.2.1⟩

/-! ## `OrderTracker` -/

namespace OrderTracker

/-- C12: `track(msg)` adds one to `order_violations` (in `uint64_t`, so the
new value is the old one plus 1 unless the counter is at its maximum) when a
sequence number is recorded for `msg.msg_type` and `msg.sequence_number` is not
greater than it, and leaves it unchanged otherwise, in particular when nothing
is recorded for the type; in every case the entry of `msg.msg_type` becomes
`msg.sequence_number`, the entries of the other types are unchanged and
`messages_received` goes up by one. -/
theorem track_spec (t : OrderTracker) (msg : Message) :
    (∀ prev, UnorderedMap.find t.last_sequence msg.msg_type = some prev →
      msg.sequence_number ≤ prev →
      (t.track msg).order_violations = (t.order_violations + 1) % SIZE_T_MOD ∧
      (t.order_violations + 1 < SIZE_T_MOD →
        (t.track msg).order_violations = t.order_violations + 1)) ∧
    (∀ prev, UnorderedMap.find t.last_sequence msg.msg_type = some prev →
      prev < msg.sequence_number →
      (t.track msg).order_violations = t.order_violations) ∧
    (UnorderedMap.find t.last_sequence msg.msg_type = none →
      (t.track msg).order_violations = t.order_violations) ∧
    UnorderedMap.find (t.track msg).last_sequence msg.msg_type = some msg.sequence_number ∧
    (∀ ty, ty ≠ msg.msg_type →
      UnorderedMap.find (t.track msg).last_sequence ty = UnorderedMap.find t.last_sequence ty) ∧
    (t.track msg).messages_received = (t.messages_received + 1) % SIZE_T_MOD ∧
    (t.messages_received + 1 < SIZE_T_MOD →
      (t.track msg).messages_received = t.messages_received + 1) := by
  refine ⟨?_, ?_, ?_, ?_, ?_, rfl, fun h => Nat.mod_eq_of_lt h⟩
  · intro prev hfind hle
    have h : (t.track msg).order_violations = (t.order_violations + 1) % SIZE_T_MOD := by
      simp only [track, hfind, hle, if_true]
    exact ⟨h, fun hlt => by rw [h, Nat.mod_eq_of_lt hlt]⟩
  · intro prev hfind hlt
    simp only [track, hfind, if_neg (Nat.not_le.mpr hlt)]
  · intro hfind
    simp only [track, hfind]
  · simp only [track, UnorderedMap.find_assign, if_true]
  · intro ty hne
    simp only [track, UnorderedMap.find_assign, if_neg (Ne.symm hne)]

theorem track_spec_witness :
    UnorderedMap.find (OrderTracker.mk [(3, 7), (4, 2)] 10 1).last_sequence
      Scenario.msgA.msg_type = some 7 ∧
    Scenario.msgA.sequence_number ≤ 7 ∧
    (OrderTracker.mk [(3, 7), (4, 2)] 10 1).track Scenario.msgA
      = OrderTracker.mk [(3, 1), (4, 2)] 11 2 ∧
    ((OrderTracker.mk [(3, 7), (4, 2)] 10 1).track Scenario.msgA).order_violations
      = (1 + 1) % SIZE_T_MOD :=
  ⟨by decide, by decide, by decide,
    ((track_spec (OrderTracker.mk [(3, 7), (4, 2)] 10 1) Scenario.msgA).1 7
      (by decide) (by decide)).1⟩

end OrderTracker

/-! ## Violations counted by the tracker and by the specification -/

namespace Delivery

theorem preceding_append (history : List Message) (m : Message) (ty : Nat) :
    preceding (history ++ [m]) ty =
      if m.msg_type = ty then some m.sequence_number else preceding history ty := by
  unfold preceding
  by_cases h : m.msg_type = ty
  · simp [List.filter_append, List.filter, h]
  · simp [List.filter_append, List.filter, h]

theorem sequence_of_cons (m : Message) (rest : List Message) (ty : Nat) :
    sequence_of (m :: rest) ty =
      if m.msg_type = ty then m.sequence_number :: sequence_of rest ty
      else sequence_of rest ty := by
  unfold sequence_of
  by_cases h : m.msg_type = ty
  · simp [List.filter, h]
  · simp [List.filter, h]

theorem violations_after_le (msgs : List Message) :
    ∀ history, violations_after history msgs ≤ msgs.length := by
  induction msgs with
  | nil => intro history; exact Nat.le_refl _
  | cons m rest ih =>
    intro history
    have := ih (history ++ [m])
    simp only [violations_after, List.length_cons]
    split <;> omega

theorem violation_count_lt (msgs : List Message) (hne : msgs ≠ []) :
    violation_count msgs < msgs.length := by
  cases msgs with
  | nil => exact absurd rfl hne
  | cons m rest =>
    have := violations_after_le rest ([] ++ [m])
    simp only [violation_count, violations_after, out_of_order, preceding, List.filter_nil,
      List.getLast?_nil, Option.map_none', List.length_cons]
    simp only [Bool.false_eq_true, if_false]
    omega

theorem violations_after_eq_zero (msgs : List Message) :
    ∀ history, violations_after history msgs = 0 ↔
      ∀ ty, IncreasingAfter (preceding history ty) (sequence_of msgs ty) := by
  induction msgs with
  | nil =>
    intro history
    simp only [violations_after, true_iff]
    intro ty
    unfold IncreasingAfter sequence_of
    cases preceding history ty <;> simp
  | cons m rest ih =>
    intro history
    simp only [violations_after, Nat.add_eq_zero, ih (history ++ [m])]
    constructor
    · rintro ⟨h0, hrest⟩ ty
      have hr := hrest ty
      rw [preceding_append] at hr
      rw [sequence_of_cons]
      by_cases hty : m.msg_type = ty
      · simp only [hty, if_true] at hr ⊢
        unfold IncreasingAfter at hr ⊢
        simp only at hr
        unfold out_of_order at h0
        rw [hty] at h0
        cases hp : preceding history ty with
        | none => simpa [List.Chain'] using hr
        | some prev =>
          rw [hp] at h0
          simp only [List.chain_cons]
          refine ⟨?_, hr⟩
          by_contra hlt
          simp [Nat.not_lt.mp hlt] at h0
      · simp only [hty, if_false] at hr ⊢
        exact hr
    · intro h
      constructor
      · have hm := h m.msg_type
        rw [sequence_of_cons, if_pos rfl] at hm
        unfold out_of_order
        cases hp : preceding history m.msg_type with
        | none => simp
        | some prev =>
          rw [hp] at hm
          unfold IncreasingAfter at hm
          simp only [List.chain_cons] at hm
          simp [Nat.not_le.mpr hm.1]
      · intro ty
        have hm := h ty
        rw [sequence_of_cons] at hm
        rw [preceding_append]
        by_cases hty : m.msg_type = ty
        · simp only [hty, if_true] at hm ⊢
          unfold IncreasingAfter at hm ⊢
          cases hp : preceding history ty with
          | none =>
            rw [hp] at hm
            simpa [List.Chain'] using hm
          | some prev =>
            rw [hp] at hm
            simp only [List.chain_cons] at hm
            exact hm.2
        · simp only [hty, if_false] at hm ⊢
          exact hm

theorem violation_count_eq_zero (msgs : List Message) :
    violation_count msgs = 0 ↔ ∀ ty, List.Sorted (· < ·) (sequence_of msgs ty) := by
  unfold violation_count
  rw [violations_after_eq_zero]
  constructor
  · intro h ty
    have := h ty
    simp only [preceding, List.filter_nil, List.getLast?_nil, Option.map_none',
      IncreasingAfter] at this
    exact List.chain'_iff_pairwise.mp this
  · intro h ty
    simp only [preceding, List.filter_nil, List.getLast?_nil, Option.map_none',
      IncreasingAfter]
    exact List.chain'_iff_pairwise.mpr (h ty)

end Delivery
namespace OrderTracker

theorem size_t_mod_pos : 0 < SIZE_T_MOD := by
  unfold SIZE_T_MOD; exact Nat.pos_pow_of_pos 64 (by decide)

theorem track_step (t : OrderTracker) (history : List Message) (m : Message)
    (hmap : ∀ ty, UnorderedMap.find t.last_sequence ty = Delivery.preceding history ty) :
    (∀ ty, UnorderedMap.find (t.track m).last_sequence ty =
      Delivery.preceding (history ++ [m]) ty) ∧
    (t.track m).order_violations % SIZE_T_MOD =
      (t.order_violations + (if Delivery.out_of_order history m then 1 else 0))
        % SIZE_T_MOD := by
  constructor
  · intro ty
    simp only [track, UnorderedMap.find_assign, Delivery.preceding_append, hmap ty]
  · have key : ∀ o : Option Nat,
        (match o with
          | some last =>
            if m.sequence_number ≤ last then (t.order_violations + 1) % SIZE_T_MOD
            else t.order_violations
          | none => t.order_violations) % SIZE_T_MOD =
        (t.order_violations +
          (if (match o with
                | some prev => decide (m.sequence_number ≤ prev)
                | none => false) = true then 1 else 0)) % SIZE_T_MOD := by
      intro o
      cases o with
      | none => simp
      | some prev =>
        by_cases hle : m.sequence_number ≤ prev
        · simp [hle]
        · simp [hle]
    simp only [track, Delivery.out_of_order, hmap m.msg_type]
    exact key _

theorem track_all_count (msgs : List Message) :
    ∀ (t : OrderTracker) (history : List Message),
      (∀ ty, UnorderedMap.find t.last_sequence ty = Delivery.preceding history ty) →
      (track_all t msgs).order_violations % SIZE_T_MOD =
        (t.order_violations + Delivery.violations_after history msgs) % SIZE_T_MOD := by
  induction msgs with
  | nil => intro t history _; rfl
  | cons m rest ih =>
    intro t history hmap
    obtain ⟨hmap', hv⟩ := track_step t history m hmap
    have := ih (t.track m) (history ++ [m]) hmap'
    simp only [track_all, List.foldl_cons] at this ⊢
    rw [this, Delivery.violations_after, Nat.add_mod, hv, ← Nat.add_mod, Nat.add_assoc]

theorem track_lt (t : OrderTracker) (m : Message) (h : t.order_violations < SIZE_T_MOD) :
    (t.track m).order_violations < SIZE_T_MOD := by
  simp only [track]
  split
  · split
    · exact Nat.mod_lt _ size_t_mod_pos
    · exact h
  · exact h

theorem track_all_lt (msgs : List Message) :
    ∀ t : OrderTracker, t.order_violations < SIZE_T_MOD →
      (track_all t msgs).order_violations < SIZE_T_MOD := by
  induction msgs with
  | nil => intro t h; exact h
  | cons m rest ih => intro t h; exact ih (t.track m) (track_lt t m h)

theorem track_all_new (msgs : List Message) :
    (track_all new msgs).order_violations = Delivery.violation_count msgs % SIZE_T_MOD := by
  have h := track_all_count msgs new [] (fun ty => rfl)
  rw [Nat.mod_eq_of_lt (track_all_lt msgs new size_t_mod_pos)] at h
  rw [h]
  simp only [new, Nat.zero_add, Delivery.violation_count]

end OrderTracker

namespace Delivery

theorem violations_after_replicate (m : Message) (n : Nat) :
    ∀ history, preceding history m.msg_type = some m.sequence_number →
      violations_after history (List.replicate n m) = n := by
  induction n with
  | zero => intro history _; rfl
  | succ n ih =>
    intro history hp
    rw [List.replicate_succ, violations_after, out_of_order, hp]
    simp only [Nat.le_refl, decide_True, if_true]
    rw [ih (history ++ [m]) (by rw [preceding_append, if_pos rfl])]
    omega

theorem violation_count_replicate (m : Message) (n : Nat) :
    violation_count (List.replicate (n + 1) m) = n := by
  rw [violation_count, List.replicate_succ, violations_after]
  rw [violations_after_replicate m n ([] ++ [m]) (by rw [preceding_append, if_pos rfl])]
  simp [out_of_order, preceding]

end Delivery

namespace OrderTracker

/-- C13 (amended): fed to a fresh tracker, any finite sequence of messages
leaves in `order_violations` the number of positions at which the sequence
number is not greater than that of the preceding message of the same type,
reduced modulo `2^64`; for a sequence of at most `2^64` messages it is that
number itself, and `is_ordered()` is true exactly when, for each type, the
sequence numbers seen are strictly increasing. -/
theorem order_violations_count (msgs : List Message) :
    (track_all new msgs).order_violations = Delivery.violation_count msgs % SIZE_T_MOD ∧
    (msgs.length ≤ SIZE_T_MOD →
      (track_all new msgs).order_violations = Delivery.violation_count msgs ∧
      ((track_all new msgs).is_ordered = true ↔
        ∀ ty, List.Sorted (· < ·) (Delivery.sequence_of msgs ty))) := by
  refine ⟨track_all_new msgs, fun hlen => ?_⟩
  have hlt : Delivery.violation_count msgs < SIZE_T_MOD := by
    by_cases hne : msgs = []
    · subst hne; exact size_t_mod_pos
    · exact Nat.lt_of_lt_of_le (Delivery.violation_count_lt msgs hne) hlen
  have heq : (track_all new msgs).order_violations = Delivery.violation_count msgs := by
    rw [track_all_new, Nat.mod_eq_of_lt hlt]
  refine ⟨heq, ?_⟩
  rw [← Delivery.violation_count_eq_zero, ← heq]
  simp [is_ordered]

theorem order_violations_count_witness :
    track_all new [Scenario.msgA, Scenario.msgB, Scenario.stamped, Scenario.msgA,
        Scenario.msgA]
      = OrderTracker.mk [(3, 1), (0, 0)] 5 2 ∧
    Delivery.violation_count [Scenario.msgA, Scenario.msgB, Scenario.stamped, Scenario.msgA,
        Scenario.msgA] = 2 ∧
    Delivery.sequence_of [Scenario.msgA, Scenario.msgB, Scenario.stamped, Scenario.msgA,
        Scenario.msgA] 3 = [1, 2, 1, 1] ∧
    (track_all new [Scenario.msgA, Scenario.msgB, Scenario.stamped, Scenario.msgA,
        Scenario.msgA]).order_violations
      = Delivery.violation_count [Scenario.msgA, Scenario.msgB, Scenario.stamped,
          Scenario.msgA, Scenario.msgA] % SIZE_T_MOD :=
  ⟨by decide, by decide, by decide,
    (order_violations_count [Scenario.msgA, Scenario.msgB, Scenario.stamped, Scenario.msgA,
        Scenario.msgA]).1⟩

/-- C13 (as stated, refuted): feed `2^64 + 1` copies of one message to a fresh
tracker. Every copy but the first is out of order, `2^64` positions in all, yet
the counter, a `uint64_t`, is back at zero: `order_violations` is not the
number of such positions, and `is_ordered()` is true although the sequence
numbers seen are not strictly increasing. -/
theorem order_violations_wrap :
    Delivery.violation_count (List.replicate (2 ^ 64 + 1) Message.new) = 2 ^ 64 ∧
    (track_all new (List.replicate (2 ^ 64 + 1) Message.new)).order_violations = 0 ∧
    (track_all new (List.replicate (2 ^ 64 + 1) Message.new)).is_ordered = true ∧
    ¬ ∀ ty, List.Sorted (· < ·)
      (Delivery.sequence_of (List.replicate (2 ^ 64 + 1) Message.new) ty) := by
  have hcount := Delivery.violation_count_replicate Message.new (2 ^ 64)
  have hzero : (track_all new (List.replicate (2 ^ 64 + 1) Message.new)).order_violations
      = 0 := by
    rw [track_all_new, hcount]
    decide
  refine ⟨hcount, hzero, ?_, ?_⟩
  · simp only [is_ordered, hzero, decide_True]
  · rw [← Delivery.violation_count_eq_zero, hcount]
    decide

end OrderTracker

/-! ## `SystemStatistics::validate` and the exit status -/

/-- C14: `validate()` returns true if and only if `messages_produced ==
messages_delivered` and every producer's tracker has `order_violations == 0`;
the exit status `main` computes after a run is 0 exactly when `validate()` is
true, and 1 otherwise. -/
theorem SystemStatistics.validate_iff {D : Type} (s : SystemStatistics D) :
    (s.validate = true ↔
      s.messages_produced = s.messages_delivered ∧
      ∀ tracker ∈ s.producer_order_trackers, tracker.order_violations = 0) ∧
    (main_exit_status s = 0 ↔ s.validate = true) ∧
    (main_exit_status s = 1 ↔ s.validate = false) := by
  refine ⟨?_, ?_, ?_⟩
  · unfold SystemStatistics.validate
    by_cases h : s.messages_produced = s.messages_delivered
    · simp [h, OrderTracker.is_ordered]
    · simp [h]
  · unfold main_exit_status
    cases s.validate <;> simp
  · unfold main_exit_status
    cases s.validate <;> simp

theorem SystemStatistics.validate_iff_witness :
    Scenario.statsClean.validate = true ∧ main_exit_status Scenario.statsClean = 0 ∧
    Scenario.statsViolation.validate = false ∧ main_exit_status Scenario.statsViolation = 1 ∧
    ({ Scenario.statsClean with messages_delivered := 4 } : SystemStatistics ℚ).validate
      = false ∧
    (main_exit_status Scenario.statsViolation = 1 ↔ Scenario.statsViolation.validate = false) :=
  ⟨by decide, by decide, by decide, by decide, by decide,
    (SystemStatistics.validate_iff Scenario.statsViolation).2.2⟩

/-! ## `SystemConfig::validate` -/

theorem SystemConfig.stage1_rule_error_eq_none {D : Type} (n : Nat) (rule : Stage1Rule) :
    (SystemConfig.stage1_rule_error n rule : Option (Diagnostic D)) = none ↔
      rule.processors ≠ [] ∧ ∀ proc_id ∈ rule.processors, proc_id < n := by
  unfold SystemConfig.stage1_rule_error
  by_cases hemp : rule.processors = []
  · simp [hemp]
  · have h1 : rule.processors.isEmpty = false := by
      cases hp : rule.processors with
      | nil => exact absurd hp hemp
      | cons a l => rfl
    rw [h1]
    cases hf : rule.processors.find? (fun proc_id => decide (proc_id ≥ n)) with
    | none =>
      rw [List.find?_eq_none] at hf
      simp only [Bool.false_eq_true, if_false, true_iff]
      refine ⟨hemp, fun p hp => ?_⟩
      have := hf p hp
      simpa using this
    | some p =>
      simp only [Bool.false_eq_true, if_false, false_iff, reduceCtorEq]
      rintro ⟨-, hall⟩
      have hmem := List.mem_of_find?_eq_some hf
      have hprop := List.find?_some hf
      have := hall p hmem
      simp at hprop
      omega

theorem SystemConfig.stage1_rules_error_eq_none {D : Type} (n : Nat) (rules : List Stage1Rule) :
    (SystemConfig.stage1_rules_error n rules : Option (Diagnostic D)) = none ↔
      ∀ rule ∈ rules, rule.processors ≠ [] ∧ ∀ proc_id ∈ rule.processors, proc_id < n := by
  unfold SystemConfig.stage1_rules_error
  rw [List.findSome?_eq_none_iff]
  constructor
  · intro h rule hr
    exact (SystemConfig.stage1_rule_error_eq_none n rule).1 (h rule hr)
  · intro h rule hr
    exact (SystemConfig.stage1_rule_error_eq_none n rule).2 (h rule hr)

theorem SystemConfig.isEmpty_eq_false_iff {α : Type} (l : List α) :
    l.isEmpty = false ↔ l ≠ [] := by
  cases l <;> simp

/-- C15: `SystemConfig::validate()` returns true if and only if `duration_secs
> 0`, each of `producers.count`, `processors.count` and `strategies.count` lies
in [1,16], `stage1_rules` is non-empty and every Stage1 rule has a non-empty
processor list whose ids are all `< processors.count`, and `stage2_rules` is
non-empty and every Stage2 rule has `strategy < strategies.count`. -/
theorem SystemConfig.validate_accepts_iff {D : Type} (ops : DoubleOps D) (cfg : SystemConfig D) :
    (cfg.validate ops).2 = true ↔
      0 < cfg.duration_secs ∧
      (1 ≤ cfg.producers.count ∧ cfg.producers.count ≤ 16) ∧
      (1 ≤ cfg.processors.count ∧ cfg.processors.count ≤ 16) ∧
      (1 ≤ cfg.strategies.count ∧ cfg.strategies.count ≤ 16) ∧
      cfg.stage1_rules ≠ [] ∧
      (∀ rule ∈ cfg.stage1_rules,
        rule.processors ≠ [] ∧ ∀ proc_id ∈ rule.processors, proc_id < cfg.processors.count) ∧
      cfg.stage2_rules ≠ [] ∧
      (∀ rule ∈ cfg.stage2_rules, rule.strategy < cfg.strategies.count) := by
  unfold SystemConfig.validate
  by_cases h1 : cfg.duration_secs = 0
  · simp [h1]
  rw [if_neg h1]
  by_cases h2 : cfg.producers.count = 0 ∨ cfg.producers.count > 16
  · rw [if_pos h2]
    simp only [Bool.false_eq_true, false_iff]
    rintro ⟨-, h, -⟩
    omega
  rw [if_neg h2]
  dsimp only
  by_cases h3 : cfg.processors.count = 0 ∨ cfg.processors.count > 16
  · rw [if_pos h3]
    simp only [Bool.false_eq_true, false_iff]
    rintro ⟨-, -, h, -⟩
    omega
  rw [if_neg h3]
  by_cases h4 : cfg.strategies.count = 0 ∨ cfg.strategies.count > 16
  · rw [if_pos h4]
    simp only [Bool.false_eq_true, false_iff]
    rintro ⟨-, -, -, h, -⟩
    omega
  rw [if_neg h4]
  by_cases h5 : cfg.stage1_rules.isEmpty = true
  · rw [if_pos h5]
    simp only [Bool.false_eq_true, false_iff]
    rintro ⟨-, -, -, -, h, -⟩
    rw [List.isEmpty_iff] at h5
    exact h h5
  rw [if_neg h5]
  have h5a : cfg.stage1_rules ≠ [] := fun h => h5 (by rw [h]; rfl)
  cases h6 : (SystemConfig.stage1_rules_error cfg.processors.count cfg.stage1_rules :
      Option (Diagnostic D)) with
  | some error =>
    simp only [Bool.false_eq_true, false_iff]
    rintro ⟨-, -, -, -, -, h, -⟩
    have := (SystemConfig.stage1_rules_error_eq_none (D := D) _ _).2 h
    rw [h6] at this
    cases this
  | none =>
    have h6a := (SystemConfig.stage1_rules_error_eq_none (D := D) _ _).1 h6
    dsimp only
    by_cases h7 : cfg.stage2_rules.isEmpty = true
    · rw [if_pos h7]
      simp only [Bool.false_eq_true, false_iff]
      rintro ⟨-, -, -, -, -, -, h, -⟩
      rw [List.isEmpty_iff] at h7
      exact h h7
    rw [if_neg h7]
    have h7a : cfg.stage2_rules ≠ [] := fun h => h7 (by rw [h]; rfl)
    cases h8 : cfg.stage2_rules.find?
        (fun rule => decide (rule.strategy ≥ cfg.strategies.count)) with
    | some rule =>
      simp only [Bool.false_eq_true, false_iff]
      rintro ⟨-, -, -, -, -, -, -, h⟩
      have hmem := List.mem_of_find?_eq_some h8
      have hprop := List.find?_some h8
      have := h rule hmem
      simp at hprop
      omega
    | none =>
      rw [List.find?_eq_none] at h8
      simp only [true_iff]
      refine ⟨by omega, by omega, by omega, by omega, h5a, h6a, h7a, fun rule hr => ?_⟩
      have := h8 rule hr
      simpa using this

/-- The configuration `Scenario.config` is accepted without any diagnostic; with
a Stage1 rule naming processor 2 of 2 it is rejected with that diagnostic. -/
theorem SystemConfig.validate_examples :
    Scenario.config.validate DoubleOps.exact = ([], true) ∧
    Scenario.configBadRule.validate DoubleOps.exact =
      ([Diagnostic.stage1_rule_unknown_processor 2], false) := by
  constructor
  · norm_num [SystemConfig.validate, Scenario.config, DoubleOps.exact,
      SystemConfig.distribution_sum, SystemConfig.stage1_rules_error,
      SystemConfig.stage1_rule_error]
  · norm_num [SystemConfig.validate, Scenario.config, Scenario.configBadRule, DoubleOps.exact,
      SystemConfig.distribution_sum, SystemConfig.stage1_rules_error,
      SystemConfig.stage1_rule_error]

/-! ## `LatencyStats`: percentiles -/

theorem LatencyStats.le_rfl_of_ok {D : Type} {ops : DoubleOps D} {ok : D → Prop}
    (laws : ops.Ordered ok) {a : D} (ha : ok a) : LatencyStats.le ops a a := by
  unfold LatencyStats.le
  cases h : ops.lt a a with
  | false => rfl
  | true => exact absurd (laws.asymm a a ha ha h) (by rw [h]; simp)

theorem LatencyStats.le_total_of_ok {D : Type} {ops : DoubleOps D} {ok : D → Prop}
    (laws : ops.Ordered ok) {a b : D} (ha : ok a) (hb : ok b)
    (h : ¬ LatencyStats.le ops a b) : LatencyStats.le ops b a := by
  unfold LatencyStats.le at *
  cases h1 : ops.lt b a with
  | false => exact absurd h1 h
  | true => exact laws.asymm b a hb ha h1

theorem LatencyStats.le_trans_of_ok {D : Type} {ops : DoubleOps D} {ok : D → Prop}
    (laws : ops.Ordered ok) {a b c : D} (ha : ok a) (hb : ok b) (hc : ok c)
    (h1 : LatencyStats.le ops a b) (h2 : LatencyStats.le ops b c) : LatencyStats.le ops a c :=
  laws.trans a b c ha hb hc h1 h2

theorem LatencyStats.sorted_orderedInsert {D : Type} {ops : DoubleOps D} {ok : D → Prop}
    (laws : ops.Ordered ok) (a : D) (ha : ok a) :
    ∀ l : List D, (∀ x ∈ l, ok x) → List.Sorted (LatencyStats.le ops) l →
      List.Sorted (LatencyStats.le ops) (List.orderedInsert (LatencyStats.le ops) a l) := by
  intro l
  induction l with
  | nil => intro _ _; simp
  | cons b l ih =>
    intro hok hs
    have hb : ok b := hok b (List.mem_cons_self _ _)
    have hl : ∀ x ∈ l, ok x := fun x hx => hok x (List.mem_cons_of_mem _ hx)
    rw [List.orderedInsert]
    rw [List.sorted_cons] at hs
    by_cases hab : LatencyStats.le ops a b
    · rw [if_pos hab]
      rw [List.sorted_cons]
      refine ⟨?_, List.sorted_cons.2 hs⟩
      intro x hx
      rcases List.mem_cons.1 hx with rfl | hx
      · exact hab
      · exact LatencyStats.le_trans_of_ok laws ha hb (hl x hx) hab (hs.1 x hx)
    · rw [if_neg hab]
      rw [List.sorted_cons]
      refine ⟨?_, ih hl hs.2⟩
      intro x hx
      rcases (List.mem_orderedInsert (r := LatencyStats.le ops)).1 hx with rfl | hx
      · exact LatencyStats.le_total_of_ok laws ha hb hab
      · exact hs.1 x hx

theorem LatencyStats.sorted_sort {D : Type} {ops : DoubleOps D} {ok : D → Prop}
    (laws : ops.Ordered ok) :
    ∀ l : List D, (∀ x ∈ l, ok x) →
      List.Sorted (LatencyStats.le ops) (LatencyStats.sort ops l) := by
  intro l
  induction l with
  | nil => intro _; simp [LatencyStats.sort]
  | cons a l ih =>
    intro hok
    have ha : ok a := hok a (List.mem_cons_self _ _)
    have hl : ∀ x ∈ l, ok x := fun x hx => hok x (List.mem_cons_of_mem _ hx)
    unfold LatencyStats.sort
    rw [List.insertionSort_cons_eq_take_drop]
    rw [← List.orderedInsert_eq_take_drop]
    refine LatencyStats.sorted_orderedInsert laws a ha _ ?_ (ih hl)
    intro x hx
    exact hl x ((List.perm_insertionSort _ l).mem_iff.1 hx)

theorem LatencyStats.mem_sort {D : Type} (ops : DoubleOps D) (l : List D) (x : D) :
    x ∈ LatencyStats.sort ops l ↔ x ∈ l :=
  (List.perm_insertionSort _ l).mem_iff

theorem LatencyStats.length_sort {D : Type} (ops : DoubleOps D) (l : List D) :
    (LatencyStats.sort ops l).length = l.length :=
  List.length_insertionSort _ l

/-- The index `percentile` reads, as a function of the converted product `t`
and the number of samples `n`. -/
theorem LatencyStats.clamp_mono {t u n : Nat} (h : t ≤ u) (hn : 0 < n) :
    (if t ≥ n then n - 1 else t) ≤ (if u ≥ n then n - 1 else u) ∧
    (if t ≥ n then n - 1 else t) < n := by
  split <;> split <;> omega

theorem LatencyStats.percentile_eq {D : Type} (ops : DoubleOps D) (s : LatencyStats D)
    (hne : s.latencies ≠ []) (p : D) :
    ∃ i, ∃ h : i < (LatencyStats.sort ops s.latencies).length,
      i = (if ops.toSize (ops.mul p (ops.ofNat s.latencies.length)) ≥ s.latencies.length
            then s.latencies.length - 1
            else ops.toSize (ops.mul p (ops.ofNat s.latencies.length))) ∧
      LatencyStats.percentile ops s p = (LatencyStats.sort ops s.latencies).get ⟨i, h⟩ := by
  have hpos : 0 < s.latencies.length := List.length_pos.2 hne
  have hemp : s.latencies.isEmpty = false := by
    cases hl : s.latencies with
    | nil => exact absurd hl hne
    | cons a l => rfl
  have hlen := LatencyStats.length_sort ops s.latencies
  have hlt := (LatencyStats.clamp_mono
    (le_refl (ops.toSize (ops.mul p (ops.ofNat s.latencies.length)))) hpos).2
  refine ⟨_, by rw [hlen]; exact hlt, rfl, ?_⟩
  unfold LatencyStats.percentile
  rw [hemp]
  simp only [Bool.false_eq_true, if_false, hlen]
  rw [List.getD_eq_getElem _ _ (by rw [hlen]; exact hlt)]
  rfl

theorem LatencyStats.max_element_spec {D : Type} {ops : DoubleOps D} {ok : D → Prop}
    (laws : ops.Ordered ok) :
    ∀ (rest : List D) (first : D), ok first → (∀ x ∈ rest, ok x) →
      ok (LatencyStats.max_element ops first rest) ∧
      ∀ x ∈ first :: rest, LatencyStats.le ops x (LatencyStats.max_element ops first rest) := by
  intro rest
  induction rest with
  | nil =>
    intro first hf _
    refine ⟨hf, fun x hx => ?_⟩
    rcases List.mem_cons.1 hx with rfl | hx
    · exact LatencyStats.le_rfl_of_ok laws hf
    · cases hx
  | cons y rest ih =>
    intro first hf hok
    have hy : ok y := hok y (List.mem_cons_self _ _)
    have hrest : ∀ x ∈ rest, ok x := fun x hx => hok x (List.mem_cons_of_mem _ hx)
    have hstep : LatencyStats.max_element ops first (y :: rest) =
        LatencyStats.max_element ops (if ops.lt first y then y else first) rest := rfl
    rw [hstep]
    have hnext : ok (if ops.lt first y then y else first) := by
      split
      · exact hy
      · exact hf
    have hfirst : LatencyStats.le ops first (if ops.lt first y then y else first) := by
      by_cases h : ops.lt first y = true
      · rw [if_pos h]; exact laws.asymm first y hf hy h
      · rw [if_neg h]; exact LatencyStats.le_rfl_of_ok laws hf
    have hsecond : LatencyStats.le ops y (if ops.lt first y then y else first) := by
      by_cases h : ops.lt first y = true
      · rw [if_pos h]; exact LatencyStats.le_rfl_of_ok laws hy
      · rw [if_neg h]
        unfold LatencyStats.le
        simpa using h
    obtain ⟨hres, hall⟩ := ih _ hnext hrest
    refine ⟨hres, fun x hx => ?_⟩
    have hhead := hall _ (List.mem_cons_self _ _)
    rcases List.mem_cons.1 hx with rfl | hx
    · exact LatencyStats.le_trans_of_ok laws hf hnext hres hfirst hhead
    · rcases List.mem_cons.1 hx with rfl | hx
      · exact LatencyStats.le_trans_of_ok laws hy hnext hres hsecond hhead
      · exact hall x (List.mem_cons_of_mem _ hx)

theorem LatencyStats.le_max {D : Type} {ops : DoubleOps D} {ok : D → Prop}
    (laws : ops.Ordered ok) (s : LatencyStats D)
    (hs : ∀ x ∈ s.latencies, ok x) (x : D) (hx : x ∈ s.latencies) :
    LatencyStats.le ops x (LatencyStats.max ops s) := by
  cases s with
  | mk l =>
    cases l with
    | nil => cases hx
    | cons first rest =>
      exact (LatencyStats.max_element_spec laws rest first (hs first (List.mem_cons_self _ _))
        (fun y hy => hs y (List.mem_cons_of_mem _ hy))).2 x hx

theorem LatencyStats.percentile_le_max {D : Type} {ops : DoubleOps D} {ok : D → Prop}
    (laws : ops.Ordered ok) (s : LatencyStats D) (hne : s.latencies ≠ [])
    (hs : ∀ x ∈ s.latencies, ok x) (p : D) :
    LatencyStats.le ops (LatencyStats.percentile ops s p) (LatencyStats.max ops s) := by
  obtain ⟨i, hi, -, hp⟩ := LatencyStats.percentile_eq ops s hne p
  rw [hp]
  exact LatencyStats.le_max laws s hs _
    ((LatencyStats.mem_sort ops _ _).1 (List.get_mem _ _ _))

theorem LatencyStats.percentile_mono {D : Type} {ops : DoubleOps D} {ok : D → Prop}
    (laws : ops.Ordered ok) (s : LatencyStats D) (hne : s.latencies ≠ [])
    (hs : ∀ x ∈ s.latencies, ok x) (p q : D) (hp : ok p) (hq : ok q)
    (h0 : LatencyStats.le ops (ops.lit 0) p) (hpq : LatencyStats.le ops p q) :
    LatencyStats.le ops (LatencyStats.percentile ops s p) (LatencyStats.percentile ops s q) := by
  obtain ⟨i, hi, hie, hpi⟩ := LatencyStats.percentile_eq ops s hne p
  obtain ⟨j, hj, hje, hqj⟩ := LatencyStats.percentile_eq ops s hne q
  rw [hpi, hqj]
  have hpos : 0 < s.latencies.length := List.length_pos.2 hne
  have hidx := laws.index_mono p q s.latencies.length hp hq h0 hpq
  have hij : i ≤ j := by
    rw [hie, hje]
    exact (LatencyStats.clamp_mono hidx hpos).1
  have hsorted := LatencyStats.sorted_sort laws s.latencies hs
  rcases Nat.lt_or_eq_of_le hij with hlt | heq
  · exact hsorted.rel_get_of_lt (a := ⟨i, hi⟩) (b := ⟨j, hj⟩) hlt
  · subst heq
    exact LatencyStats.le_rfl_of_ok laws
      (hs _ ((LatencyStats.mem_sort ops _ _).1 (List.get_mem _ _ _)))

/-- The exact operations on the rationals satisfy the ordering laws. -/
theorem DoubleOps.exact_ordered : DoubleOps.exact.Ordered (fun _ => True) := by
  refine ⟨?_, ?_, ?_⟩
  · intro a b _ _ h
    simp only [DoubleOps.exact, decide_eq_true_eq, decide_eq_false_iff_not, not_lt] at h ⊢
    exact le_of_lt h
  · intro a b c _ _ _ h1 h2
    simp only [DoubleOps.exact, decide_eq_true_eq, decide_eq_false_iff_not, not_lt] at h1 h2 ⊢
    exact le_trans h1 h2
  · intro p q n _ _ _ hpq
    simp only [DoubleOps.exact, decide_eq_true_eq, decide_eq_false_iff_not, not_lt] at hpq ⊢
    exact Int.toNat_le_toNat (Int.floor_mono (mul_le_mul_of_nonneg_right hpq (Nat.cast_nonneg n)))

/-- C16: for a non-empty collection of latency samples (none of them NaN),
`p50() <= p90() <= p99() <= p999() <= max()`; more generally `percentile(p)` is
non-decreasing in `p` (for `0 <= p`) and never exceeds `max()`. The double
operations enter through the laws `DoubleOps.Ordered` and the order of the four
literals. -/
theorem LatencyStats.percentiles_ordered {D : Type} (ops : DoubleOps D) (ok : D → Prop)
    (laws : ops.Ordered ok) (s : LatencyStats D) (hne : s.latencies ≠ [])
    (hs : ∀ x ∈ s.latencies, ok x)
    (hok : ok (ops.lit 0.50) ∧ ok (ops.lit 0.90) ∧ ok (ops.lit 0.99) ∧ ok (ops.lit 0.999))
    (h50 : LatencyStats.le ops (ops.lit 0) (ops.lit 0.50))
    (h90 : LatencyStats.le ops (ops.lit 0) (ops.lit 0.90))
    (h99 : LatencyStats.le ops (ops.lit 0) (ops.lit 0.99))
    (hord : LatencyStats.le ops (ops.lit 0.50) (ops.lit 0.90) ∧
      LatencyStats.le ops (ops.lit 0.90) (ops.lit 0.99) ∧
      LatencyStats.le ops (ops.lit 0.99) (ops.lit 0.999)) :
    LatencyStats.le ops (s.p50 ops) (s.p90 ops) ∧
    LatencyStats.le ops (s.p90 ops) (s.p99 ops) ∧
    LatencyStats.le ops (s.p99 ops) (s.p999 ops) ∧
    LatencyStats.le ops (s.p999 ops) (s.max ops) ∧
    (∀ p q, ok p → ok q → LatencyStats.le ops (ops.lit 0) p → LatencyStats.le ops p q →
      LatencyStats.le ops (s.percentile ops p) (s.percentile ops q)) ∧
    (∀ p, LatencyStats.le ops (s.percentile ops p) (s.max ops)) := by
  obtain ⟨k50, k90, k99, k999⟩ := hok
  obtain ⟨o1, o2, o3⟩ := hord
  refine ⟨?_, ?_, ?_, ?_, ?_, ?_⟩
  · exact LatencyStats.percentile_mono laws s hne hs _ _ k50 k90 h50 o1
  · exact LatencyStats.percentile_mono laws s hne hs _ _ k90 k99 h90 o2
  · exact LatencyStats.percentile_mono laws s hne hs _ _ k99 k999 h99 o3
  · exact LatencyStats.percentile_le_max laws s hne hs _
  · intro p q hp hq h0 hpq
    exact LatencyStats.percentile_mono laws s hne hs p q hp hq h0 hpq
  · intro p
    exact LatencyStats.percentile_le_max laws s hne hs p

theorem LatencyStats.percentiles_ordered_witness :
    Scenario.samples.p50 DoubleOps.exact = 2 ∧
    Scenario.samples.p999 DoubleOps.exact = 3 ∧
    Scenario.samples.max DoubleOps.exact = 3 ∧
    LatencyStats.le DoubleOps.exact (Scenario.samples.p50 DoubleOps.exact)
      (Scenario.samples.p90 DoubleOps.exact) := by
  refine ⟨?_, ?_, ?_, ?_⟩
  · norm_num [LatencyStats.p50, LatencyStats.percentile, LatencyStats.sort, Scenario.samples,
      DoubleOps.exact, LatencyStats.le, List.insertionSort, List.orderedInsert]
  · norm_num [LatencyStats.p999, LatencyStats.percentile, LatencyStats.sort, Scenario.samples,
      DoubleOps.exact, LatencyStats.le, List.insertionSort, List.orderedInsert]
    rfl
  · norm_num [LatencyStats.max, LatencyStats.max_element, Scenario.samples, DoubleOps.exact]
  · exact (LatencyStats.percentiles_ordered DoubleOps.exact (fun _ => True)
      DoubleOps.exact_ordered Scenario.samples (by simp [Scenario.samples])
      (fun _ _ => trivial) ⟨trivial, trivial, trivial, trivial⟩
      (by norm_num [LatencyStats.le, DoubleOps.exact])
      (by norm_num [LatencyStats.le, DoubleOps.exact])
      (by norm_num [LatencyStats.le, DoubleOps.exact])
      ⟨by norm_num [LatencyStats.le, DoubleOps.exact],
       by norm_num [LatencyStats.le, DoubleOps.exact],
       by norm_num [LatencyStats.le, DoubleOps.exact]⟩).1

/-! ## `Producer::run`: sequence numbers and the counter `messages_produced` -/

theorem World.act_messages_produced (C : Nat) (w : World) (a : EnvAction) :
    (w.act C a).messages_produced = w.messages_produced := by
  cases a <;> simp only [World.act]
  · split <;> rfl
  · split <;> rfl

theorem World.acts_messages_produced (C : Nat) (as : List EnvAction) :
    ∀ w : World, (w.acts C as).messages_produced = w.messages_produced := by
  induction as with
  | nil => intro w; rfl
  | cons a as ih =>
    intro w
    simp only [World.acts, List.foldl_cons] at ih ⊢
    rw [ih, World.act_messages_produced]

theorem World.act_running_false (C : Nat) (w : World) (a : EnvAction)
    (ha : a ≠ EnvAction.store_running true) (hw : w.running = false) :
    (w.act C a).running = false := by
  cases a with
  | store_running b =>
    cases b with
    | true => exact absurd rfl ha
    | false => rfl
  | clock t => exact hw
  | push i m =>
    simp only [World.act]
    split
    · exact hw
    · exact hw
  | pop i =>
    simp only [World.act]
    split
    · exact hw
    · exact hw

theorem World.acts_running_false (C : Nat) (as : List EnvAction)
    (has : EnvAction.store_running true ∉ as) :
    ∀ w : World, w.running = false → (w.acts C as).running = false := by
  induction as with
  | nil => intro w hw; exact hw
  | cons a as ih =>
    intro w hw
    simp only [World.acts, List.foldl_cons] at ih ⊢
    refine ih (fun h => has (List.mem_cons_of_mem _ h)) _ ?_
    exact World.act_running_false C w a (fun h => has (h ▸ List.mem_cons_self _ _)) hw

namespace Producer

variable {D : Type}

theorem sent_append_pushed (log : List Event) (j : Nat) (m : Message) :
    sent (log ++ [Event.pushed j m]) = sent log ++ [m] := by
  simp [sent, List.filterMap_append]

theorem inv_env (id c0 : Nat) (C : Nat) (as : List EnvAction)
    (has : EnvAction.store_running true ∉ as) (s : ProducerThread D) (w : World)
    (h : Inv id c0 s w) : Inv id c0 s (w.acts C as) := by
  obtain ⟨h1, h2, h3, h4, h5⟩ := h
  refine ⟨h1, h2, h3, by rw [World.acts_messages_produced]; exact h4, ?_⟩
  cases hpc : s.pc <;> rw [hpc] at h5 <;> simp only at h5 ⊢ <;> try exact h5
  rcases h5 with h5 | h5
  · exact Or.inl h5
  · exact Or.inr (World.acts_running_false C as has w h5)

theorem step_inv_producer (ops : DoubleOps D) (C duration_secs id c0 : Nat)
    (s s' : ProducerThread D) (w w' : World) (h : Inv id c0 s w)
    (hstep : step ops C duration_secs s w = .ok (s', w')) : Inv id c0 s' w' := by
  obtain ⟨producer, pc, log⟩ := s
  obtain ⟨h1, h2, h3, h4, h5⟩ := h
  simp only at h1 h2 h3 h4 h5
  cases pc with
  | returned =>
    simp only [step, Except.ok.injEq, Prod.mk.injEq] at hstep
    obtain ⟨rfl, rfl⟩ := hstep
    exact ⟨h1, h2, h3, h4, trivial⟩
  | start =>
    simp only [step] at hstep
    split at hstep
    · exact absurd hstep (by simp)
    · simp only [Except.ok.injEq, Prod.mk.injEq] at hstep
      obtain ⟨rfl, rfl⟩ := hstep
      exact ⟨h1, h2, h3, h4, Or.inl h5⟩
  | loop_head l =>
    simp only [step] at hstep
    split at hstep
    · next hrun =>
      simp only [Except.ok.injEq, Prod.mk.injEq] at hstep
      obtain ⟨rfl, rfl⟩ := hstep
      refine ⟨h1, h2, h3, h4, ?_⟩
      rcases h5 with h5 | h5
      · exact h5
      · rw [h5] at hrun; exact absurd hrun (by simp)
    · simp only [Except.ok.injEq, Prod.mk.injEq] at hstep
      obtain ⟨rfl, rfl⟩ := hstep
      exact ⟨h1, h2, h3, h4, trivial⟩
  | check_duration l =>
    simp only [step] at hstep
    split at hstep
    · simp only [Except.ok.injEq, Prod.mk.injEq] at hstep
      obtain ⟨rfl, rfl⟩ := hstep
      exact ⟨h1, h2, h3, h4, h5⟩
    · simp only [Except.ok.injEq, Prod.mk.injEq] at hstep
      obtain ⟨rfl, rfl⟩ := hstep
      exact ⟨h1, h2, h3, h4, trivial⟩
  | read_time l =>
    simp only [step] at hstep
    split at hstep
    · split at hstep
      · exact absurd hstep (by simp)
      · next msg_type producer' hgen =>
        simp only [Except.ok.injEq, Prod.mk.injEq] at hstep
        obtain ⟨rfl, rfl⟩ := hstep
        have hp : producer'.id_ = producer.id_ ∧
            producer'.sequence_number_ = producer.sequence_number_ := by
          unfold generate_message_type at hgen
          split at hgen
          · exact absurd hgen (by simp)
          · split at hgen
            · exact absurd hgen (by simp)
            · simp only [Except.ok.injEq, Prod.mk.injEq] at hgen
              rw [← hgen.2]
              exact ⟨rfl, rfl⟩
        exact ⟨hp.1.trans h1, h2, h3, h4, hp.2.trans h5⟩
    · simp only [Except.ok.injEq, Prod.mk.injEq] at hstep
      obtain ⟨rfl, rfl⟩ := hstep
      exact ⟨h1, h2, h3, h4, Or.inl h5⟩
  | create l current_time msg_type =>
    simp only [step, Except.ok.injEq, Prod.mk.injEq] at hstep
    obtain ⟨rfl, rfl⟩ := hstep
    refine ⟨h1, h2, h3, h4, ?_⟩
    simp only [Message.create]
    refine ⟨h1, h5, ?_⟩
    rw [h5, Nat.mod_add_mod]
  | push_head l current_time msg =>
    simp only [step] at hstep
    split at hstep
    · simp only [Except.ok.injEq, Prod.mk.injEq] at hstep
      obtain ⟨rfl, rfl⟩ := hstep
      exact ⟨h1, h2, h3, h4, h5⟩
    · next hrun =>
      simp only [Except.ok.injEq, Prod.mk.injEq] at hstep
      obtain ⟨rfl, rfl⟩ := hstep
      exact ⟨h1, h2, h3, h4, Or.inr (by simpa using hrun)⟩
  | push l current_time msg =>
    simp only [step] at hstep
    split at hstep
    · exact absurd hstep (by simp)
    · split at hstep
      · simp only [Except.ok.injEq, Prod.mk.injEq] at hstep
        obtain ⟨rfl, rfl⟩ := hstep
        simp only [Inv, sent_append_pushed, List.map_append, List.map_cons, List.map_nil,
          List.length_append, List.length_singleton, List.range_succ, List.replicate_succ']
        refine ⟨h1, ?_, ?_, ?_, Or.inl h5.2.2⟩
        · rw [h2, h5.1]
        · rw [h3, h5.2.1]
        · show (w.messages_produced + 1) % SIZE_T_MOD = _
          rw [h4, Nat.mod_add_mod, Nat.add_assoc]
      · simp only [Except.ok.injEq, Prod.mk.injEq] at hstep
        obtain ⟨rfl, rfl⟩ := hstep
        exact ⟨h1, h2, h3, h4, h5⟩

theorem exec_inv_producer (ops : DoubleOps D) (C duration_secs id c0 : Nat)
    (schedule : List (List EnvAction)) :
    (∀ burst ∈ schedule, EnvAction.store_running true ∉ burst) →
    ∀ (s s' : ProducerThread D) (w w' : World), Inv id c0 s w →
      exec ops C duration_secs schedule s w = .ok (s', w') → Inv id c0 s' w' := by
  induction schedule with
  | nil =>
    intro _ s s' w w' h hexec
    simp only [exec] at hexec
    split at hexec
    · simp only [Except.ok.injEq, Prod.mk.injEq] at hexec
      obtain ⟨rfl, rfl⟩ := hexec
      exact h
    · exact absurd hexec (by simp)
  | cons as rest ih =>
    intro hq s s' w w' h hexec
    simp only [exec] at hexec
    split at hexec
    · simp only [Except.ok.injEq, Prod.mk.injEq] at hexec
      obtain ⟨rfl, rfl⟩ := hexec
      exact h
    · split at hexec
      · exact absurd hexec (by simp)
      · next s1 w1 hstep =>
        have henv := inv_env id c0 C as (hq as (List.mem_cons_self _ _)) s w h
        exact ih (fun b hb => hq b (List.mem_cons_of_mem _ hb)) s1 s' w1 w'
          (step_inv_producer ops C duration_secs id c0 s s1 _ w1 henv hstep) hexec

end Producer

namespace Producer

variable {D : Type}

theorem inv_new (id : Nat) (config : ProducerConfig D) (output_queue : Nat) (draws : List Nat)
    (w : World) (hc : w.messages_produced < SIZE_T_MOD) :
    Inv id w.messages_produced
      { producer := new id config output_queue draws, pc := .start, log := [] } w := by
  refine ⟨rfl, rfl, rfl, ?_, rfl⟩
  show w.messages_produced = (w.messages_produced + 0) % SIZE_T_MOD
  rw [Nat.add_zero, Nat.mod_eq_of_lt hc]

theorem step_counts_push (ops : DoubleOps D) (C duration_secs : Nat)
    (s s' : ProducerThread D) (w w' : World)
    (hstep : step ops C duration_secs s w = .ok (s', w')) :
    (∃ l t msg q, s.pc = .push l t msg ∧ w.queues[s.producer.output_queue_]? = some q ∧
      (q.try_push C msg).1 = true ∧ s'.log = s.log ++ [Event.pushed 0 msg] ∧
      w'.messages_produced = (w.messages_produced + 1) % SIZE_T_MOD ∧
      w'.queues = w.queues.set s.producer.output_queue_ (q.try_push C msg).2) ∨
    (s'.log = s.log ∧ w'.messages_produced = w.messages_produced ∧ w'.queues = w.queues ∧
      ∀ l t msg q, s.pc = .push l t msg → w.queues[s.producer.output_queue_]? = some q →
        (q.try_push C msg).1 = false) := by
  obtain ⟨producer, pc, log⟩ := s
  cases pc with
  | returned =>
    simp only [step, Except.ok.injEq, Prod.mk.injEq] at hstep
    obtain ⟨rfl, rfl⟩ := hstep
    exact Or.inr ⟨rfl, rfl, rfl, fun _ _ _ _ h => by cases h⟩
  | start =>
    simp only [step] at hstep
    split at hstep
    · exact absurd hstep (by simp)
    · simp only [Except.ok.injEq, Prod.mk.injEq] at hstep
      obtain ⟨rfl, rfl⟩ := hstep
      exact Or.inr ⟨rfl, rfl, rfl, fun _ _ _ _ h => by cases h⟩
  | loop_head l =>
    simp only [step] at hstep
    split at hstep <;> simp only [Except.ok.injEq, Prod.mk.injEq] at hstep <;>
      obtain ⟨rfl, rfl⟩ := hstep <;>
      exact Or.inr ⟨rfl, rfl, rfl, fun _ _ _ _ h => by cases h⟩
  | check_duration l =>
    simp only [step] at hstep
    split at hstep <;> simp only [Except.ok.injEq, Prod.mk.injEq] at hstep <;>
      obtain ⟨rfl, rfl⟩ := hstep <;>
      exact Or.inr ⟨rfl, rfl, rfl, fun _ _ _ _ h => by cases h⟩
  | read_time l =>
    simp only [step] at hstep
    split at hstep
    · split at hstep
      · exact absurd hstep (by simp)
      · simp only [Except.ok.injEq, Prod.mk.injEq] at hstep
        obtain ⟨rfl, rfl⟩ := hstep
        exact Or.inr ⟨rfl, rfl, rfl, fun _ _ _ _ h => by cases h⟩
    · simp only [Except.ok.injEq, Prod.mk.injEq] at hstep
      obtain ⟨rfl, rfl⟩ := hstep
      exact Or.inr ⟨rfl, rfl, rfl, fun _ _ _ _ h => by cases h⟩
  | create l current_time msg_type =>
    simp only [step, Except.ok.injEq, Prod.mk.injEq] at hstep
    obtain ⟨rfl, rfl⟩ := hstep
    exact Or.inr ⟨rfl, rfl, rfl, fun _ _ _ _ h => by cases h⟩
  | push_head l current_time msg =>
    simp only [step] at hstep
    split at hstep <;> simp only [Except.ok.injEq, Prod.mk.injEq] at hstep <;>
      obtain ⟨rfl, rfl⟩ := hstep <;>
      exact Or.inr ⟨rfl, rfl, rfl, fun _ _ _ _ h => by cases h⟩
  | push l current_time msg =>
    simp only [step] at hstep
    split at hstep
    · exact absurd hstep (by simp)
    · next q hq =>
      split at hstep
      · next hok =>
        simp only [Except.ok.injEq, Prod.mk.injEq] at hstep
        obtain ⟨rfl, rfl⟩ := hstep
        exact Or.inl ⟨l, current_time, msg, q, rfl, hq, hok, rfl, rfl, rfl⟩
      · next hno =>
        simp only [Except.ok.injEq, Prod.mk.injEq] at hstep
        obtain ⟨rfl, rfl⟩ := hstep
        refine Or.inr ⟨rfl, rfl, rfl, fun l' t' msg' q' h hq' => ?_⟩
        simp only [ProducerPC.push.injEq] at h
        obtain ⟨-, -, rfl⟩ := h
        simp only at hq hq'
        rw [hq] at hq'
        simp only [Option.some.injEq] at hq'
        subst hq'
        simpa using hno

/-- C18 (amended): in any run of `Producer::run` on a fresh producer with id
`id` in which no other thread sets the flag again once it is clear, when `run`
returns the `n` messages pushed to the output queue carry `producer_id = id`
and, in push order, the sequence numbers `k mod 2^64` for `k = 0, ..., n-1`
(so exactly `0, 1, ..., n-1` without gap or repeat while `n <= 2^64`), and the
counter `messages_produced` has been incremented `n` times; every step either
makes a successful push and increments the counter once, or pushes nothing (in
particular on a failed `try_push`) and leaves the counter alone. -/
theorem run_numbers_pushed_messages (ops : DoubleOps D) (C duration_secs id output_queue : Nat)
    (config : ProducerConfig D) (draws : List Nat) (schedule : List (List EnvAction))
    (hflag : ∀ burst ∈ schedule, EnvAction.store_running true ∉ burst)
    (w w' : World) (s' : ProducerThread D) (hc : w.messages_produced < SIZE_T_MOD)
    (hrun : run ops C duration_secs schedule (new id config output_queue draws) w
      = .ok (s', w')) :
    (sent s'.log).map (fun m => m.producer_id) = List.replicate (sent s'.log).length id ∧
    (sent s'.log).map (fun m => m.sequence_number) =
      (List.range (sent s'.log).length).map (fun k => k % SIZE_T_MOD) ∧
    ((sent s'.log).length ≤ SIZE_T_MOD →
      (sent s'.log).map (fun m => m.sequence_number) = List.range (sent s'.log).length) ∧
    w'.messages_produced = (w.messages_produced + (sent s'.log).length) % SIZE_T_MOD ∧
    (∀ (s s1 : ProducerThread D) (v v1 : World),
      step ops C duration_secs s v = .ok (s1, v1) →
      (∃ l t msg q, s.pc = .push l t msg ∧ v.queues[s.producer.output_queue_]? = some q ∧
        (q.try_push C msg).1 = true ∧ s1.log = s.log ++ [Event.pushed 0 msg] ∧
        v1.messages_produced = (v.messages_produced + 1) % SIZE_T_MOD ∧
        v1.queues = v.queues.set s.producer.output_queue_ (q.try_push C msg).2) ∨
      (s1.log = s.log ∧ v1.messages_produced = v.messages_produced ∧ v1.queues = v.queues ∧
        ∀ l t msg q, s.pc = .push l t msg → v.queues[s.producer.output_queue_]? = some q →
          (q.try_push C msg).1 = false)) := by
  have hinv := exec_inv_producer ops C duration_secs id w.messages_produced schedule hflag
    _ s' w w' (inv_new id config output_queue draws w hc) hrun
  obtain ⟨-, h2, h3, h4, -⟩ := hinv
  refine ⟨h2, h3, fun hn => ?_, h4, fun s s1 v v1 hstep =>
    step_counts_push ops C duration_secs s s1 v v1 hstep⟩
  rw [h3]
  conv_rhs => rw [← List.map_id (List.range (sent s'.log).length)]
  refine List.map_congr_left (fun k hk => ?_)
  have hk' := List.mem_range.1 hk
  exact Nat.mod_eq_of_lt (by omega)

theorem run_numbers_pushed_messages_witness :
    ∃ s w, run DoubleOps.exact 4 10 Scenario.twoEmissions
        (new 2 Scenario.producerConfig 0 [1, 0]) Scenario.producerWorld = .ok (s, w) ∧
      s.log = [Event.pushed 0 (Message.create 5 2 0 7),
        Event.pushed 0 (Message.create 3 2 1 2000005)] ∧
      w.messages_produced = 2 ∧
      (sent s.log).map (fun m => m.sequence_number) = List.range (sent s.log).length :=
  ⟨_, _, by with_unfolding_all rfl, by with_unfolding_all rfl, by with_unfolding_all rfl,
    (run_numbers_pushed_messages DoubleOps.exact 4 10 2 0 Scenario.producerConfig [1, 0]
      Scenario.twoEmissions (by decide) Scenario.producerWorld _ _ (by decide)
      (by with_unfolding_all rfl)).2.2.1 (by with_unfolding_all decide)⟩

end Producer

namespace Producer

theorem exec_cons_step {D : Type} (ops : DoubleOps D) (C duration_secs : Nat)
    (as : List EnvAction) (rest : List (List EnvAction)) (s s1 : ProducerThread D)
    (w w1 : World) (hpc : s.pc ≠ .returned)
    (hstep : step ops C duration_secs s (w.acts C as) = .ok (s1, w1)) :
    exec ops C duration_secs (as :: rest) s w = exec ops C duration_secs rest s1 w1 := by
  simp only [exec, if_neg hpc, hstep]

theorem fast_iteration (k d processed h t : Nat) (slots : List Message) (hh : h < 2)
    (ht : t < 2) (rest : List (List EnvAction)) :
    exec DoubleOps.exact 2 1
      ([EnvAction.pop 0] :: [EnvAction.pop 0] :: [EnvAction.pop 0] :: [EnvAction.pop 0] ::
        [EnvAction.pop 0] :: [EnvAction.pop 0] :: rest)
      (Scenario.fastThread k (d + 1))
      (Scenario.fastWorld h t slots processed (k % SIZE_T_MOD)) =
    exec DoubleOps.exact 2 1 rest (Scenario.fastThread (k + 1) d)
      (Scenario.fastWorld t ((t + 1) % 2)
        (slots.set t (Message.create 0 0 (k % SIZE_T_MOD) 0)) processed
        ((k + 1) % SIZE_T_MOD)) := by
  have e1 : SPSCQueue.advance 2 0 = 1 := by decide
  have e2 : SPSCQueue.advance 2 1 = 0 := by decide
  interval_cases h <;> interval_cases t <;>
    simp [exec, step, Scenario.fastThread, Scenario.fastWorld, World.acts, World.act,
      World.setQueue, SPSCQueue.try_pop, SPSCQueue.try_push, e1, e2, Timer.elapsed_seconds,
      Timer.elapsed_nanoseconds, DoubleOps.exact, generate_message_type, List.replicate_succ,
      ProducerLocals.plan, World.get_timestamp_ns, List.range_succ]

end Producer

namespace Producer

theorem fast_iterations (n : Nat) :
    ∀ (k d processed h t : Nat) (slots : List Message), h < 2 → t < 2 →
      ∀ rest : List (List EnvAction),
      ∃ h' t' slots', h' < 2 ∧ t' < 2 ∧
        exec DoubleOps.exact 2 1 (List.replicate (6 * n) [EnvAction.pop 0] ++ rest)
          (Scenario.fastThread k (d + n))
          (Scenario.fastWorld h t slots processed (k % SIZE_T_MOD)) =
        exec DoubleOps.exact 2 1 rest (Scenario.fastThread (k + n) d)
          (Scenario.fastWorld h' t' slots' processed ((k + n) % SIZE_T_MOD)) := by
  induction n with
  | zero =>
    intro k d processed h t slots hh ht rest
    exact ⟨h, t, slots, hh, ht, rfl⟩
  | succ n ih =>
    intro k d processed h t slots hh ht rest
    have hrep : List.replicate (6 * (n + 1)) [EnvAction.pop 0] ++ rest =
        [EnvAction.pop 0] :: [EnvAction.pop 0] :: [EnvAction.pop 0] :: [EnvAction.pop 0] ::
          [EnvAction.pop 0] :: [EnvAction.pop 0] ::
          (List.replicate (6 * n) [EnvAction.pop 0] ++ rest) := by
      have h6 : 6 * (n + 1) = 6 * n + 1 + 1 + 1 + 1 + 1 + 1 := by omega
      rw [h6]
      simp only [List.replicate_succ, List.cons_append]
    have hd : d + (n + 1) = (d + n) + 1 := by omega
    have hk : k + (n + 1) = (k + 1) + n := by omega
    rw [hrep, hd, fast_iteration k (d + n) processed h t slots hh ht, hk]
    exact ih (k + 1) d processed t ((t + 1) % 2) _ ht (Nat.mod_lt _ (by decide)) rest

theorem sent_map_pushed (f : Nat → Message) (l : List Nat) :
    sent (l.map (fun j => Event.pushed 0 (f j))) = l.map f := by
  induction l with
  | nil => rfl
  | cons a l ih =>
    simp only [List.map_cons, sent, List.filterMap_cons] at ih ⊢
    rw [ih]

/-- The fast producer, whose consumer pops before every step, emits as many
messages as the schedule allows: for every `n` the run returns with `n` pushes,
the `j`-th carrying the sequence number `j mod 2^64`. -/
theorem fast_run (n : Nat) :
    ∃ s w, run DoubleOps.exact 2 1 (Scenario.popAlways n)
        (new 0 Scenario.fastConfig 0 (List.replicate n 0))
        (Scenario.fastWorld 0 0 [Message.new, Message.new] 0 0) = .ok (s, w) ∧
      s.log = (List.range n).map
        (fun j => Event.pushed 0 (Message.create 0 0 (j % SIZE_T_MOD) 0)) ∧
      w.messages_produced = n % SIZE_T_MOD := by
  have hstart : step DoubleOps.exact 2 1
      { producer := new 0 Scenario.fastConfig 0 (List.replicate n 0), pc := .start, log := [] }
      ((Scenario.fastWorld 0 0 [Message.new, Message.new] 0 0).acts 2 []) =
      .ok (Scenario.fastThread 0 (0 + n),
        Scenario.fastWorld 0 0 [Message.new, Message.new] 0 (0 % SIZE_T_MOD)) := by
    simp only [step, new, Scenario.fastConfig, Scenario.fastThread, Scenario.fastWorld,
      World.acts, List.foldl_nil]
    rw [if_neg (by decide)]
    simp only [Nat.zero_mod, Nat.zero_add, List.range_zero, List.map_nil, List.map_cons]
  obtain ⟨h', t', slots', -, -, hiter⟩ :=
    fast_iterations n 0 0 0 0 0 [Message.new, Message.new] (by decide) (by decide)
      [[EnvAction.store_running false]]
  refine ⟨{ Scenario.fastThread (0 + n) 0 with pc := .returned },
    { Scenario.fastWorld h' t' slots' 0 ((0 + n) % SIZE_T_MOD) with running := false },
    ?_, ?_, ?_⟩
  · unfold run Scenario.popAlways
    rw [exec_cons_step DoubleOps.exact 2 1 [] _ _ _ _ _ (by simp) hstart, hiter]
    simp [exec, step, Scenario.fastThread, Scenario.fastWorld, World.acts, World.act]
  · simp [Scenario.fastThread]
  · simp [Scenario.fastWorld]

end Producer
namespace Producer

theorem popAlways_quiet (n : Nat) :
    ∀ burst ∈ Scenario.popAlways n, EnvAction.store_running true ∉ burst := by
  intro burst hb
  unfold Scenario.popAlways at hb
  rcases List.mem_cons.1 hb with rfl | hb
  · exact List.not_mem_nil _
  · rcases List.mem_append.1 hb with hb | hb
    · rw [List.eq_of_mem_replicate hb]
      decide
    · rw [List.mem_singleton.1 hb]
      decide

/-- C18 (the claim as stated fails at a wrap of the 64-bit sequence number):
the fresh producer 0 of `Scenario.fastConfig`, whose consumer pops before every
step and whose flag is cleared once and never set again, makes `2^64 + 1`
successful pushes before `run` returns. The message pushed last carries the
sequence number 0, not `2^64`: the same number as the message pushed first. -/
theorem sequence_number_wraps :
    ∃ s w, run DoubleOps.exact 2 1 (Scenario.popAlways (2 ^ 64 + 1))
        (new 0 Scenario.fastConfig 0 (List.replicate (2 ^ 64 + 1) 0))
        (Scenario.fastWorld 0 0 [Message.new, Message.new] 0 0) = .ok (s, w) ∧
      (∀ burst ∈ Scenario.popAlways (2 ^ 64 + 1), EnvAction.store_running true ∉ burst) ∧
      (sent s.log).length = 2 ^ 64 + 1 ∧
      ((sent s.log).map (fun m => m.sequence_number))[0]? = some 0 ∧
      ((sent s.log).map (fun m => m.sequence_number))[2 ^ 64]? = some 0 ∧
      (sent s.log).map (fun m => m.sequence_number) ≠ List.range (sent s.log).length := by
  obtain ⟨s, w, hrun, hlog, -⟩ := fast_run (2 ^ 64 + 1)
  have hsent : (sent s.log).map (fun m => m.sequence_number) =
      (List.range (2 ^ 64 + 1)).map (fun j => j % SIZE_T_MOD) := by
    rw [hlog, sent_map_pushed, List.map_map]
    rfl
  have hlen : (sent s.log).length = 2 ^ 64 + 1 := by
    rw [hlog, sent_map_pushed, List.length_map, List.length_range]
  have hlast : ((sent s.log).map (fun m => m.sequence_number))[2 ^ 64]? = some 0 := by
    rw [hsent, List.getElem?_map, List.getElem?_range (Nat.lt_succ_self _)]
    show some (2 ^ 64 % SIZE_T_MOD) = some 0
    unfold SIZE_T_MOD
    rw [Nat.mod_self]
  refine ⟨s, w, hrun, popAlways_quiet _, hlen, ?_, hlast, ?_⟩
  · rw [hsent, List.getElem?_map, List.getElem?_range (Nat.succ_pos _)]
    rfl
  · intro heq
    rw [heq, hlen, List.getElem?_range (Nat.lt_succ_self _)] at hlast
    simp only [Option.some.injEq] at hlast
    exact absurd hlast (Nat.pos_pow_of_pos 64 (by decide)).ne'

end Producer

/-! ## Phase timestamps are non-decreasing along the pipeline -/

theorem World.act_timely (P : Message → Nat → Prop) (hP : Message.Lasting P)
    (k : Nat) (hk : k < 64) (w : World) (a : EnvAction)
    (hw : w.Timely P (2 ^ k))
    (ha : a.Admissible P w.get_timestamp_ns) :
    (w.act (2 ^ k) a).Timely P (2 ^ k) ∧
    (w.act (2 ^ k) a).get_timestamp_ns = a.reading w.get_timestamp_ns := by
  cases a with
  | store_running b => exact ⟨hw, rfl⟩
  | clock t =>
    refine ⟨?_, rfl⟩
    intro i q hq
    obtain ⟨l, hl, hall⟩ := hw i q hq
    exact ⟨l, hl, fun m hm => hP m _ _ ha (hall m hm)⟩
  | push j v =>
    simp only [World.act]
    split
    · exact ⟨hw, rfl⟩
    · next q0 hq0 =>
      refine ⟨?_, rfl⟩
      intro i q hq
      simp only [World.setQueue, List.getElem?_set] at hq
      split at hq
      · split at hq
        · simp only [Option.some.injEq] at hq
          subst hq
          obtain ⟨l, hl, hall⟩ := hw j q0 hq0
          have hp := SPSCQueue.holds_push k hk q0 l v hl
          refine ⟨_, hp.2, ?_⟩
          intro m hm
          unfold ListQueue.try_push at hm
          split at hm
          · rcases List.mem_append.1 hm with hm | hm
            · exact hall m hm
            · rw [List.mem_singleton.1 hm]; exact ha
          · exact hall m hm
        · exact absurd hq (by simp)
      · exact hw i q hq
  | pop j =>
    simp only [World.act]
    split
    · exact ⟨hw, rfl⟩
    · next q0 hq0 =>
      refine ⟨?_, rfl⟩
      intro i q hq
      simp only [World.setQueue, List.getElem?_set] at hq
      split at hq
      · split at hq
        · simp only [Option.some.injEq] at hq
          subst hq
          obtain ⟨l, hl, hall⟩ := hw j q0 hq0
          have hp := SPSCQueue.holds_pop k hk q0 l Message.new hl
          refine ⟨_, hp.2.2, ?_⟩
          intro m hm
          cases l with
          | nil => simp [ListQueue.try_pop] at hm
          | cons x xs =>
            simp only [ListQueue.try_pop] at hm
            exact hall m (List.mem_cons_of_mem _ hm)
        · exact absurd hq (by simp)
      · exact hw i q hq

theorem EnvAction.le_reading (P : Message → Nat → Prop) (now : Nat) (a : EnvAction)
    (ha : a.Admissible P now) : now ≤ a.reading now := by
  cases a with
  | clock t => exact ha
  | store_running b => exact Nat.le_refl _
  | push j v => exact Nat.le_refl _
  | pop j => exact Nat.le_refl _

theorem World.acts_timely (P : Message → Nat → Prop) (hP : Message.Lasting P)
    (k : Nat) (hk : k < 64) (as : List EnvAction) :
    ∀ w : World, w.Timely P (2 ^ k) → EnvAction.TimelyBurst P w.get_timestamp_ns as →
      (w.acts (2 ^ k) as).Timely P (2 ^ k) ∧
      (w.acts (2 ^ k) as).get_timestamp_ns = EnvAction.readingAfter w.get_timestamp_ns as ∧
      w.get_timestamp_ns ≤ (w.acts (2 ^ k) as).get_timestamp_ns := by
  induction as with
  | nil => intro w hw _; exact ⟨hw, rfl, Nat.le_refl _⟩
  | cons a as ih =>
    intro w hw hb
    obtain ⟨ha, hrest⟩ := hb
    obtain ⟨h1, h2⟩ := World.act_timely P hP k hk w a hw ha
    rw [← h2] at hrest
    obtain ⟨h3, h4, h5⟩ := ih (w.act (2 ^ k) a) h1 hrest
    refine ⟨h3, ?_, ?_⟩
    · show ((w.act (2 ^ k) a).acts (2 ^ k) as).get_timestamp_ns = _
      rw [h4, h2]
      rfl
    · have := EnvAction.le_reading P _ a ha
      rw [← h2] at this
      exact Nat.le_trans this h5
theorem Message.lasting_produced : Message.Lasting Message.Produced := by
  intro m a b hab h; unfold Message.Produced at *; omega

theorem Message.lasting_entered1 : Message.Lasting Message.Entered1 := by
  intro m a b hab h; unfold Message.Entered1 at *; omega

theorem Message.lasting_routed1 : Message.Lasting Message.Routed1 := by
  intro m a b hab h; unfold Message.Routed1 at *; omega

theorem Message.lasting_enteredProcessing : Message.Lasting Message.EnteredProcessing := by
  intro m a b hab h; unfold Message.EnteredProcessing at *; omega

theorem Message.lasting_processed : Message.Lasting Message.Processed := by
  intro m a b hab h; unfold Message.Processed at *; omega

theorem Message.lasting_entered2 : Message.Lasting Message.Entered2 := by
  intro m a b hab h; unfold Message.Entered2 at *; omega

theorem Message.lasting_delivered : Message.Lasting Message.Delivered := by
  intro m a b hab h; unfold Message.Delivered at *; omega

theorem World.timely_setQueue (P : Message → Nat → Prop) (C : Nat) (w : World) (p : Nat)
    (q : SPSCQueue Message) (hw : w.Timely P C)
    (hq : ∃ l, SPSCQueue.Holds C q l ∧ ∀ m ∈ l, P m w.get_timestamp_ns) :
    (w.setQueue p q).Timely P C := by
  intro i q' hq'
  simp only [World.setQueue, List.getElem?_set] at hq'
  split at hq'
  · split at hq'
    · simp only [Option.some.injEq] at hq'
      subst hq'
      exact hq
    · exact absurd hq' (by simp)
  · exact hw i q' hq'

theorem World.timely_pop (P : Message → Nat → Prop) (k : Nat) (hk : k < 64) (w : World)
    (p : Nat) (q : SPSCQueue Message) (out : Message) (hw : w.Timely P (2 ^ k))
    (hq : w.queues[p]? = some q) :
    ((q.try_pop (2 ^ k) out).1 = true → P (q.try_pop (2 ^ k) out).2.1 w.get_timestamp_ns) ∧
    (w.setQueue p (q.try_pop (2 ^ k) out).2.2).Timely P (2 ^ k) := by
  obtain ⟨l, hl, hall⟩ := hw p q hq
  have hp := SPSCQueue.holds_pop k hk q l out hl
  cases l with
  | nil =>
    simp only [ListQueue.try_pop] at hp
    refine ⟨fun h => ?_, World.timely_setQueue P _ w p _ hw ⟨_, hp.2.2, hall⟩⟩
    rw [hp.1] at h
    exact absurd h (by simp)
  | cons x xs =>
    simp only [ListQueue.try_pop] at hp
    refine ⟨fun _ => ?_, World.timely_setQueue P _ w p _ hw
      ⟨_, hp.2.2, fun m hm => hall m (List.mem_cons_of_mem _ hm)⟩⟩
    rw [hp.2.1]
    exact hall x (List.mem_cons_self _ _)

theorem World.timely_push (P : Message → Nat → Prop) (k : Nat) (hk : k < 64) (w : World)
    (p : Nat) (q : SPSCQueue Message) (v : Message) (hw : w.Timely P (2 ^ k))
    (hq : w.queues[p]? = some q) (hv : P v w.get_timestamp_ns) :
    (w.setQueue p (q.try_push (2 ^ k) v).2).Timely P (2 ^ k) := by
  obtain ⟨l, hl, hall⟩ := hw p q hq
  have hp := SPSCQueue.holds_push k hk q l v hl
  refine World.timely_setQueue P _ w p _ hw ⟨_, hp.2, ?_⟩
  intro m hm
  unfold ListQueue.try_push at hm
  split at hm
  · rcases List.mem_append.1 hm with hm | hm
    · exact hall m hm
    · rw [List.mem_singleton.1 hm]; exact hv
  · exact hall m hm

theorem Stage1Router.deref_queue (w : World) (ptrs : List Nat) (i p : Nat)
    (q : SPSCQueue Message) (h : Stage1Router.deref w ptrs i = some (p, q)) :
    w.queues[p]? = some q := by
  unfold Stage1Router.deref at h
  split at h
  · exact absurd h (by simp)
  · split at h
    · exact absurd h (by simp)
    · simp only [Option.some.injEq, Prod.mk.injEq] at h
      obtain ⟨rfl, rfl⟩ := h
      assumption

theorem Event.pushed_mem_append_popped (log : List Event) (i j : Nat) (m m' : Message)
    (h : Event.pushed j m ∈ log ++ [Event.popped i m']) : Event.pushed j m ∈ log := by
  rcases List.mem_append.1 h with h | h
  · exact h
  · simp at h

theorem Stage1Router.step_stamps (k : Nat) (hk : k < 64) (s s' : Stage1Thread) (w w' : World)
    (h : Stage1Router.Stamps (2 ^ k) s w)
    (hstep : Stage1Router.step (2 ^ k) s w = .ok (s', w')) :
    Stage1Router.Stamps (2 ^ k) s' w' := by
  obtain ⟨router, pc, log⟩ := s
  obtain ⟨h1, h2, h3⟩ := h
  simp only at h2 h3
  cases pc with
  | returned =>
    simp only [Stage1Router.step, Except.ok.injEq, Prod.mk.injEq] at hstep
    obtain ⟨rfl, rfl⟩ := hstep
    exact ⟨h1, h2, trivial⟩
  | loop_head =>
    simp only [Stage1Router.step] at hstep
    split at hstep
    · simp only [Except.ok.injEq, Prod.mk.injEq] at hstep
      obtain ⟨rfl, rfl⟩ := hstep
      refine ⟨h1, h2, ?_⟩
      rcases RouterPC.for_next_cases router.input_queues_.length 0 false with hc | hc <;>
        simp only [hc]
    · simp only [Except.ok.injEq, Prod.mk.injEq] at hstep
      obtain ⟨rfl, rfl⟩ := hstep
      exact ⟨h1, h2, trivial⟩
  | poll i any =>
    simp only [Stage1Router.step] at hstep
    split at hstep
    · exact absurd hstep (by simp)
    · next p q hd =>
      have hq := Stage1Router.deref_queue w _ i p q hd
      have hpop := World.timely_pop Message.Produced k hk w p q Message.new h1 hq
      split at hstep
      · next hok =>
        split at hstep
        · exact absurd hstep (by simp)
        · simp only [Except.ok.injEq, Prod.mk.injEq] at hstep
          obtain ⟨rfl, rfl⟩ := hstep
          refine ⟨hpop.2, fun j m hm => h2 j m (Event.pushed_mem_append_popped _ _ _ _ _ hm), ?_⟩
          have := hpop.1 hok
          simp only [Message.Entered1, Message.Produced, World.setQueue,
            World.get_timestamp_ns] at this ⊢
          omega
      · simp only [Except.ok.injEq, Prod.mk.injEq] at hstep
        obtain ⟨rfl, rfl⟩ := hstep
        refine ⟨h1, h2, ?_⟩
        rcases RouterPC.for_next_cases router.input_queues_.length (i + 1) any with hc | hc <;>
          simp only [hc]
  | retry i any msg target =>
    simp only [Stage1Router.step] at hstep
    split at hstep
    · exact absurd hstep (by simp)
    · next p q hd =>
      have hq := Stage1Router.deref_queue w _ target p q hd
      have hmsg : Message.Routed1 { msg with stage1_exit_ns := w.get_timestamp_ns }
          w.get_timestamp_ns := by
        simp only [Message.Entered1, Message.Routed1] at h3 ⊢
        omega
      split at hstep
      · simp only [Except.ok.injEq, Prod.mk.injEq] at hstep
        obtain ⟨rfl, rfl⟩ := hstep
        refine ⟨World.timely_push Message.Produced k hk w p q _ h1 hq ?_, ?_, ?_⟩
        · simp only [Message.Routed1, Message.Produced] at hmsg ⊢
          omega
        · intro j m hm
          rcases List.mem_append.1 hm with hm | hm
          · exact h2 j m hm
          · simp only [List.mem_singleton, Event.pushed.injEq] at hm
            rw [hm.2]
            exact hmsg
        · rcases RouterPC.for_next_cases router.input_queues_.length (i + 1) true with hc | hc <;>
            simp only [hc]
      · simp only [Except.ok.injEq, Prod.mk.injEq] at hstep
        obtain ⟨rfl, rfl⟩ := hstep
        refine ⟨h1, h2, ?_⟩
        simp only [Message.Entered1] at h3 ⊢
        exact h3
theorem Stage2Router.step_stamps_stage2 (k : Nat) (hk : k < 64) (s s' : Stage2Thread)
    (w w' : World) (h : Stage2Router.Stamps (2 ^ k) s w)
    (hstep : Stage2Router.step (2 ^ k) s w = .ok (s', w')) :
    Stage2Router.Stamps (2 ^ k) s' w' := by
  obtain ⟨router, pc, log⟩ := s
  obtain ⟨h1, h2, h3⟩ := h
  simp only at h2 h3
  cases pc with
  | returned =>
    simp only [Stage2Router.step, Except.ok.injEq, Prod.mk.injEq] at hstep
    obtain ⟨rfl, rfl⟩ := hstep
    exact ⟨h1, h2, trivial⟩
  | loop_head =>
    simp only [Stage2Router.step] at hstep
    split at hstep
    · simp only [Except.ok.injEq, Prod.mk.injEq] at hstep
      obtain ⟨rfl, rfl⟩ := hstep
      refine ⟨h1, h2, ?_⟩
      rcases RouterPC.for_next_cases router.input_queues_.length 0 false with hc | hc <;>
        simp only [hc]
    · simp only [Except.ok.injEq, Prod.mk.injEq] at hstep
      obtain ⟨rfl, rfl⟩ := hstep
      exact ⟨h1, h2, trivial⟩
  | poll i any =>
    simp only [Stage2Router.step] at hstep
    split at hstep
    · exact absurd hstep (by simp)
    · next p q hd =>
      have hq := Stage1Router.deref_queue w _ i p q hd
      have hpop := World.timely_pop Message.Processed k hk w p q Message.new h1 hq
      split at hstep
      · next hok =>
        split at hstep
        · exact absurd hstep (by simp)
        · simp only [Except.ok.injEq, Prod.mk.injEq] at hstep
          obtain ⟨rfl, rfl⟩ := hstep
          refine ⟨hpop.2, fun j m hm => h2 j m (Event.pushed_mem_append_popped _ _ _ _ _ hm), ?_⟩
          have := hpop.1 hok
          simp only [Message.Entered2, Message.Processed, World.setQueue,
            World.get_timestamp_ns] at this ⊢
          omega
      · simp only [Except.ok.injEq, Prod.mk.injEq] at hstep
        obtain ⟨rfl, rfl⟩ := hstep
        refine ⟨h1, h2, ?_⟩
        rcases RouterPC.for_next_cases router.input_queues_.length (i + 1) any with hc | hc <;>
          simp only [hc]
  | retry i any msg target =>
    simp only [Stage2Router.step] at hstep
    split at hstep
    · exact absurd hstep (by simp)
    · next p q hd =>
      have hq := Stage1Router.deref_queue w _ target p q hd
      have hmsg : Message.Delivered { msg with stage2_exit_ns := w.get_timestamp_ns }
          w.get_timestamp_ns := by
        simp only [Message.Entered2, Message.Delivered] at h3 ⊢
        omega
      split at hstep
      · simp only [Except.ok.injEq, Prod.mk.injEq] at hstep
        obtain ⟨rfl, rfl⟩ := hstep
        refine ⟨World.timely_push Message.Processed k hk w p q _ h1 hq ?_, ?_, ?_⟩
        · simp only [Message.Delivered, Message.Processed] at hmsg ⊢
          omega
        · intro j m hm
          rcases List.mem_append.1 hm with hm | hm
          · exact h2 j m hm
          · simp only [List.mem_singleton, Event.pushed.injEq] at hm
            rw [hm.2]
            exact hmsg
        · rcases RouterPC.for_next_cases router.input_queues_.length (i + 1) true with hc | hc <;>
            simp only [hc]
      · simp only [Except.ok.injEq, Prod.mk.injEq] at hstep
        obtain ⟨rfl, rfl⟩ := hstep
        refine ⟨h1, h2, ?_⟩
        simp only [Message.Entered2] at h3 ⊢
        exact h3

theorem Processor.step_stamps_processor (k : Nat) (hk : k < 64) (s s' : ProcessorThread)
    (w w' : World) (h : Processor.Stamps (2 ^ k) s w)
    (hstep : Processor.step (2 ^ k) s w = .ok (s', w')) :
    Processor.Stamps (2 ^ k) s' w' := by
  obtain ⟨processor, pc, log⟩ := s
  obtain ⟨h1, h2, h3⟩ := h
  simp only at h2 h3
  cases pc with
  | returned =>
    simp only [Processor.step, Except.ok.injEq, Prod.mk.injEq] at hstep
    obtain ⟨rfl, rfl⟩ := hstep
    exact ⟨h1, h2, trivial⟩
  | loop_head =>
    simp only [Processor.step] at hstep
    split at hstep <;> simp only [Except.ok.injEq, Prod.mk.injEq] at hstep <;>
      obtain ⟨rfl, rfl⟩ := hstep <;> exact ⟨h1, h2, trivial⟩
  | poll =>
    simp only [Processor.step] at hstep
    split at hstep
    · exact absurd hstep (by simp)
    · next q hq =>
      have hpop := World.timely_pop Message.Routed1 k hk w _ q Message.new h1 hq
      split at hstep
      · next hok =>
        simp only [Except.ok.injEq, Prod.mk.injEq] at hstep
        obtain ⟨rfl, rfl⟩ := hstep
        refine ⟨hpop.2, fun j m hm => h2 j m (Event.pushed_mem_append_popped _ _ _ _ _ hm), ?_⟩
        have := hpop.1 hok
        have hent : Message.EnteredProcessing
            { (q.try_pop (2 ^ k) Message.new).2.1 with
              processing_entry_ns := w.get_timestamp_ns, processor_id := processor.id_ }
            w.get_timestamp_ns := by
          simp only [Message.EnteredProcessing, Message.Routed1] at this ⊢
          omega
        by_cases hpt : processor.get_processing_time
            (q.try_pop (2 ^ k) Message.new).2.1.msg_type > 0
        · simp only [hpt, if_true]
          exact hent
        · simp only [hpt, if_false]
          exact hent
      · simp only [Except.ok.injEq, Prod.mk.injEq] at hstep
        obtain ⟨rfl, rfl⟩ := hstep
        exact ⟨h1, h2, trivial⟩
  | wait_start msg ns =>
    simp only [Processor.step, Except.ok.injEq, Prod.mk.injEq] at hstep
    obtain ⟨rfl, rfl⟩ := hstep
    exact ⟨h1, h2, h3⟩
  | waiting msg ns start =>
    simp only [Processor.step] at hstep
    split at hstep <;> simp only [Except.ok.injEq, Prod.mk.injEq] at hstep <;>
      obtain ⟨rfl, rfl⟩ := hstep <;> exact ⟨h1, h2, h3⟩
  | stamp_exit msg =>
    simp only [Processor.step, Except.ok.injEq, Prod.mk.injEq] at hstep
    obtain ⟨rfl, rfl⟩ := hstep
    refine ⟨h1, h2, ?_⟩
    simp only [Message.EnteredProcessing, Message.Processed] at h3 ⊢
    omega
  | push_head msg =>
    simp only [Processor.step] at hstep
    split at hstep
    · simp only [Except.ok.injEq, Prod.mk.injEq] at hstep
      obtain ⟨rfl, rfl⟩ := hstep
      exact ⟨h1, h2, h3⟩
    · simp only [Except.ok.injEq, Prod.mk.injEq] at hstep
      obtain ⟨rfl, rfl⟩ := hstep
      exact ⟨h1, h2, trivial⟩
  | push msg =>
    simp only [Processor.step] at hstep
    split at hstep
    · exact absurd hstep (by simp)
    · next q hq =>
      split at hstep
      · simp only [Except.ok.injEq, Prod.mk.injEq] at hstep
        obtain ⟨rfl, rfl⟩ := hstep
        have hpush := World.timely_push Message.Routed1 k hk w _ q msg h1 hq (by
          simp only [Message.Processed, Message.Routed1] at h3 ⊢
          omega)
        refine ⟨fun i q' hq' => hpush i q' hq', ?_, trivial⟩
        intro j m hm
        rcases List.mem_append.1 hm with hm | hm
        · exact h2 j m hm
        · simp only [List.mem_singleton, Event.pushed.injEq] at hm
          rw [hm.2]
          exact h3
      · simp only [Except.ok.injEq, Prod.mk.injEq] at hstep
        obtain ⟨rfl, rfl⟩ := hstep
        exact ⟨h1, h2, h3⟩

theorem Producer.step_stamps_producer {D : Type} (ops : DoubleOps D) (C duration_secs : Nat)
    (s s' : ProducerThread D) (w w' : World) (h : Producer.Stamps s w)
    (hstep : Producer.step ops C duration_secs s w = .ok (s', w')) :
    Producer.Stamps s' w' := by
  obtain ⟨producer, pc, log⟩ := s
  obtain ⟨h2, h3⟩ := h
  simp only at h2 h3
  cases pc with
  | returned =>
    simp only [Producer.step, Except.ok.injEq, Prod.mk.injEq] at hstep
    obtain ⟨rfl, rfl⟩ := hstep
    exact ⟨h2, trivial⟩
  | start =>
    simp only [Producer.step] at hstep
    split at hstep
    · exact absurd hstep (by simp)
    · simp only [Except.ok.injEq, Prod.mk.injEq] at hstep
      obtain ⟨rfl, rfl⟩ := hstep
      exact ⟨h2, trivial⟩
  | loop_head l =>
    simp only [Producer.step] at hstep
    split at hstep <;> simp only [Except.ok.injEq, Prod.mk.injEq] at hstep <;>
      obtain ⟨rfl, rfl⟩ := hstep <;> exact ⟨h2, trivial⟩
  | check_duration l =>
    simp only [Producer.step] at hstep
    split at hstep <;> simp only [Except.ok.injEq, Prod.mk.injEq] at hstep <;>
      obtain ⟨rfl, rfl⟩ := hstep <;> exact ⟨h2, trivial⟩
  | read_time l =>
    simp only [Producer.step] at hstep
    split at hstep
    · split at hstep
      · exact absurd hstep (by simp)
      · simp only [Except.ok.injEq, Prod.mk.injEq] at hstep
        obtain ⟨rfl, rfl⟩ := hstep
        exact ⟨h2, trivial⟩
    · simp only [Except.ok.injEq, Prod.mk.injEq] at hstep
      obtain ⟨rfl, rfl⟩ := hstep
      exact ⟨h2, trivial⟩
  | create l current_time msg_type =>
    simp only [Producer.step, Except.ok.injEq, Prod.mk.injEq] at hstep
    obtain ⟨rfl, rfl⟩ := hstep
    exact ⟨h2, Nat.le_refl _⟩
  | push_head l current_time msg =>
    simp only [Producer.step] at hstep
    split at hstep
    · simp only [Except.ok.injEq, Prod.mk.injEq] at hstep
      obtain ⟨rfl, rfl⟩ := hstep
      exact ⟨h2, h3⟩
    · simp only [Except.ok.injEq, Prod.mk.injEq] at hstep
      obtain ⟨rfl, rfl⟩ := hstep
      exact ⟨h2, trivial⟩
  | push l current_time msg =>
    simp only [Producer.step] at hstep
    split at hstep
    · exact absurd hstep (by simp)
    · split at hstep
      · simp only [Except.ok.injEq, Prod.mk.injEq] at hstep
        obtain ⟨rfl, rfl⟩ := hstep
        refine ⟨?_, trivial⟩
        intro j m hm
        rcases List.mem_append.1 hm with hm | hm
        · exact h2 j m hm
        · simp only [List.mem_singleton, Event.pushed.injEq] at hm
          rw [hm.2]
          exact h3
      · simp only [Except.ok.injEq, Prod.mk.injEq] at hstep
        obtain ⟨rfl, rfl⟩ := hstep
        exact ⟨h2, h3⟩
theorem World.acts_reading (P : Message → Nat → Prop) (C : Nat) (as : List EnvAction) :
    ∀ w : World, EnvAction.TimelyBurst P w.get_timestamp_ns as →
      (w.acts C as).get_timestamp_ns = EnvAction.readingAfter w.get_timestamp_ns as ∧
      w.get_timestamp_ns ≤ (w.acts C as).get_timestamp_ns := by
  induction as with
  | nil => intro w _; exact ⟨rfl, Nat.le_refl _⟩
  | cons a as ih =>
    intro w hb
    obtain ⟨ha, hrest⟩ := hb
    have h2 : (w.act C a).get_timestamp_ns = a.reading w.get_timestamp_ns := by
      cases a with
      | store_running b => rfl
      | clock t => rfl
      | push j v =>
        simp only [World.act]
        split <;> rfl
      | pop j =>
        simp only [World.act]
        split <;> rfl
    rw [← h2] at hrest
    obtain ⟨h4, h5⟩ := ih (w.act C a) hrest
    refine ⟨?_, ?_⟩
    · show ((w.act C a).acts C as).get_timestamp_ns = _
      rw [h4, h2]
      rfl
    · have := EnvAction.le_reading P _ a ha
      rw [← h2] at this
      exact Nat.le_trans this h5

theorem Stage1Router.step_clock (C : Nat) (s s' : Stage1Thread) (w w' : World)
    (hstep : Stage1Router.step C s w = .ok (s', w')) :
    w'.get_timestamp_ns = w.get_timestamp_ns := by
  obtain ⟨router, pc, log⟩ := s
  cases pc <;> simp only [Stage1Router.step] at hstep <;> (repeat' split at hstep) <;>
    simp only [Except.ok.injEq, Prod.mk.injEq, reduceCtorEq] at hstep <;>
    obtain ⟨-, rfl⟩ := hstep <;> rfl

theorem Stage2Router.step_clock_stage2 (C : Nat) (s s' : Stage2Thread) (w w' : World)
    (hstep : Stage2Router.step C s w = .ok (s', w')) :
    w'.get_timestamp_ns = w.get_timestamp_ns := by
  obtain ⟨router, pc, log⟩ := s
  cases pc <;> simp only [Stage2Router.step] at hstep <;> (repeat' split at hstep) <;>
    simp only [Except.ok.injEq, Prod.mk.injEq, reduceCtorEq] at hstep <;>
    obtain ⟨-, rfl⟩ := hstep <;> rfl

theorem Processor.step_clock_processor (C : Nat) (s s' : ProcessorThread) (w w' : World)
    (hstep : Processor.step C s w = .ok (s', w')) :
    w'.get_timestamp_ns = w.get_timestamp_ns := by
  obtain ⟨processor, pc, log⟩ := s
  cases pc <;> simp only [Processor.step] at hstep <;> (repeat' split at hstep) <;>
    simp only [Except.ok.injEq, Prod.mk.injEq, reduceCtorEq] at hstep <;>
    obtain ⟨-, rfl⟩ := hstep <;> rfl

theorem Producer.step_clock_producer {D : Type} (ops : DoubleOps D) (C duration_secs : Nat)
    (s s' : ProducerThread D) (w w' : World)
    (hstep : Producer.step ops C duration_secs s w = .ok (s', w')) :
    w'.get_timestamp_ns = w.get_timestamp_ns := by
  obtain ⟨producer, pc, log⟩ := s
  cases pc <;> simp only [Producer.step] at hstep <;> (repeat' split at hstep) <;>
    simp only [Except.ok.injEq, Prod.mk.injEq, reduceCtorEq] at hstep <;>
    obtain ⟨-, rfl⟩ := hstep <;> rfl
theorem Stage1Router.stamps_env (k : Nat) (hk : k < 64) (as : List EnvAction)
    (s : Stage1Thread) (w : World) (h : Stage1Router.Stamps (2 ^ k) s w)
    (has : EnvAction.TimelyBurst Message.Produced w.get_timestamp_ns as) :
    Stage1Router.Stamps (2 ^ k) s (w.acts (2 ^ k) as) := by
  obtain ⟨h1, h2, h3⟩ := h
  obtain ⟨e1, -, e3⟩ := World.acts_timely _ Message.lasting_produced k hk as w h1 has
  refine ⟨e1, fun j m hm => Message.lasting_routed1 m _ _ e3 (h2 j m hm), ?_⟩
  cases hpc : s.pc <;> rw [hpc] at h3 <;> simp only at h3 ⊢
  exact Message.lasting_entered1 _ _ _ e3 h3

theorem Stage2Router.stamps_env_stage2 (k : Nat) (hk : k < 64) (as : List EnvAction)
    (s : Stage2Thread) (w : World) (h : Stage2Router.Stamps (2 ^ k) s w)
    (has : EnvAction.TimelyBurst Message.Processed w.get_timestamp_ns as) :
    Stage2Router.Stamps (2 ^ k) s (w.acts (2 ^ k) as) := by
  obtain ⟨h1, h2, h3⟩ := h
  obtain ⟨e1, -, e3⟩ := World.acts_timely _ Message.lasting_processed k hk as w h1 has
  refine ⟨e1, fun j m hm => Message.lasting_delivered m _ _ e3 (h2 j m hm), ?_⟩
  cases hpc : s.pc <;> rw [hpc] at h3 <;> simp only at h3 ⊢
  exact Message.lasting_entered2 _ _ _ e3 h3

theorem Processor.stamps_env_processor (k : Nat) (hk : k < 64) (as : List EnvAction)
    (s : ProcessorThread) (w : World) (h : Processor.Stamps (2 ^ k) s w)
    (has : EnvAction.TimelyBurst Message.Routed1 w.get_timestamp_ns as) :
    Processor.Stamps (2 ^ k) s (w.acts (2 ^ k) as) := by
  obtain ⟨h1, h2, h3⟩ := h
  obtain ⟨e1, -, e3⟩ := World.acts_timely _ Message.lasting_routed1 k hk as w h1 has
  refine ⟨e1, fun j m hm => Message.lasting_processed m _ _ e3 (h2 j m hm), ?_⟩
  cases hpc : s.pc <;> rw [hpc] at h3 <;> simp only at h3 ⊢ <;>
    first
    | exact Message.lasting_enteredProcessing _ _ _ e3 h3
    | exact Message.lasting_processed _ _ _ e3 h3

theorem Producer.stamps_env_producer {D : Type} (C : Nat) (as : List EnvAction)
    (s : ProducerThread D) (w : World) (h : Producer.Stamps s w)
    (has : EnvAction.TimelyBurst (fun _ _ => True) w.get_timestamp_ns as) :
    Producer.Stamps s (w.acts C as) := by
  obtain ⟨h2, h3⟩ := h
  obtain ⟨-, e3⟩ := World.acts_reading _ C as w has
  refine ⟨fun j m hm => Message.lasting_produced m _ _ e3 (h2 j m hm), ?_⟩
  cases hpc : s.pc <;> rw [hpc] at h3 <;> simp only at h3 ⊢ <;>
    exact Message.lasting_produced _ _ _ e3 h3

theorem Stage1Router.exec_stamps (k : Nat) (hk : k < 64) (schedule : List (List EnvAction)) :
    ∀ (s s' : Stage1Thread) (w w' : World), Stage1Router.Stamps (2 ^ k) s w →
      EnvAction.TimelySchedule Message.Produced w.get_timestamp_ns schedule →
      Stage1Router.exec (2 ^ k) schedule s w = .ok (s', w') →
      Stage1Router.Stamps (2 ^ k) s' w' := by
  induction schedule with
  | nil =>
    intro s s' w w' h _ hexec
    simp only [Stage1Router.exec] at hexec
    split at hexec
    · simp only [Except.ok.injEq, Prod.mk.injEq] at hexec
      obtain ⟨rfl, rfl⟩ := hexec
      exact h
    · exact absurd hexec (by simp)
  | cons as rest ih =>
    intro s s' w w' h hsched hexec
    obtain ⟨hb, hrest⟩ := hsched
    simp only [Stage1Router.exec] at hexec
    split at hexec
    · simp only [Except.ok.injEq, Prod.mk.injEq] at hexec
      obtain ⟨rfl, rfl⟩ := hexec
      exact h
    · split at hexec
      · exact absurd hexec (by simp)
      · next s1 w1 hstep =>
        have henv := Stage1Router.stamps_env k hk as s w h hb
        have hclock := Stage1Router.step_clock _ _ _ _ _ hstep
        have hread := (World.acts_reading _ (2 ^ k) as w hb).1
        refine ih s1 s' w1 w' (Stage1Router.step_stamps k hk s s1 _ w1 henv hstep) ?_ hexec
        rw [hclock, hread]
        exact hrest

theorem Stage2Router.exec_stamps_stage2 (k : Nat) (hk : k < 64)
    (schedule : List (List EnvAction)) :
    ∀ (s s' : Stage2Thread) (w w' : World), Stage2Router.Stamps (2 ^ k) s w →
      EnvAction.TimelySchedule Message.Processed w.get_timestamp_ns schedule →
      Stage2Router.exec (2 ^ k) schedule s w = .ok (s', w') →
      Stage2Router.Stamps (2 ^ k) s' w' := by
  induction schedule with
  | nil =>
    intro s s' w w' h _ hexec
    simp only [Stage2Router.exec] at hexec
    split at hexec
    · simp only [Except.ok.injEq, Prod.mk.injEq] at hexec
      obtain ⟨rfl, rfl⟩ := hexec
      exact h
    · exact absurd hexec (by simp)
  | cons as rest ih =>
    intro s s' w w' h hsched hexec
    obtain ⟨hb, hrest⟩ := hsched
    simp only [Stage2Router.exec] at hexec
    split at hexec
    · simp only [Except.ok.injEq, Prod.mk.injEq] at hexec
      obtain ⟨rfl, rfl⟩ := hexec
      exact h
    · split at hexec
      · exact absurd hexec (by simp)
      · next s1 w1 hstep =>
        have henv := Stage2Router.stamps_env_stage2 k hk as s w h hb
        have hclock := Stage2Router.step_clock_stage2 _ _ _ _ _ hstep
        have hread := (World.acts_reading _ (2 ^ k) as w hb).1
        refine ih s1 s' w1 w'
          (Stage2Router.step_stamps_stage2 k hk s s1 _ w1 henv hstep) ?_ hexec
        rw [hclock, hread]
        exact hrest

theorem Processor.exec_stamps_processor (k : Nat) (hk : k < 64)
    (schedule : List (List EnvAction)) :
    ∀ (s s' : ProcessorThread) (w w' : World), Processor.Stamps (2 ^ k) s w →
      EnvAction.TimelySchedule Message.Routed1 w.get_timestamp_ns schedule →
      Processor.exec (2 ^ k) schedule s w = .ok (s', w') →
      Processor.Stamps (2 ^ k) s' w' := by
  induction schedule with
  | nil =>
    intro s s' w w' h _ hexec
    simp only [Processor.exec] at hexec
    split at hexec
    · simp only [Except.ok.injEq, Prod.mk.injEq] at hexec
      obtain ⟨rfl, rfl⟩ := hexec
      exact h
    · exact absurd hexec (by simp)
  | cons as rest ih =>
    intro s s' w w' h hsched hexec
    obtain ⟨hb, hrest⟩ := hsched
    simp only [Processor.exec] at hexec
    split at hexec
    · simp only [Except.ok.injEq, Prod.mk.injEq] at hexec
      obtain ⟨rfl, rfl⟩ := hexec
      exact h
    · split at hexec
      · exact absurd hexec (by simp)
      · next s1 w1 hstep =>
        have henv := Processor.stamps_env_processor k hk as s w h hb
        have hclock := Processor.step_clock_processor _ _ _ _ _ hstep
        have hread := (World.acts_reading _ (2 ^ k) as w hb).1
        refine ih s1 s' w1 w'
          (Processor.step_stamps_processor k hk s s1 _ w1 henv hstep) ?_ hexec
        rw [hclock, hread]
        exact hrest

theorem Producer.exec_stamps_producer {D : Type} (ops : DoubleOps D) (C duration_secs : Nat)
    (schedule : List (List EnvAction)) :
    ∀ (s s' : ProducerThread D) (w w' : World), Producer.Stamps s w →
      EnvAction.TimelySchedule (fun _ _ => True) w.get_timestamp_ns schedule →
      Producer.exec ops C duration_secs schedule s w = .ok (s', w') →
      Producer.Stamps s' w' := by
  induction schedule with
  | nil =>
    intro s s' w w' h _ hexec
    simp only [Producer.exec] at hexec
    split at hexec
    · simp only [Except.ok.injEq, Prod.mk.injEq] at hexec
      obtain ⟨rfl, rfl⟩ := hexec
      exact h
    · exact absurd hexec (by simp)
  | cons as rest ih =>
    intro s s' w w' h hsched hexec
    obtain ⟨hb, hrest⟩ := hsched
    simp only [Producer.exec] at hexec
    split at hexec
    · simp only [Except.ok.injEq, Prod.mk.injEq] at hexec
      obtain ⟨rfl, rfl⟩ := hexec
      exact h
    · split at hexec
      · exact absurd hexec (by simp)
      · next s1 w1 hstep =>
        have henv := Producer.stamps_env_producer C as s w h hb
        have hclock := Producer.step_clock_producer _ _ _ _ _ _ _ hstep
        have hread := (World.acts_reading _ C as w hb).1
        refine ih s1 s' w1 w'
          (Producer.step_stamps_producer ops C duration_secs s s1 _ w1 henv hstep) ?_ hexec
        rw [hclock, hread]
        exact hrest
theorem Scenario.worldProcessed_timely :
    Scenario.worldProcessed.Timely Message.Processed (2 ^ 2) := by
  have hempty : SPSCQueue.Holds (2 ^ 2) Scenario.emptyQueue ([] : List Message) :=
    SPSCQueue.holds_fresh (2 ^ 2) (by decide) _ (by decide)
  have hfull := (SPSCQueue.holds_push 2 (by decide) Scenario.emptyQueue [] Scenario.msgProcessed
    hempty).2
  intro i q hq
  match i, hq with
  | 0, hq =>
    simp only [Scenario.worldProcessed, List.getElem?_cons_zero, Option.some.injEq] at hq
    subst hq
    refine ⟨_, hfull, ?_⟩
    intro m hm
    simp only [ListQueue.try_push] at hm
    rw [if_pos (by decide)] at hm
    simp only [List.nil_append, List.mem_singleton] at hm
    subst hm
    unfold Message.Processed
    decide
  | 1, hq =>
    simp only [Scenario.worldProcessed, List.getElem?_cons_succ, List.getElem?_cons_zero,
      Option.some.injEq] at hq
    subst hq
    exact ⟨[], hempty, fun m hm => absurd hm (List.not_mem_nil m)⟩
  | i + 2, hq =>
    simp [Scenario.worldProcessed] at hq

/-- C19: assuming successive clock readings are non-decreasing, the stamps of a
message are in order at every hop. (1) Every message a producer pushes has
`timestamp_ns` not later than the clock. (2) If the messages entering the
queues of Stage1 come from producers, every message Stage1 pushes has
`timestamp_ns <= stage1_entry_ns <= stage1_exit_ns`. (3) If the messages
entering the queues of a processor have passed Stage1, every message it pushes
has in addition `stage1_exit_ns <= processing_entry_ns <= processing_exit_ns`.
(4) If the messages entering the queues of Stage2 have passed a producer, Stage1
and a processor, every message Stage2 pushes to a strategy queue satisfies
`timestamp_ns <= stage1_entry_ns <= stage1_exit_ns <= processing_entry_ns <=
processing_exit_ns <= stage2_entry_ns <= stage2_exit_ns`. -/
theorem phase_timestamps_non_decreasing (k : Nat) (hk : k < 64) :
    (∀ (D : Type) (ops : DoubleOps D) (duration_secs : Nat) (schedule : List (List EnvAction))
        (p : Producer D) (w w' : World) (s' : ProducerThread D),
      EnvAction.TimelySchedule (fun _ _ => True) w.get_timestamp_ns schedule →
      Producer.run ops (2 ^ k) duration_secs schedule p w = .ok (s', w') →
      ∀ j m, Event.pushed j m ∈ s'.log → m.Produced w'.get_timestamp_ns) ∧
    (∀ (schedule : List (List EnvAction)) (r : Stage1Router) (w w' : World)
        (s' : Stage1Thread),
      w.Timely Message.Produced (2 ^ k) →
      EnvAction.TimelySchedule Message.Produced w.get_timestamp_ns schedule →
      Stage1Router.run (2 ^ k) schedule r w = .ok (s', w') →
      ∀ j m, Event.pushed j m ∈ s'.log → m.Routed1 w'.get_timestamp_ns) ∧
    (∀ (schedule : List (List EnvAction)) (p : Processor) (w w' : World)
        (s' : ProcessorThread),
      w.Timely Message.Routed1 (2 ^ k) →
      EnvAction.TimelySchedule Message.Routed1 w.get_timestamp_ns schedule →
      Processor.run (2 ^ k) schedule p w = .ok (s', w') →
      ∀ j m, Event.pushed j m ∈ s'.log → m.Processed w'.get_timestamp_ns) ∧
    (∀ (schedule : List (List EnvAction)) (r : Stage2Router) (w w' : World)
        (s' : Stage2Thread),
      w.Timely Message.Processed (2 ^ k) →
      EnvAction.TimelySchedule Message.Processed w.get_timestamp_ns schedule →
      Stage2Router.run (2 ^ k) schedule r w = .ok (s', w') →
      ∀ j m, Event.pushed j m ∈ s'.log →
        m.timestamp_ns ≤ m.stage1_entry_ns ∧ m.stage1_entry_ns ≤ m.stage1_exit_ns ∧
        m.stage1_exit_ns ≤ m.processing_entry_ns ∧
        m.processing_entry_ns ≤ m.processing_exit_ns ∧
        m.processing_exit_ns ≤ m.stage2_entry_ns ∧ m.stage2_entry_ns ≤ m.stage2_exit_ns) := by
  refine ⟨?_, ?_, ?_, ?_⟩
  · intro D ops duration_secs schedule p w w' s' hsched hrun
    exact (Producer.exec_stamps_producer ops (2 ^ k) duration_secs schedule _ s' w w'
      ⟨fun j m hm => absurd hm (List.not_mem_nil _), trivial⟩ hsched hrun).1
  · intro schedule r w w' s' hw hsched hrun
    exact (Stage1Router.exec_stamps k hk schedule _ s' w w'
      ⟨hw, fun j m hm => absurd hm (List.not_mem_nil _), trivial⟩ hsched hrun).2.1
  · intro schedule p w w' s' hw hsched hrun
    exact (Processor.exec_stamps_processor k hk schedule _ s' w w'
      ⟨hw, fun j m hm => absurd hm (List.not_mem_nil _), trivial⟩ hsched hrun).2.1
  · intro schedule r w w' s' hw hsched hrun j m hm
    have := (Stage2Router.exec_stamps_stage2 k hk schedule _ s' w w'
      ⟨hw, fun j m hm => absurd hm (List.not_mem_nil _), trivial⟩ hsched hrun).2.1 j m hm
    unfold Message.Delivered at this
    exact ⟨this.1, this.2.1, this.2.2.1, this.2.2.2.1, this.2.2.2.2.1, this.2.2.2.2.2.1⟩

theorem phase_timestamps_non_decreasing_witness :
    ∃ s w, Stage2Router.run (2 ^ 2) Scenario.stopAfterFirstPop Scenario.stage2
        Scenario.worldProcessed = .ok (s, w) ∧
      s.log = [Event.popped 0 Scenario.msgProcessed,
        Event.pushed 0 { Scenario.msgProcessed with stage2_entry_ns := 5,
                                                    stage2_exit_ns := 9 }] ∧
      ∀ j m, Event.pushed j m ∈ s.log →
        m.timestamp_ns ≤ m.stage1_entry_ns ∧ m.stage1_entry_ns ≤ m.stage1_exit_ns ∧
        m.stage1_exit_ns ≤ m.processing_entry_ns ∧
        m.processing_entry_ns ≤ m.processing_exit_ns ∧
        m.processing_exit_ns ≤ m.stage2_entry_ns ∧ m.stage2_entry_ns ≤ m.stage2_exit_ns :=
  ⟨_, _, rfl, rfl,
    (phase_timestamps_non_decreasing 2 (by decide)).2.2.2 Scenario.stopAfterFirstPop
      Scenario.stage2 Scenario.worldProcessed _ _ Scenario.worldProcessed_timely
      ⟨trivial, trivial,
        ⟨(by decide : 5 % SIZE_T_MOD ≤ 9 % SIZE_T_MOD), trivial, trivial⟩,
        trivial, trivial, trivial⟩ rfl⟩

/-! ## Messages of one producer and one type keep their order -/

theorem Stage1Router.select_processor_single (r : Stage1Router) (t j : Nat)
    (h : UnorderedMap.find r.routing_table_ t = some [j]) :
    Stage1Router.select_processor r t = .ok (j, r) := by
  simp [Stage1Router.select_processor, h]

theorem Stage1Router.routes_of_for_next (table : List (Nat × List Nat)) (r : Stage1Router)
    (log : List Event) (n i : Nat) (b : Bool) (ht : r.routing_table_ = table)
    (h : Forwarded (fun a j b => a.same_identity b ∧
      ∀ j', UnorderedMap.find table a.msg_type = some [j'] → j = j') log) :
    Stage1Router.Routes table { router := r, pc := RouterPC.for_next n i b, log := log } := by
  refine ⟨ht, ?_⟩
  rcases RouterPC.for_next_cases n i b with hc | hc <;> simp only [hc] <;> exact h

theorem Stage1Router.step_routes (C : Nat) (table : List (Nat × List Nat))
    (s s' : Stage1Thread) (w w' : World) (hinv : Stage1Router.Routes table s)
    (hstep : Stage1Router.step C s w = .ok (s', w')) : Stage1Router.Routes table s' := by
  obtain ⟨router, pc, log⟩ := s
  obtain ⟨ht, hinv⟩ := hinv
  simp only at ht hinv
  cases pc with
  | returned =>
    simp only [Stage1Router.step, Except.ok.injEq, Prod.mk.injEq] at hstep
    rw [← hstep.1]; exact ⟨ht, hinv⟩
  | loop_head =>
    simp only [Stage1Router.step] at hstep
    split at hstep <;> simp only [Except.ok.injEq, Prod.mk.injEq] at hstep <;> rw [← hstep.1]
    · exact Stage1Router.routes_of_for_next _ _ _ _ _ _ ht hinv
    · exact ⟨ht, hinv⟩
  | poll i any =>
    simp only [Stage1Router.step] at hstep
    split at hstep
    · exact absurd hstep (by simp)
    · split at hstep
      · split at hstep
        · exact absurd hstep (by simp)
        · next pid router' hsel =>
          simp only [Except.ok.injEq, Prod.mk.injEq] at hstep
          rw [← hstep.1]
          have hframe := Stage1Router.select_processor_frame _ _ _ _ hsel
          refine ⟨hframe.1.trans ht, log, _, rfl, hinv, ⟨rfl, rfl, rfl⟩, ?_⟩
          intro j' hj'
          rw [← ht] at hj'
          have := Stage1Router.select_processor_single router _ j' hj'
          rw [this] at hsel
          simp only [Except.ok.injEq, Prod.mk.injEq] at hsel
          exact hsel.1.symm
      · simp only [Except.ok.injEq, Prod.mk.injEq] at hstep
        rw [← hstep.1]
        exact Stage1Router.routes_of_for_next _ _ _ _ _ _ ht hinv
  | retry i any msg target =>
    obtain ⟨log0, m, hlog, hf, hm, htarget⟩ := hinv
    simp only [Stage1Router.step] at hstep
    split at hstep
    · exact absurd hstep (by simp)
    · split at hstep <;> simp only [Except.ok.injEq, Prod.mk.injEq] at hstep <;>
        rw [← hstep.1]
      · apply Stage1Router.routes_of_for_next _ _ _ _ _ _ ht
        simp only [hlog, List.append_assoc, List.singleton_append]
        exact Forwarded.snoc log0 i target m _ hf ⟨hm, htarget⟩
      · exact ⟨ht, log0, m, hlog, hf, hm, htarget⟩

theorem Stage1Router.exec_routes (C : Nat) (table : List (Nat × List Nat))
    (schedule : List (List EnvAction)) :
    ∀ (s s' : Stage1Thread) (w w' : World), Stage1Router.Routes table s →
      Stage1Router.exec C schedule s w = .ok (s', w') →
      Forwarded (fun a j b => a.same_identity b ∧
        ∀ j', UnorderedMap.find table a.msg_type = some [j'] → j = j') s'.log := by
  induction schedule with
  | nil =>
    intro s s' w w' h hexec
    simp only [Stage1Router.exec] at hexec
    split at hexec
    · next hpc =>
      simp only [Except.ok.injEq, Prod.mk.injEq] at hexec
      obtain ⟨rfl, rfl⟩ := hexec
      have := h.2
      rw [hpc] at this
      exact this
    · exact absurd hexec (by simp)
  | cons as rest ih =>
    intro s s' w w' h hexec
    simp only [Stage1Router.exec] at hexec
    split at hexec
    · next hpc =>
      simp only [Except.ok.injEq, Prod.mk.injEq] at hexec
      obtain ⟨rfl, rfl⟩ := hexec
      have := h.2
      rw [hpc] at this
      exact this
    · split at hexec
      · exact absurd hexec (by simp)
      · next s1 w1 hstep =>
        exact ih s1 s' w1 w' (Stage1Router.step_routes C table s s1 _ w1 h hstep) hexec
theorem Message.same_identity_refl (m : Message) : m.same_identity m := ⟨rfl, rfl, rfl⟩

theorem Processor.step_keeps (C : Nat) (s s' : ProcessorThread) (w w' : World)
    (hinv : Processor.Keeps s) (hstep : Processor.step C s w = .ok (s', w')) :
    Processor.Keeps s' := by
  obtain ⟨processor, pc, log⟩ := s
  cases pc with
  | returned =>
    simp only [Processor.step, Except.ok.injEq, Prod.mk.injEq] at hstep
    rw [← hstep.1]; exact hinv
  | loop_head =>
    simp only [Processor.step] at hstep
    split at hstep <;> simp only [Except.ok.injEq, Prod.mk.injEq] at hstep <;>
      rw [← hstep.1] <;> exact hinv
  | poll =>
    simp only [Processor.step] at hstep
    split at hstep
    · exact absurd hstep (by simp)
    · next q hq =>
      split at hstep
      · simp only [Except.ok.injEq, Prod.mk.injEq] at hstep
        rw [← hstep.1]
        have hk : ∃ log0 m, log ++ [Event.popped 0 (q.try_pop C Message.new).2.1] =
            log0 ++ [Event.popped 0 m] ∧ Handled Message.same_identity log0 ∧
            m.same_identity { (q.try_pop C Message.new).2.1 with
              processing_entry_ns := w.get_timestamp_ns, processor_id := processor.id_ } :=
          ⟨log, _, rfl, hinv, ⟨rfl, rfl, rfl⟩⟩
        by_cases hpt : processor.get_processing_time
            (q.try_pop C Message.new).2.1.msg_type > 0
        · simp only [Processor.Keeps, hpt, if_true]
          exact hk
        · simp only [Processor.Keeps, hpt, if_false]
          exact hk
      · simp only [Except.ok.injEq, Prod.mk.injEq] at hstep
        rw [← hstep.1]
        exact hinv
  | wait_start msg ns =>
    simp only [Processor.step, Except.ok.injEq, Prod.mk.injEq] at hstep
    rw [← hstep.1]
    exact hinv
  | waiting msg ns start =>
    simp only [Processor.step] at hstep
    split at hstep <;> simp only [Except.ok.injEq, Prod.mk.injEq] at hstep <;>
      rw [← hstep.1] <;> exact hinv
  | stamp_exit msg =>
    simp only [Processor.step, Except.ok.injEq, Prod.mk.injEq] at hstep
    rw [← hstep.1]
    obtain ⟨log0, m, hlog, hh, hm⟩ := hinv
    exact ⟨log0, m, hlog, hh, hm⟩
  | push_head msg =>
    simp only [Processor.step] at hstep
    split at hstep
    · simp only [Except.ok.injEq, Prod.mk.injEq] at hstep
      rw [← hstep.1]
      exact hinv
    · simp only [Except.ok.injEq, Prod.mk.injEq] at hstep
      rw [← hstep.1]
      obtain ⟨log0, m, hlog, hh, -⟩ := hinv
      show Handled Message.same_identity log
      simp only at hlog
      rw [hlog]
      exact Handled.dropped log0 m hh
  | push msg =>
    simp only [Processor.step] at hstep
    split at hstep
    · exact absurd hstep (by simp)
    · split at hstep
      · simp only [Except.ok.injEq, Prod.mk.injEq] at hstep
        rw [← hstep.1]
        obtain ⟨log0, m, hlog, hh, hm⟩ := hinv
        show Handled Message.same_identity (log ++ [Event.pushed 0 msg])
        simp only at hlog
        rw [hlog, List.append_assoc, List.singleton_append]
        exact Handled.pushed log0 m msg hh hm
      · simp only [Except.ok.injEq, Prod.mk.injEq] at hstep
        rw [← hstep.1]
        exact hinv

theorem Processor.exec_keeps (C : Nat) (schedule : List (List EnvAction)) :
    ∀ (s s' : ProcessorThread) (w w' : World), Processor.Keeps s →
      Processor.exec C schedule s w = .ok (s', w') →
      Handled Message.same_identity s'.log := by
  induction schedule with
  | nil =>
    intro s s' w w' h hexec
    simp only [Processor.exec] at hexec
    split at hexec
    · next hpc =>
      simp only [Except.ok.injEq, Prod.mk.injEq] at hexec
      obtain ⟨rfl, rfl⟩ := hexec
      unfold Processor.Keeps at h
      rw [hpc] at h
      exact h
    · exact absurd hexec (by simp)
  | cons as rest ih =>
    intro s s' w w' h hexec
    simp only [Processor.exec] at hexec
    split at hexec
    · next hpc =>
      simp only [Except.ok.injEq, Prod.mk.injEq] at hexec
      obtain ⟨rfl, rfl⟩ := hexec
      unfold Processor.Keeps at h
      rw [hpc] at h
      exact h
    · split at hexec
      · exact absurd hexec (by simp)
      · next s1 w1 hstep =>
        exact ih s1 s' w1 w' (Processor.step_keeps C s s1 _ w1 h hstep) hexec
theorem Event.popped_msgs_append (a b : List Event) :
    Event.popped_msgs (a ++ b) = Event.popped_msgs a ++ Event.popped_msgs b := by
  simp [Event.popped_msgs, List.filterMap_append]

theorem Event.pushed_msgs_append (a b : List Event) :
    Event.pushed_msgs (a ++ b) = Event.pushed_msgs a ++ Event.pushed_msgs b := by
  simp [Event.pushed_msgs, List.filterMap_append]

theorem Delivery.stream_append (p t : Nat) (a b : List Message) :
    Delivery.stream p t (a ++ b) = Delivery.stream p t a ++ Delivery.stream p t b := by
  simp [Delivery.stream, List.filter_append]

theorem Delivery.stream_sublist (p t : Nat) {a b : List Message} (h : a.Sublist b) :
    (Delivery.stream p t a).Sublist (Delivery.stream p t b) :=
  (h.filter _).map _

theorem Delivery.stream_singleton_congr (p t : Nat) (m m' : Message)
    (h : m.same_identity m') : Delivery.stream p t [m'] = Delivery.stream p t [m] := by
  obtain ⟨h1, h2, h3⟩ := h
  simp only [Delivery.stream, List.filter_cons, List.filter_nil, Message.from_of, h1, h2]
  split <;> simp [h3]

theorem Forwarded.stream_eq {R : Message → Nat → Message → Prop} {log : List Event}
    (hR : ∀ m j m', R m j m' → m.same_identity m') (hf : Forwarded R log) (p t : Nat) :
    Delivery.stream p t (Event.pushed_msgs log) =
      Delivery.stream p t (Event.popped_msgs log) := by
  induction hf with
  | nil => rfl
  | snoc log i j m m' _ hr ih =>
    rw [Event.pushed_msgs_append, Event.popped_msgs_append, Delivery.stream_append,
      Delivery.stream_append, ih]
    congr 1
    exact Delivery.stream_singleton_congr p t m m' (hR _ _ _ hr)

theorem Forwarded.pushed_rel {R : Message → Nat → Message → Prop} {log : List Event}
    (hf : Forwarded R log) :
    ∀ j m', Event.pushed j m' ∈ log → ∃ m, R m j m' := by
  induction hf with
  | nil => intro j m' h; exact absurd h (List.not_mem_nil _)
  | snoc log i j0 m0 m0' _ hr ih =>
    intro j m' h
    rcases List.mem_append.1 h with h | h
    · exact ih j m' h
    · simp only [List.mem_cons, reduceCtorEq, Event.pushed.injEq, List.mem_singleton,
        false_or, List.not_mem_nil, or_false] at h
      obtain ⟨rfl, rfl⟩ := h
      exact ⟨m0, hr⟩

theorem Handled.pushed_stream_sublist {log : List Event} (hh : Handled Message.same_identity log)
    (p t : Nat) :
    (Delivery.stream p t (Event.pushed_msgs log)).Sublist
      (Delivery.stream p t (Event.popped_msgs log)) := by
  induction hh with
  | nil => exact List.Sublist.refl _
  | pushed log m m' _ hr ih =>
    rw [Event.pushed_msgs_append, Event.popped_msgs_append, Delivery.stream_append,
      Delivery.stream_append]
    refine ih.append ?_
    have : Delivery.stream p t (Event.pushed_msgs [Event.popped 0 m, Event.pushed 0 m']) =
        Delivery.stream p t (Event.popped_msgs [Event.popped 0 m, Event.pushed 0 m']) :=
      Delivery.stream_singleton_congr p t m m' hr
    rw [this]
  | dropped log m _ ih =>
    rw [Event.pushed_msgs_append, Event.popped_msgs_append, Delivery.stream_append,
      Delivery.stream_append]
    exact ih.append (List.nil_sublist _)

theorem Handled.pushed_origin {log : List Event} (hh : Handled Message.same_identity log) :
    ∀ m', m' ∈ Event.pushed_msgs log → ∃ m, m ∈ Event.popped_msgs log ∧ m.same_identity m' := by
  induction hh with
  | nil => intro m' h; simp [Event.pushed_msgs] at h
  | pushed log m0 m0' _ hr ih =>
    intro m' h
    rw [Event.pushed_msgs_append] at h
    rw [Event.popped_msgs_append]
    rcases List.mem_append.1 h with h | h
    · obtain ⟨m, hm, hs⟩ := ih m' h
      exact ⟨m, List.mem_append_left _ hm, hs⟩
    · simp only [Event.pushed_msgs, List.filterMap_cons, List.filterMap_nil,
        List.mem_singleton] at h
      subst h
      exact ⟨m0, List.mem_append_right _ (by simp [Event.popped_msgs]), hr⟩
  | dropped log m0 _ ih =>
    intro m' h
    rw [Event.pushed_msgs_append] at h
    rw [Event.popped_msgs_append]
    rcases List.mem_append.1 h with h | h
    · obtain ⟨m, hm, hs⟩ := ih m' h
      exact ⟨m, List.mem_append_left _ hm, hs⟩
    · simp [Event.pushed_msgs] at h

theorem Event.mem_popped_from (i : Nat) (m : Message) (log : List Event) :
    m ∈ Event.popped_from i log ↔ Event.popped i m ∈ log := by
  induction log with
  | nil => simp [Event.popped_from]
  | cons e log ih =>
    cases e with
    | popped i' m' =>
      by_cases h : i' = i
      · subst h
        simp only [Event.popped_from, List.filterMap_cons, if_true, List.mem_cons,
          Event.popped.injEq, true_and] at ih ⊢
        rw [ih]
      · simp only [Event.popped_from, List.filterMap_cons, if_neg h, List.mem_cons,
          Event.popped.injEq] at ih ⊢
        rw [ih]
        constructor
        · intro hm; exact Or.inr hm
        · rintro (⟨rfl, -⟩ | hm)
          · exact absurd rfl h
          · exact hm
    | pushed j m' =>
      simp only [Event.popped_from, List.filterMap_cons, List.mem_cons, reduceCtorEq,
        false_or] at ih ⊢
      exact ih

theorem Event.mem_pushed_to (j : Nat) (m : Message) (log : List Event) :
    m ∈ Event.pushed_to j log ↔ Event.pushed j m ∈ log := by
  induction log with
  | nil => simp [Event.pushed_to]
  | cons e log ih =>
    cases e with
    | pushed j' m' =>
      by_cases h : j' = j
      · subst h
        simp only [Event.pushed_to, List.filterMap_cons, if_true, List.mem_cons,
          Event.pushed.injEq, true_and] at ih ⊢
        rw [ih]
      · simp only [Event.pushed_to, List.filterMap_cons, if_neg h, List.mem_cons,
          Event.pushed.injEq] at ih ⊢
        rw [ih]
        constructor
        · intro hm; exact Or.inr hm
        · rintro (⟨rfl, -⟩ | hm)
          · exact absurd rfl h
          · exact hm
    | popped i m' =>
      simp only [Event.pushed_to, List.filterMap_cons, List.mem_cons, reduceCtorEq,
        false_or] at ih ⊢
      exact ih

theorem Event.pushed_to_sublist (j : Nat) (log : List Event) :
    (Event.pushed_to j log).Sublist (Event.pushed_msgs log) := by
  induction log with
  | nil => exact List.Sublist.refl _
  | cons e log ih =>
    cases e with
    | pushed j' m' =>
      by_cases h : j' = j
      · simp only [Event.pushed_to, Event.pushed_msgs, List.filterMap_cons, if_pos h] at ih ⊢
        exact ih.cons₂ _
      · simp only [Event.pushed_to, Event.pushed_msgs, List.filterMap_cons, if_neg h] at ih ⊢
        exact ih.cons _
    | popped i m' =>
      simp only [Event.pushed_to, Event.pushed_msgs, List.filterMap_cons] at ih ⊢
      exact ih

theorem Event.stream_popped_from (j p t : Nat) (log : List Event)
    (h : ∀ i m, Event.popped i m ∈ log → Message.from_of p t m = true → i = j) :
    Delivery.stream p t (Event.popped_msgs log) =
      Delivery.stream p t (Event.popped_from j log) := by
  induction log with
  | nil => rfl
  | cons e log ih =>
    have ih' := ih (fun i m hm hk => h i m (List.mem_cons_of_mem _ hm) hk)
    cases e with
    | pushed j' m' =>
      simp only [Event.popped_msgs, Event.popped_from, List.filterMap_cons] at ih' ⊢
      exact ih'
    | popped i m =>
      by_cases hi : i = j
      · simp only [Event.popped_msgs, Event.popped_from, List.filterMap_cons, if_pos hi,
          Delivery.stream, List.filter_cons] at ih' ⊢
        split
        · simp only [List.map_cons]; rw [ih']
        · exact ih'
      · have hk : Message.from_of p t m = false := by
          cases hf : Message.from_of p t m with
          | false => rfl
          | true => exact absurd (h i m (List.mem_cons_self _ _) hf) hi
        simp only [Event.popped_msgs, Event.popped_from, List.filterMap_cons, if_neg hi,
          Delivery.stream, List.filter_cons, hk] at ih' ⊢
        exact ih'
theorem Stage1Router.select_all_table (calls : List Nat) :
    ∀ (r r' : Stage1Router) (results : List Nat),
      Stage1Router.select_all r calls = .ok (results, r') →
      r'.routing_table_ = r.routing_table_ := by
  induction calls with
  | nil =>
    intro r r' results h
    simp only [Stage1Router.select_all, Except.ok.injEq, Prod.mk.injEq] at h
    rw [← h.2]
  | cons t0 ts ih =>
    intro r r' results h
    obtain ⟨p, r1, rest, h1, h2, -⟩ := Stage1Router.select_all_cons r t0 ts results r' h
    exact (ih r1 r' rest h2).trans (Stage1Router.select_processor_frame r r1 t0 p h1).1

theorem Message.same_identity_of_restamped2 (m m' : Message) (h : m.restamped2 m') :
    m.same_identity m' := by
  unfold Message.restamped2 at h
  rw [h]
  exact ⟨rfl, rfl, rfl⟩

/-- C11: let the Stage1 rule in force for the type `t` have the single
candidate `j`. (1) Whatever calls came before, `select_processor(t)` returns
`j`. (2) In any run of Stage1 every message of type `t` is pushed to output
`j`, and (3) in any run of Stage2 every message of type `t` is pushed to the
one output that is the destination of `t`. (4) With every hop a FIFO queue
(what processor `i` pops is, in order, among what Stage1 pushed to its output
`i`, and what Stage2 pops from its input `i` is, in order, among what processor
`i` pushed), if the messages of producer `p` and type `t` reach Stage1 with
strictly increasing sequence numbers, then the sequence numbers of the
messages of `p` and `t` that Stage2 pushes to the strategy queue are strictly
increasing. -/
theorem single_candidate_keeps_order (C : Nat) (rules1 : List Stage1Rule)
    (rules2 : List Stage2Rule) (ins1 outs1 ins2 outs2 : List Nat)
    (hlt : outs2.length < 256) (t j : Nat)
    (hrule : Stage1Router.rule_for rules1 t = some [j])
    (schedule1 : List (List EnvAction)) (w1 w1' : World) (s1 : Stage1Thread)
    (hrun1 : Stage1Router.run C schedule1 (Stage1Router.new rules1 ins1 outs1) w1
      = .ok (s1, w1'))
    (sP : Nat → ProcessorThread)
    (hrunP : ∀ i, ∃ schedule proc w w', Processor.run C schedule proc w = .ok (sP i, w'))
    (schedule2 : List (List EnvAction)) (w2 w2' : World) (s2 : Stage2Thread)
    (hrun2 : Stage2Router.run C schedule2 (Stage2Router.new rules2 ins2 outs2) w2
      = .ok (s2, w2'))
    (fifo1 : ∀ i, (Event.popped_msgs (sP i).log).Sublist (Event.pushed_to i s1.log))
    (fifo2 : ∀ i, (Event.popped_from i s2.log).Sublist (Event.pushed_msgs (sP i).log))
    (p : Nat)
    (hprod : List.Sorted (fun a b => a < b) (Delivery.stream p t (Event.popped_msgs s1.log))) :
    (∀ (calls results : List Nat) (r' : Stage1Router),
      Stage1Router.select_all (Stage1Router.new rules1 ins1 outs1) calls = .ok (results, r') →
      Stage1Router.select_processor r' t = .ok (j, r')) ∧
    (∀ j' m, Event.pushed j' m ∈ s1.log → m.msg_type = t → j' = j) ∧
    (∀ j' m, Event.pushed j' m ∈ s2.log → m.msg_type = t →
      j' = Stage2Router.destination rules2 outs2.length t) ∧
    List.Sorted (fun a b => a < b) (Delivery.stream p t (Event.pushed_msgs s2.log)) := by
  have hfind : UnorderedMap.find (Stage1Router.new rules1 ins1 outs1).routing_table_ t
      = some [j] := by
    rw [Stage1Router.find_new]; exact hrule
  have hF1 := Stage1Router.exec_routes C (Stage1Router.new rules1 ins1 outs1).routing_table_
    schedule1 _ s1 w1 w1' ⟨rfl, Forwarded.nil⟩ hrun1
  have hF2 := Stage2Router.run_forwarded_stage2 C schedule2 _ w2 s2 w2' hrun2
  have h1 : ∀ j' m, Event.pushed j' m ∈ s1.log → m.msg_type = t → j' = j := by
    intro j' m hm ht
    obtain ⟨m0, hs, hj⟩ := hF1.pushed_rel j' m hm
    apply hj
    rw [← hs.2.1, ht]
    exact hfind
  have h2 : ∀ j' m, Event.pushed j' m ∈ s2.log → m.msg_type = t →
      j' = Stage2Router.destination rules2 outs2.length t := by
    intro j' m hm ht
    obtain ⟨m0, hs, hj⟩ := hF2.pushed_rel j' m hm
    have hid := Message.same_identity_of_restamped2 m0 m hs
    rw [← hid.2.1, ht] at hj
    exact Stage2Router.select_strategy_new rules2 ins2 outs2 t j' hlt hj
  refine ⟨?_, h1, h2, ?_⟩
  · intro calls results r' hcalls
    apply Stage1Router.select_processor_single
    rw [Stage1Router.select_all_table calls _ r' results hcalls]
    exact hfind
  · have hHandled : ∀ i, Handled Message.same_identity (sP i).log := by
      intro i
      obtain ⟨schedule, proc, w, w', hrun⟩ := hrunP i
      exact Processor.exec_keeps C schedule { processor := proc, pc := .loop_head, log := [] }
        (sP i) w w' (Handled.nil : Handled Message.same_identity []) hrun
    have hfrom : ∀ i m, Event.popped i m ∈ s2.log → Message.from_of p t m = true → i = j := by
      intro i m hm hk
      have hm1 : m ∈ Event.pushed_msgs (sP i).log :=
        (fifo2 i).subset ((Event.mem_popped_from i m _).2 hm)
      obtain ⟨m0, hm0, hs⟩ := (hHandled i).pushed_origin m hm1
      have hm2 : Event.pushed i m0 ∈ s1.log :=
        (Event.mem_pushed_to i m0 _).1 ((fifo1 i).subset hm0)
      apply h1 i m0 hm2
      simp only [Message.from_of, Bool.and_eq_true, decide_eq_true_eq] at hk
      rw [← hs.2.1]
      exact hk.2
    have e1 := hF2.stream_eq
      (fun m _ m' hr => Message.same_identity_of_restamped2 m m' hr.1) p t
    have e2 := Event.stream_popped_from j p t s2.log hfrom
    have e3 := Delivery.stream_sublist p t (fifo2 j)
    have e4 := (hHandled j).pushed_stream_sublist p t
    have e5 := Delivery.stream_sublist p t (fifo1 j)
    have e6 := Delivery.stream_sublist p t (Event.pushed_to_sublist j s1.log)
    have e7 := hF1.stream_eq (fun m _ m' hr => hr.1) p t
    rw [e1, e2]
    rw [e7] at e6
    exact hprod.sublist (((e3.trans e4).trans e5).trans e6)
theorem Scenario.processed_runs :
    ∀ i, ∃ schedule proc w w',
      Processor.run 4 schedule proc w = .ok (Scenario.processed i, w') := by
  intro i
  cases i with
  | zero =>
    exact ⟨Scenario.processTwo, Scenario.processorFast,
      Scenario.worldOf Scenario.msgA1 Scenario.msgB1, _, rfl⟩
  | succ i =>
    exact ⟨[[EnvAction.store_running false]], Scenario.processorFast,
      Scenario.worldOf Scenario.msgA1 Scenario.msgB1, _, rfl⟩

theorem single_candidate_keeps_order_witness :
    ∃ w1 w2,
      Stage1Router.run 4 Scenario.forwardTwo Scenario.stage1
          (Scenario.worldOf Scenario.msgA Scenario.msgB) =
        .ok ({ router := Scenario.stage1, pc := .returned, log := Scenario.log1 }, w1) ∧
      Stage2Router.run 4 Scenario.forwardTwo Scenario.stage2
          (Scenario.worldOf Scenario.msgA2 Scenario.msgB2) =
        .ok ({ router := Scenario.stage2, pc := .returned, log := Scenario.log2 }, w2) ∧
      Delivery.stream 0 3 (Event.pushed_msgs Scenario.log2) = [1, 2] ∧
      (∀ j' m, Event.pushed j' m ∈ Scenario.log1 → m.msg_type = 3 → j' = 0) ∧
      List.Sorted (fun a b => a < b) (Delivery.stream 0 3 (Event.pushed_msgs Scenario.log2)) :=
  have h := single_candidate_keeps_order 4 [⟨3, [0]⟩] [⟨3, 0, true⟩] [0] [1] [0] [1]
    (by decide) 3 0 (by decide) Scenario.forwardTwo
    (Scenario.worldOf Scenario.msgA Scenario.msgB) _
    { router := Scenario.stage1, pc := .returned, log := Scenario.log1 } rfl
    Scenario.processed Scenario.processed_runs Scenario.forwardTwo
    (Scenario.worldOf Scenario.msgA2 Scenario.msgB2) _
    { router := Scenario.stage2, pc := .returned, log := Scenario.log2 } rfl
    (by intro i; cases i with
        | zero => decide
        | succ i => exact List.nil_sublist _)
    (by intro i; cases i with
        | zero => decide
        | succ i =>
          have : Event.popped_from (i + 1) Scenario.log2 = [] := by
            simp [Event.popped_from, Scenario.log2]
          rw [this]
          exact List.nil_sublist _)
    0 (by decide)
  ⟨_, _, rfl, rfl, by decide, h.2.1, h.2.2.2⟩

/-! ## Indices of the ring buffer stay in bounds -/

/-- C30: in every state reached from a freshly constructed queue of capacity
parameter `C = 2 ^ k` (with its array of `C` slots) by any sequence of
`try_push` / `try_pop` calls, `head_` and `tail_` are `< C`, so the slot read by
the next `try_pop` and the slot written by the next `try_push` lie inside
`buffer_`; a power of two passes the `static_assert`, and for it
`(x + 1) & (C - 1)` equals `(x + 1) mod C` for every `x` (in particular for
every `x < C`). -/
theorem SPSCQueue.indices_in_bounds {T : Type} (k : Nat) (hk : k < 64) (slots : List T)
    (hlen : slots.length = 2 ^ k) (calls : List (SPSCQueue.Call T)) :
    (SPSCQueue.run (2 ^ k) (SPSCQueue.fresh slots) calls).2.head_ < 2 ^ k ∧
    (SPSCQueue.run (2 ^ k) (SPSCQueue.fresh slots) calls).2.tail_ < 2 ^ k ∧
    (SPSCQueue.run (2 ^ k) (SPSCQueue.fresh slots) calls).2.buffer_.length = 2 ^ k ∧
    (SPSCQueue.run (2 ^ k) (SPSCQueue.fresh slots) calls).2.head_ <
      (SPSCQueue.run (2 ^ k) (SPSCQueue.fresh slots) calls).2.buffer_.length ∧
    (SPSCQueue.run (2 ^ k) (SPSCQueue.fresh slots) calls).2.tail_ <
      (SPSCQueue.run (2 ^ k) (SPSCQueue.fresh slots) calls).2.buffer_.length ∧
    SPSCQueue.static_assert_capacity (2 ^ k) = true ∧
    (∀ x, SPSCQueue.advance (2 ^ k) x = (x + 1) % 2 ^ k) ∧
    (∀ x, x < 2 ^ k → SPSCQueue.advance (2 ^ k) x < 2 ^ k) := by
  have hpos : 0 < 2 ^ k := Nat.pos_pow_of_pos k (by decide)
  obtain ⟨-, hh, ht, hb, -, -⟩ :=
    SPSCQueue.holds_run k hk calls (SPSCQueue.fresh slots) []
      (SPSCQueue.holds_fresh (2 ^ k) hpos slots hlen)
  refine ⟨hh, ht, hb, by rw [hb]; exact hh, by rw [hb]; exact ht, ?_,
    fun x => advance_pow_two k hk x, fun x _ => ?_⟩
  · unfold SPSCQueue.static_assert_capacity
    rw [mask_pow_two k hk, Nat.and_pow_two_sub_one_eq_mod, Nat.mod_self]
    rfl
  · rw [advance_pow_two k hk]
    exact Nat.mod_lt _ hpos

theorem SPSCQueue.indices_in_bounds_witness :
    (SPSCQueue.run (2 ^ 2) (SPSCQueue.fresh [0, 0, 0, 0])
      [.push 7, .push 8, .push 9, .push 10, .pop 0, .push 11, .pop 0]).2
      = { head_ := 2, tail_ := 0, buffer_ := [7, 8, 9, 11] } ∧
    (SPSCQueue.run (2 ^ 2) (SPSCQueue.fresh [0, 0, 0, 0])
      [.push 7, .push 8, .push 9, .push 10, .pop 0, .push 11, .pop 0]).2.tail_ < 2 ^ 2 ∧
    SPSCQueue.advance (2 ^ 2) 3 = 0 :=
  ⟨by decide,
   (SPSCQueue.indices_in_bounds 2 (by decide) [0, 0, 0, 0] (by decide)
     [.push 7, .push 8, .push 9, .push 10, .pop 0, .push 11, .pop 0]).2.1,
   by decide⟩

/-! ## The distribution does not enter the verdict of `validate` -/

/-- The value `validate` returns, computed without the distribution: the
chain of early returns with the warning left out. -/
theorem SystemConfig.validate_snd {D : Type} (ops : DoubleOps D) (cfg : SystemConfig D) :
    (cfg.validate ops).2 =
      (if cfg.duration_secs = 0 then false
       else if cfg.producers.count = 0 ∨ cfg.producers.count > 16 then false
       else if cfg.processors.count = 0 ∨ cfg.processors.count > 16 then false
       else if cfg.strategies.count = 0 ∨ cfg.strategies.count > 16 then false
       else if cfg.stage1_rules.isEmpty then false
       else if (SystemConfig.stage1_rules_error cfg.processors.count cfg.stage1_rules :
          Option (Diagnostic D)).isSome then false
       else if cfg.stage2_rules.isEmpty then false
       else if (cfg.stage2_rules.find?
          (fun rule => decide (rule.strategy ≥ cfg.strategies.count))).isSome then false
       else true) := by
  unfold SystemConfig.validate
  by_cases h1 : cfg.duration_secs = 0
  · rw [if_pos h1, if_pos h1]
  rw [if_neg h1, if_neg h1]
  by_cases h2 : cfg.producers.count = 0 ∨ cfg.producers.count > 16
  · rw [if_pos h2, if_pos h2]
  rw [if_neg h2, if_neg h2]
  dsimp only
  by_cases h3 : cfg.processors.count = 0 ∨ cfg.processors.count > 16
  · rw [if_pos h3, if_pos h3]
  rw [if_neg h3, if_neg h3]
  by_cases h4 : cfg.strategies.count = 0 ∨ cfg.strategies.count > 16
  · rw [if_pos h4, if_pos h4]
  rw [if_neg h4, if_neg h4]
  by_cases h5 : cfg.stage1_rules.isEmpty = true
  · rw [if_pos h5, if_pos h5]
  rw [if_neg h5, if_neg h5]
  cases h6 : (SystemConfig.stage1_rules_error cfg.processors.count cfg.stage1_rules :
      Option (Diagnostic D)) with
  | some error => simp
  | none =>
    dsimp only
    by_cases h7 : cfg.stage2_rules.isEmpty = true
    · simp [h7]
    rw [if_neg h7]
    cases h8 : cfg.stage2_rules.find?
        (fun rule => decide (rule.strategy ≥ cfg.strategies.count)) with
    | some rule => simp [h7]
    | none => simp [h7]

/-- C23: the value returned by `SystemConfig::validate()` does not depend on
`producers.distribution`: a configuration and the same configuration with any
other distribution (whatever its sum, the empty one included) are both accepted
or both rejected; the distribution can only add the warning line. -/
theorem SystemConfig.validate_ignores_distribution {D : Type} (ops : DoubleOps D)
    (cfg : SystemConfig D) (distribution : List (Nat × D)) :
    ((cfg.with_distribution distribution).validate ops).2 = (cfg.validate ops).2 ∧
    ((cfg.with_distribution []).validate ops).2 = (cfg.validate ops).2 ∧
    (Scenario.config.validate DoubleOps.exact = ([], true) ∧
      Scenario.configNoDistribution.validate DoubleOps.exact =
        ([Diagnostic.distribution_sum 0], true) ∧
      Scenario.configHeavyDistribution.validate DoubleOps.exact =
        ([Diagnostic.distribution_sum 3], true)) := by
  refine ⟨?_, ?_, ?_, ?_, ?_⟩
  · rw [SystemConfig.validate_snd, SystemConfig.validate_snd]
    rfl
  · rw [SystemConfig.validate_snd, SystemConfig.validate_snd]
    rfl
  · norm_num [SystemConfig.validate, Scenario.config, DoubleOps.exact,
      SystemConfig.distribution_sum, SystemConfig.stage1_rules_error,
      SystemConfig.stage1_rule_error]
  · norm_num [SystemConfig.validate, Scenario.config, Scenario.configNoDistribution,
      SystemConfig.with_distribution, DoubleOps.exact,
      SystemConfig.distribution_sum, SystemConfig.stage1_rules_error,
      SystemConfig.stage1_rule_error]
  · norm_num [SystemConfig.validate, Scenario.config, Scenario.configHeavyDistribution,
      SystemConfig.with_distribution, DoubleOps.exact,
      SystemConfig.distribution_sum, SystemConfig.stage1_rules_error,
      SystemConfig.stage1_rule_error]

/-! ## What an accepted configuration guarantees -/

theorem SystemConfig.accepted {D : Type} (ops : DoubleOps D) (cfg : SystemConfig D)
    (h : (cfg.validate ops).2 = true) :
    0 < cfg.duration_secs ∧
    (1 ≤ cfg.producers.count ∧ cfg.producers.count ≤ 16) ∧
    (1 ≤ cfg.processors.count ∧ cfg.processors.count ≤ 16) ∧
    (1 ≤ cfg.strategies.count ∧ cfg.strategies.count ≤ 16) ∧
    cfg.stage1_rules ≠ [] ∧
    (∀ rule ∈ cfg.stage1_rules,
      rule.processors ≠ [] ∧ ∀ proc_id ∈ rule.processors, proc_id < cfg.processors.count) ∧
    cfg.stage2_rules ≠ [] ∧
    (∀ rule ∈ cfg.stage2_rules, rule.strategy < cfg.strategies.count) := by
  rw [SystemConfig.validate_snd] at h
  split_ifs at h with h1 h2 h3 h4 h5 h6 h7 h8
  refine ⟨by omega, by omega, by omega, by omega, ?_, ?_, ?_, ?_⟩
  · intro he; rw [he] at h5; exact h5 rfl
  · apply (SystemConfig.stage1_rules_error_eq_none (D := D) _ _).1
    cases hs : (SystemConfig.stage1_rules_error cfg.processors.count cfg.stage1_rules :
      Option (Diagnostic D)) with
    | none => rfl
    | some e => rw [hs] at h6; exact absurd rfl h6
  · intro he; rw [he] at h7; exact h7 rfl
  · intro rule hr
    cases hf : cfg.stage2_rules.find?
        (fun rule => decide (rule.strategy ≥ cfg.strategies.count)) with
    | some r => rw [hf] at h8; exact absurd rfl h8
    | none =>
      rw [List.find?_eq_none] at hf
      have := hf rule hr
      simpa using this
/-! ## The rate of the producers is not validated -/

/-- C27 (the code at a failing input): `validate()` accepts the configuration
`Scenario.configZeroRate`, whose `producers.messages_per_sec` is 0, without any
diagnostic; a producer built from it divides by zero in the first statement of
`run`, whatever the other threads do. In general the value `validate()`
returns does not depend on `messages_per_sec`, and the first statement of `run`
is defined exactly when `messages_per_sec_` is positive. -/
theorem Producer.run_divides_by_zero_rate :
    Scenario.configZeroRate.validate DoubleOps.exact = ([], true) ∧
    Scenario.configZeroRate.producers.messages_per_sec = 0 ∧
    (∀ (id queue : Nat) (draws : List Nat) (burst : List EnvAction)
        (rest : List (List EnvAction)) (w : World),
      Producer.run DoubleOps.exact 4 Scenario.configZeroRate.duration_secs (burst :: rest)
        (Producer.new id Scenario.configZeroRate.producers queue draws) w
        = .error Fault.division_by_zero) ∧
    (∀ (D : Type) (ops : DoubleOps D) (cfg : SystemConfig D) (rate : Nat),
      ((cfg.with_rate rate).validate ops).2 = (cfg.validate ops).2) ∧
    (∀ (D : Type) (ops : DoubleOps D) (C duration_secs : Nat) (s : ProducerThread D)
        (w : World), s.pc = .start →
      ((∃ s' w', Producer.step ops C duration_secs s w = .ok (s', w')) ↔
        0 < s.producer.messages_per_sec_)) := by
  refine ⟨?_, rfl, ?_, ?_, ?_⟩
  · norm_num [SystemConfig.validate, Scenario.config, Scenario.configZeroRate,
      SystemConfig.with_rate, DoubleOps.exact,
      SystemConfig.distribution_sum, SystemConfig.stage1_rules_error,
      SystemConfig.stage1_rule_error]
  · intro id queue draws burst rest w
    rfl
  · intro D ops cfg rate
    rw [SystemConfig.validate_snd, SystemConfig.validate_snd]
    rfl
  · intro D ops C duration_secs s w hpc
    obtain ⟨producer, pc, log⟩ := s
    simp only at hpc
    subst hpc
    simp only [Producer.step]
    by_cases h : producer.messages_per_sec_ = 0
    · rw [if_pos h]
      constructor
      · rintro ⟨s', w', h'⟩
        exact absurd h' (by simp)
      · intro hpos
        omega
    · rw [if_neg h]
      exact ⟨fun _ => Nat.pos_of_ne_zero h, fun _ => ⟨_, _, rfl⟩⟩
/-! ## The distribution of the producers is not validated -/

/-- C28 (the code at a failing input): `validate()` accepts the configuration
`Scenario.configNoDistribution`, whose `producers.distribution` is empty (it
only writes the warning about the sum). A producer built from it has an empty
`msg_types_`, so `generate_message_type` reads `msg_types_[index]` past the end
whatever index is drawn, and `run` faults at its first emission. In general
`generate_message_type` returns a type exactly when the index drawn is a
position of `producers.distribution`, and the type is then a key of it. -/
theorem Producer.generate_message_type_out_of_bounds :
    (Scenario.configNoDistribution.validate DoubleOps.exact).2 = true ∧
    Scenario.configNoDistribution.producers.distribution = [] ∧
    (∀ (id queue : Nat) (draws : List Nat),
      (Producer.new id Scenario.configNoDistribution.producers queue draws).msg_types_ = []) ∧
    (∀ (id queue index : Nat) (rest : List Nat),
      (Producer.new id Scenario.configNoDistribution.producers queue
        (index :: rest)).generate_message_type = .error Fault.out_of_bounds) ∧
    Producer.run DoubleOps.exact 4 Scenario.configNoDistribution.duration_secs
      [[], [], [], []] (Producer.new 0 Scenario.configNoDistribution.producers 0 [0])
      Scenario.producerWorld = .error Fault.out_of_bounds ∧
    (∀ (D : Type) (config : ProducerConfig D) (id queue index : Nat) (rest : List Nat),
      ((∃ t p, (Producer.new id config queue (index :: rest)).generate_message_type
          = .ok (t, p)) ↔ index < config.distribution.length) ∧
      ∀ t p, (Producer.new id config queue (index :: rest)).generate_message_type = .ok (t, p) →
        ∃ prob, (t, prob) ∈ config.distribution) := by
  refine ⟨?_, rfl, fun _ _ _ => rfl, fun _ _ _ _ => rfl, by with_unfolding_all rfl, ?_⟩
  · norm_num [SystemConfig.validate, Scenario.config, Scenario.configNoDistribution,
      SystemConfig.with_distribution, DoubleOps.exact,
      SystemConfig.distribution_sum, SystemConfig.stage1_rules_error,
      SystemConfig.stage1_rule_error]
  · intro D config id queue index rest
    simp only [Producer.generate_message_type, Producer.new]
    cases hget : (config.distribution.map (fun entry => entry.1))[index]? with
    | none =>
      have hlen : ¬ index < config.distribution.length := by
        intro hlt
        rw [List.getElem?_eq_none_iff, List.length_map] at hget
        omega
      refine ⟨⟨fun ⟨t, p, h⟩ => absurd h (by simp), fun h => absurd h hlen⟩, ?_⟩
      intro t p h
      exact absurd h (by simp)
    | some ty =>
      have hmem : ty ∈ config.distribution.map (fun entry => entry.1) :=
        List.getElem?_mem hget
      have hlt : index < config.distribution.length := by
        by_contra hge
        have : (config.distribution.map (fun entry => entry.1))[index]? = none := by
          rw [List.getElem?_eq_none_iff, List.length_map]
          omega
        rw [this] at hget
        cases hget
      refine ⟨⟨fun _ => hlt, fun _ => ⟨_, _, rfl⟩⟩, ?_⟩
      intro t p h
      simp only [Except.ok.injEq, Prod.mk.injEq] at h
      obtain ⟨entry, hentry, heq⟩ := List.mem_map.1 hmem
      refine ⟨entry.2, ?_⟩
      rw [← h.1, ← heq]
      exact hentry
/-! ## Indices computed by the routers of an accepted configuration -/

theorem Stage1Router.rule_for_mem (rules : List Stage1Rule) (t : Nat) (L : List Nat)
    (h : Stage1Router.rule_for rules t = some L) :
    ∃ rule ∈ rules, rule.msg_type = t ∧ rule.processors = L := by
  unfold Stage1Router.rule_for at h
  cases hlast : (rules.filter (fun rule => decide (rule.msg_type = t))).getLast? with
  | none => rw [hlast] at h; cases h
  | some rule =>
    rw [hlast] at h
    simp only [Option.map_some', Option.some.injEq] at h
    have hmem := List.mem_of_mem_getLast? hlast
    rw [List.mem_filter] at hmem
    exact ⟨rule, hmem.1, by simpa using hmem.2, h⟩

theorem Stage2Router.rule_for_mem_stage2 (rules : List Stage2Rule) (t s : Nat)
    (h : Stage2Router.rule_for rules t = some s) :
    ∃ rule ∈ rules, rule.msg_type = t ∧ rule.strategy = s := by
  unfold Stage2Router.rule_for at h
  cases hlast : (rules.filter (fun rule => decide (rule.msg_type = t))).getLast? with
  | none => rw [hlast] at h; cases h
  | some rule =>
    rw [hlast] at h
    simp only [Option.map_some', Option.some.injEq] at h
    have hmem := List.mem_of_mem_getLast? hlast
    rw [List.mem_filter] at hmem
    exact ⟨rule, hmem.1, by simpa using hmem.2, h⟩

theorem Stage1Router.select_processor_bounded (n : Nat) (hpos : 0 < n) (hlt : n < 256)
    (r r' : Stage1Router) (t p : Nat) (hr : Stage1Router.TableBounded n r)
    (h : Stage1Router.select_processor r t = .ok (p, r')) :
    p < n ∧ Stage1Router.TableBounded n r' := by
  obtain ⟨htab, hlen⟩ := hr
  have hframe := Stage1Router.select_processor_frame r r' t p h
  have hr' : Stage1Router.TableBounded n r' :=
    ⟨fun t' L hf => htab t' L (hframe.1 ▸ hf), by rw [hframe.2.1]; exact hlen⟩
  refine ⟨?_, hr'⟩
  cases hfind : UnorderedMap.find r.routing_table_ t with
  | none =>
    rw [Stage1Router.select_processor_fallback r t (hlen ▸ hpos) (hlen ▸ hlt)
      (Or.inl hfind)] at h
    simp only [Except.ok.injEq, Prod.mk.injEq] at h
    rw [← h.1, hlen]
    exact Nat.mod_lt _ hpos
  | some L =>
    by_cases hne : L = []
    · subst hne
      rw [Stage1Router.select_processor_fallback r t (hlen ▸ hpos) (hlen ▸ hlt)
        (Or.inr hfind)] at h
      simp only [Except.ok.injEq, Prod.mk.injEq] at h
      rw [← h.1, hlen]
      exact Nat.mod_lt _ hpos
    · obtain ⟨r'', hsel, -⟩ := Stage1Router.select_processor_rule r t L hfind hne
      rw [hsel] at h
      simp only [Except.ok.injEq, Prod.mk.injEq] at h
      rw [← h.1]
      have hlenL : 0 < L.length := List.length_pos.2 hne
      have hidx : (UnorderedMap.find r.rr_counters_ t).getD 0 % L.length < L.length :=
        Nat.mod_lt _ hlenL
      rw [List.getD_eq_getElem _ _ hidx]
      exact htab t L hfind _ (List.getElem_mem _)

theorem Stage1Router.tableBounded_new {D : Type} (ops : DoubleOps D) (cfg : SystemConfig D)
    (haccept : (cfg.validate ops).2 = true) (ins outs : List Nat)
    (houts : outs.length = cfg.processors.count) :
    Stage1Router.TableBounded cfg.processors.count
      (Stage1Router.new cfg.stage1_rules ins outs) := by
  have hacc := SystemConfig.accepted ops cfg haccept
  refine ⟨?_, by rw [(Stage1Router.new_queues _ ins outs).2]; exact houts⟩
  intro t L hfind p hp
  rw [Stage1Router.find_new] at hfind
  obtain ⟨rule, hrule, -, hL⟩ := Stage1Router.rule_for_mem _ t L hfind
  exact (hacc.2.2.2.2.2.1 rule hrule).2 p (hL ▸ hp)

theorem Stage1Router.select_all_bounded (n : Nat) (hpos : 0 < n) (hlt : n < 256)
    (calls : List Nat) :
    ∀ (r : Stage1Router), Stage1Router.TableBounded n r →
      ∃ results r', Stage1Router.select_all r calls = .ok (results, r') ∧
        (∀ p ∈ results, p < n) ∧ Stage1Router.TableBounded n r' := by
  induction calls with
  | nil => intro r hr; exact ⟨[], r, rfl, fun p hp => absurd hp (List.not_mem_nil _), hr⟩
  | cons t0 ts ih =>
    intro r hr
    obtain ⟨p, r1, h1, -⟩ := Stage1Router.select_processor_total r t0
      (hr.2 ▸ hpos) (hr.2 ▸ hlt)
    obtain ⟨hp, hr1⟩ := Stage1Router.select_processor_bounded n hpos hlt r r1 t0 p hr h1
    obtain ⟨results, r2, h2, hres, hr2⟩ := ih r1 hr1
    refine ⟨p :: results, r2, by simp only [Stage1Router.select_all, h1, h2], ?_, hr2⟩
    intro q hq
    rcases List.mem_cons.1 hq with rfl | hq
    · exact hp
    · exact hres q hq

theorem Stage1Router.bounded_of_for_next (nq : Nat) (r : Stage1Router) (log : List Event)
    (n i : Nat) (b : Bool) (hr : Stage1Router.TableBounded nq r)
    (hlog : ∀ j m, Event.pushed j m ∈ log → j < nq) :
    Stage1Router.Bounded nq { router := r, pc := RouterPC.for_next n i b, log := log } := by
  refine ⟨hr, hlog, ?_⟩
  rcases RouterPC.for_next_cases n i b with hc | hc <;> simp only [hc]

theorem Stage1Router.step_bounded (C n : Nat) (hpos : 0 < n) (hlt : n < 256)
    (s s' : Stage1Thread) (w w' : World) (hinv : Stage1Router.Bounded n s)
    (hstep : Stage1Router.step C s w = .ok (s', w')) : Stage1Router.Bounded n s' := by
  obtain ⟨router, pc, log⟩ := s
  obtain ⟨hr, hlog, hpc⟩ := hinv
  simp only at hr hlog hpc
  cases pc with
  | returned =>
    simp only [Stage1Router.step, Except.ok.injEq, Prod.mk.injEq] at hstep
    rw [← hstep.1]; exact ⟨hr, hlog, trivial⟩
  | loop_head =>
    simp only [Stage1Router.step] at hstep
    split at hstep <;> simp only [Except.ok.injEq, Prod.mk.injEq] at hstep <;> rw [← hstep.1]
    · exact Stage1Router.bounded_of_for_next _ _ _ _ _ _ hr hlog
    · exact ⟨hr, hlog, trivial⟩
  | poll i any =>
    simp only [Stage1Router.step] at hstep
    split at hstep
    · exact absurd hstep (by simp)
    · split at hstep
      · split at hstep
        · exact absurd hstep (by simp)
        · next pid router' hsel =>
          simp only [Except.ok.injEq, Prod.mk.injEq] at hstep
          rw [← hstep.1]
          obtain ⟨hp, hr'⟩ := Stage1Router.select_processor_bounded n hpos hlt _ _ _ _ hr hsel
          refine ⟨hr', ?_, hp⟩
          intro j m hm
          exact hlog j m (Event.pushed_mem_append_popped _ _ _ _ _ hm)
      · simp only [Except.ok.injEq, Prod.mk.injEq] at hstep
        rw [← hstep.1]
        exact Stage1Router.bounded_of_for_next _ _ _ _ _ _ hr hlog
  | retry i any msg target =>
    simp only [Stage1Router.step] at hstep
    split at hstep
    · exact absurd hstep (by simp)
    · split at hstep <;> simp only [Except.ok.injEq, Prod.mk.injEq] at hstep <;>
        rw [← hstep.1]
      · apply Stage1Router.bounded_of_for_next _ _ _ _ _ _ hr
        intro j m hm
        rcases List.mem_append.1 hm with hm | hm
        · exact hlog j m hm
        · simp only [List.mem_singleton, Event.pushed.injEq] at hm
          rw [hm.1]
          exact hpc
      · exact ⟨hr, hlog, hpc⟩

theorem Stage1Router.exec_bounded (C n : Nat) (hpos : 0 < n) (hlt : n < 256)
    (schedule : List (List EnvAction)) :
    ∀ (s s' : Stage1Thread) (w w' : World), Stage1Router.Bounded n s →
      Stage1Router.exec C schedule s w = .ok (s', w') → Stage1Router.Bounded n s' := by
  induction schedule with
  | nil =>
    intro s s' w w' h hexec
    simp only [Stage1Router.exec] at hexec
    split at hexec
    · simp only [Except.ok.injEq, Prod.mk.injEq] at hexec
      obtain ⟨rfl, rfl⟩ := hexec
      exact h
    · exact absurd hexec (by simp)
  | cons as rest ih =>
    intro s s' w w' h hexec
    simp only [Stage1Router.exec] at hexec
    split at hexec
    · simp only [Except.ok.injEq, Prod.mk.injEq] at hexec
      obtain ⟨rfl, rfl⟩ := hexec
      exact h
    · split at hexec
      · exact absurd hexec (by simp)
      · next s1 w1 hstep =>
        exact ih s1 s' w1 w' (Stage1Router.step_bounded C n hpos hlt s s1 _ w1 h hstep) hexec

/-- C25: for a configuration accepted by `validate()` and a Stage1 router built
from its `stage1_rules` with `processors.count` output queues, after any
history of calls (which all succeed and all return indices
`< processors.count`) `select_processor(t)` returns, for every type `t`, an
index `< processors.count`, which is a position of `output_queues_`; and in
any run of the router every push goes to such a position. -/
theorem Stage1Router.select_processor_in_bounds {D : Type} (ops : DoubleOps D)
    (cfg : SystemConfig D) (haccept : (cfg.validate ops).2 = true) (ins outs : List Nat)
    (houts : outs.length = cfg.processors.count) :
    (∀ calls : List Nat, ∃ results r',
      Stage1Router.select_all (Stage1Router.new cfg.stage1_rules ins outs) calls
        = .ok (results, r') ∧
      (∀ p ∈ results, p < cfg.processors.count) ∧
      ∀ t, ∃ p r'', Stage1Router.select_processor r' t = .ok (p, r'') ∧
        p < cfg.processors.count ∧ ∃ q, r'.output_queues_[p]? = some q) ∧
    (∀ (C : Nat) (schedule : List (List EnvAction)) (w w' : World) (s' : Stage1Thread),
      Stage1Router.run C schedule (Stage1Router.new cfg.stage1_rules ins outs) w
        = .ok (s', w') →
      ∀ j m, Event.pushed j m ∈ s'.log →
        j < cfg.processors.count ∧ ∃ q, s'.router.output_queues_[j]? = some q) := by
  have hacc := SystemConfig.accepted ops cfg haccept
  have hpos : 0 < cfg.processors.count := by omega
  have hlt : cfg.processors.count < 256 := by omega
  have hnew := Stage1Router.tableBounded_new ops cfg haccept ins outs houts
  refine ⟨?_, ?_⟩
  · intro calls
    obtain ⟨results, r', hsel, hres, hr'⟩ :=
      Stage1Router.select_all_bounded _ hpos hlt calls _ hnew
    refine ⟨results, r', hsel, hres, fun t => ?_⟩
    obtain ⟨p, r'', h1, -⟩ := Stage1Router.select_processor_total r' t
      (hr'.2 ▸ hpos) (hr'.2 ▸ hlt)
    have hp := (Stage1Router.select_processor_bounded _ hpos hlt r' r'' t p hr' h1).1
    refine ⟨p, r'', h1, hp, ?_⟩
    have hlen : p < r'.output_queues_.length := by rw [hr'.2]; exact hp
    exact ⟨_, List.getElem?_eq_getElem hlen⟩
  · intro C schedule w w' s' hrun j m hm
    have hb := Stage1Router.exec_bounded C _ hpos hlt schedule _ s' w w'
      ⟨hnew, fun j m hm => absurd hm (List.not_mem_nil _), trivial⟩ hrun
    have hj := hb.2.1 j m hm
    have hlen : j < s'.router.output_queues_.length := by rw [hb.1.2]; exact hj
    exact ⟨hj, _, List.getElem?_eq_getElem hlen⟩
theorem Stage1Router.select_processor_in_bounds_witness :
    (Scenario.config.validate DoubleOps.exact).2 = true ∧
    (Stage1Router.select_all (Stage1Router.new Scenario.config.stage1_rules [0, 1] [2, 3])
      [0, 0, 1, 7]).map (fun r => r.1) = .ok [0, 1, 1, 1] ∧
    ∃ results r',
      Stage1Router.select_all (Stage1Router.new Scenario.config.stage1_rules [0, 1] [2, 3])
        [0, 0, 1, 7] = .ok (results, r') ∧
      (∀ p ∈ results, p < Scenario.config.processors.count) ∧
      ∀ t, ∃ p r'', Stage1Router.select_processor r' t = .ok (p, r'') ∧
        p < Scenario.config.processors.count ∧ ∃ q, r'.output_queues_[p]? = some q :=
  ⟨by norm_num [SystemConfig.validate, Scenario.config, DoubleOps.exact,
      SystemConfig.distribution_sum, SystemConfig.stage1_rules_error,
      SystemConfig.stage1_rule_error],
   rfl,
   (Stage1Router.select_processor_in_bounds DoubleOps.exact Scenario.config
     (by norm_num [SystemConfig.validate, Scenario.config, DoubleOps.exact,
      SystemConfig.distribution_sum, SystemConfig.stage1_rules_error,
      SystemConfig.stage1_rule_error]) [0, 1] [2, 3] rfl).1 [0, 0, 1, 7]⟩

theorem Stage2Router.select_strategy_bounded {D : Type} (ops : DoubleOps D)
    (cfg : SystemConfig D) (haccept : (cfg.validate ops).2 = true) (ins outs : List Nat)
    (houts : outs.length = cfg.strategies.count) (t : Nat) :
    ∃ s, Stage2Router.select_strategy (Stage2Router.new cfg.stage2_rules ins outs) t = .ok s ∧
      s = Stage2Router.destination cfg.stage2_rules cfg.strategies.count t ∧
      s < cfg.strategies.count := by
  have hacc := SystemConfig.accepted ops cfg haccept
  have hpos : 0 < cfg.strategies.count := by omega
  have hlt : cfg.strategies.count < 256 := by omega
  unfold Stage2Router.select_strategy Stage2Router.destination
  rw [Stage2Router.find_new_stage2]
  cases hr : Stage2Router.rule_for cfg.stage2_rules t with
  | some strategy =>
    obtain ⟨rule, hrule, -, hs⟩ := Stage2Router.rule_for_mem_stage2 _ t strategy hr
    exact ⟨strategy, rfl, rfl, hs ▸ hacc.2.2.2.2.2.2.2 rule hrule⟩
  | none =>
    simp only [(Stage2Router.new_queues_stage2 cfg.stage2_rules ins outs).2, houts]
    exact ⟨_, Stage1Router.fallback_ok _ _ hpos hlt, rfl, Nat.mod_lt _ hpos⟩

/-- C26: for a configuration accepted by `validate()` and a Stage2 router built
from its `stage2_rules` with `strategies.count` output queues, the strategy
index computed for a message of any type `t` (the strategy of the rule in force
for `t`, or `t mod strategies.count`) is `< strategies.count`, which is a
position of `output_queues_`; and in any run of the router every push goes to
such a position. -/
theorem Stage2Router.select_strategy_in_bounds {D : Type} (ops : DoubleOps D)
    (cfg : SystemConfig D) (haccept : (cfg.validate ops).2 = true) (ins outs : List Nat)
    (houts : outs.length = cfg.strategies.count) :
    (∀ t, ∃ s,
      Stage2Router.select_strategy (Stage2Router.new cfg.stage2_rules ins outs) t = .ok s ∧
      s = Stage2Router.destination cfg.stage2_rules cfg.strategies.count t ∧
      s < cfg.strategies.count ∧
      ∃ q, (Stage2Router.new cfg.stage2_rules ins outs).output_queues_[s]? = some q) ∧
    (∀ (C : Nat) (schedule : List (List EnvAction)) (w w' : World) (s' : Stage2Thread),
      Stage2Router.run C schedule (Stage2Router.new cfg.stage2_rules ins outs) w
        = .ok (s', w') →
      ∀ j m, Event.pushed j m ∈ s'.log →
        j < cfg.strategies.count ∧ ∃ q, outs[j]? = some q) := by
  refine ⟨?_, ?_⟩
  · intro t
    obtain ⟨s, h1, h2, h3⟩ :=
      Stage2Router.select_strategy_bounded ops cfg haccept ins outs houts t
    refine ⟨s, h1, h2, h3, ?_⟩
    have hlen : s < (Stage2Router.new cfg.stage2_rules ins outs).output_queues_.length := by
      rw [(Stage2Router.new_queues_stage2 cfg.stage2_rules ins outs).2, houts]
      exact h3
    exact ⟨_, List.getElem?_eq_getElem hlen⟩
  · intro C schedule w w' s' hrun j m hm
    have hf := Stage2Router.run_forwarded_stage2 C schedule _ w s' w' hrun
    obtain ⟨m0, -, hsel⟩ := hf.pushed_rel j m hm
    obtain ⟨s, h1, -, h3⟩ :=
      Stage2Router.select_strategy_bounded ops cfg haccept ins outs houts m0.msg_type
    rw [h1] at hsel
    simp only [Except.ok.injEq] at hsel
    subst hsel
    have hlen : s < outs.length := by rw [houts]; exact h3
    exact ⟨h3, _, List.getElem?_eq_getElem hlen⟩

theorem Stage2Router.select_strategy_in_bounds_witness :
    (Scenario.config.validate DoubleOps.exact).2 = true ∧
    Stage2Router.select_strategy (Stage2Router.new Scenario.config.stage2_rules [0, 1] [2])
      1 = .ok 0 ∧
    Stage2Router.select_strategy (Stage2Router.new Scenario.config.stage2_rules [0, 1] [2])
      7 = .ok 0 ∧
    ∀ t, ∃ s,
      Stage2Router.select_strategy (Stage2Router.new Scenario.config.stage2_rules [0, 1] [2]) t
        = .ok s ∧
      s = Stage2Router.destination Scenario.config.stage2_rules
        Scenario.config.strategies.count t ∧
      s < Scenario.config.strategies.count ∧
      ∃ q, (Stage2Router.new Scenario.config.stage2_rules [0, 1] [2]).output_queues_[s]?
        = some q :=
  ⟨by norm_num [SystemConfig.validate, Scenario.config, DoubleOps.exact,
      SystemConfig.distribution_sum, SystemConfig.stage1_rules_error,
      SystemConfig.stage1_rule_error],
   rfl, rfl,
   (Stage2Router.select_strategy_in_bounds DoubleOps.exact Scenario.config
     (by norm_num [SystemConfig.validate, Scenario.config, DoubleOps.exact,
      SystemConfig.distribution_sum, SystemConfig.stage1_rules_error,
      SystemConfig.stage1_rule_error]) [0, 1] [2] rfl).1⟩

/-! ## The pacer of `Producer::run` -/

theorem Timer.elapsed_nanoseconds_lt (start now : Nat) :
    Timer.elapsed_nanoseconds start now < SIZE_T_MOD := by
  unfold Timer.elapsed_nanoseconds
  have hM : (0 : Int) < (SIZE_T_MOD : Int) := by
    unfold SIZE_T_MOD; exact_mod_cast Nat.pos_pow_of_pos 64 (by decide)
  have h1 := Int.emod_lt_of_pos ((now : Int) - (start : Int)) hM
  have h2 := Int.emod_nonneg ((now : Int) - (start : Int)) (ne_of_gt hM)
  omega
theorem Timer.busy_wait_loop_ok (nanoseconds start now : Nat) (readings : List Nat)
    (hmem : now ∈ readings) (hnow : nanoseconds ≤ Timer.elapsed_nanoseconds start now) :
    ∃ rest, Timer.busy_wait_loop nanoseconds start readings = .ok rest := by
  induction readings with
  | nil => cases hmem
  | cons r readings ih =>
    unfold Timer.busy_wait_loop
    by_cases hr : Timer.elapsed_nanoseconds start r ≥ nanoseconds
    · exact ⟨readings, by rw [if_pos hr]⟩
    · rw [if_neg hr]
      rcases List.mem_cons.mp hmem with h | h
      · subst h
        exact absurd hnow hr
      · exact ih h

theorem Strategy.busy_wait_ok (p : Strategy) (readings : List Nat)
    (hawake : Strategy.Awakes p readings) :
    ∃ rest, (if p.processing_time_ns_ > 0 then
        Timer.busy_wait_ns p.processing_time_ns_ readings else .ok readings) = .ok rest := by
  rcases hawake with h0 | ⟨start, rest, now, hr, hmem, hnow⟩
  · exact ⟨readings, by rw [h0]; rfl⟩
  · by_cases hp : p.processing_time_ns_ > 0
    · rw [if_pos hp, hr]
      exact Timer.busy_wait_loop_ok _ start now rest hmem hnow
    · exact ⟨readings, by rw [if_neg hp]⟩

theorem Strategy.process_message_trace_ok {D : Type} (ops : DoubleOps D) (p : Strategy)
    (stats : SystemStatistics D) (msg : Message) (readings : List Nat)
    (hawake : Strategy.Awakes p readings) :
    Strategy.process_message_trace ops p stats msg readings =
      .ok [stats.track_message_order msg,
           (stats.track_message_order msg).record_message_latencies ops msg,
           { (stats.track_message_order msg).record_message_latencies ops msg with
             messages_delivered :=
               (((stats.track_message_order msg).record_message_latencies ops msg).messages_delivered
                 + 1) % SIZE_T_MOD }] := by
  obtain ⟨rest, hrest⟩ := Strategy.busy_wait_ok p readings hawake
  unfold Strategy.process_message_trace
  rw [hrest]
  rfl

theorem Strategy.process_message_ok {D : Type} (ops : DoubleOps D) (p : Strategy)
    (stats : SystemStatistics D) (msg : Message) (readings : List Nat)
    (hawake : Strategy.Awakes p readings) :
    Strategy.process_message ops p stats msg readings =
      .ok { (stats.track_message_order msg).record_message_latencies ops msg with
             messages_delivered :=
               (((stats.track_message_order msg).record_message_latencies ops msg).messages_delivered
                 + 1) % SIZE_T_MOD } := by
  unfold Strategy.process_message
  rw [Strategy.process_message_trace_ok ops p stats msg readings hawake]
  rfl

theorem SystemStatistics.track_message_order_frame {D : Type} (stats : SystemStatistics D)
    (msg : Message) :
    (stats.track_message_order msg).messages_produced = stats.messages_produced ∧
    (stats.track_message_order msg).messages_processed = stats.messages_processed ∧
    (stats.track_message_order msg).messages_delivered = stats.messages_delivered ∧
    (stats.track_message_order msg).messages_lost = stats.messages_lost ∧
    (stats.track_message_order msg).stage1_latencies = stats.stage1_latencies ∧
    (stats.track_message_order msg).processing_latencies = stats.processing_latencies ∧
    (stats.track_message_order msg).stage2_latencies = stats.stage2_latencies ∧
    (stats.track_message_order msg).total_latencies = stats.total_latencies := by
  unfold SystemStatistics.track_message_order
  cases stats.producer_order_trackers[msg.producer_id]? <;> simp

theorem SystemStatistics.track_message_order_trackers {D : Type} (stats : SystemStatistics D)
    (msg : Message) :
    (stats.track_message_order msg).producer_order_trackers[msg.producer_id]? =
      (stats.producer_order_trackers[msg.producer_id]?).map (fun t => t.track msg) ∧
    ∀ i, i ≠ msg.producer_id →
      (stats.track_message_order msg).producer_order_trackers[i]? =
        stats.producer_order_trackers[i]? := by
  unfold SystemStatistics.track_message_order
  cases h : stats.producer_order_trackers[msg.producer_id]? with
  | none => simp [h]
  | some t =>
    have hlt : msg.producer_id < stats.producer_order_trackers.length := by
      by_contra hge
      rw [List.getElem?_eq_none (Nat.le_of_not_lt hge)] at h
      cases h
    refine ⟨?_, ?_⟩
    · simp [List.getElem?_set, hlt]
    · intro i hi
      simp [List.getElem?_set, Ne.symm hi]

theorem Strategy.process_message_counted {D : Type} (ops : DoubleOps D) (p : Strategy)
    (stats : SystemStatistics D) (msg : Message) (readings : List Nat)
    (hawake : Strategy.Awakes p readings) (hcounted : Strategy.Counted stats)
    (hroom : stats.messages_delivered + 1 < SIZE_T_MOD) :
    ∃ s, Strategy.process_message ops p stats msg readings = .ok s ∧ Strategy.Counted s ∧
      s.messages_delivered = stats.messages_delivered + 1 := by
  refine ⟨_, Strategy.process_message_ok ops p stats msg readings hawake, ?_, ?_⟩
  · obtain ⟨h1, h2, h3, h4⟩ := hcounted
    obtain ⟨-, -, fd, -, f1, f2, f3, f4⟩ := SystemStatistics.track_message_order_frame stats msg
    unfold Strategy.Counted
    simp only [SystemStatistics.record_message_latencies, LatencyStats.add, List.length_append,
      List.length_singleton, f1, f2, f3, f4, fd, h1, h2, h3, h4, Nat.mod_eq_of_lt hroom,
      and_self]
  · obtain ⟨-, -, fd, -⟩ := SystemStatistics.track_message_order_frame stats msg
    simp only [SystemStatistics.record_message_latencies, fd, Nat.mod_eq_of_lt hroom]

theorem Strategy.deliveries_counted {D : Type} (ops : DoubleOps D)
    (ds : List (Strategy × Message × List Nat)) :
    ∀ (stats : SystemStatistics D), (∀ d ∈ ds, Strategy.Awakes d.1 d.2.2) →
      Strategy.Counted stats → stats.messages_delivered + ds.length < SIZE_T_MOD →
      ∃ s, Strategy.deliveries ops ds stats = .ok s ∧ Strategy.Counted s ∧
        s.messages_delivered = stats.messages_delivered + ds.length := by
  induction ds with
  | nil => intro stats _ hc _; exact ⟨stats, rfl, hc, rfl⟩
  | cons d ds ih =>
    intro stats hds hc hroom
    obtain ⟨p, msg, readings⟩ := d
    rw [List.length_cons] at hroom
    obtain ⟨s1, hs1, hc1, hd1⟩ := Strategy.process_message_counted ops p stats msg readings
      (hds _ (List.mem_cons_self _ _)) hc (by omega)
    obtain ⟨s, hs, hcs, hds2⟩ := ih s1 (fun d hd => hds d (List.mem_cons_of_mem _ hd)) hc1
      (by omega)
    refine ⟨s, ?_, hcs, ?_⟩
    · unfold Strategy.deliveries
      rw [hs1]
      exact hs
    · rw [hds2, hd1, List.length_cons]; omega

/-- C22: a call of `Strategy::process_message(msg)` whose busy-wait ends returns,
and `stats_` takes three successive values `s1`, `s2`, `s3`: `s1` after
`track_message_order`, in which the tracker of `msg.producer_id` (when there is one)
has tracked `msg` and nothing else has changed; `s2` after
`record_message_latencies`, in which each of the four latency vectors has exactly
one more sample, the latency of `msg` for that phase, and nothing else has
changed; `s3` after the `fetch_add`, in which `messages_delivered` is one more (in
64-bit arithmetic) and nothing else has changed. The statistics as constructed
have latency vectors as long as `messages_delivered` counts, and any sequence of
deliveries that starts from such statistics and stays below `2^64` delivered
messages returns and ends in such statistics, with one more message delivered per
call. -/
theorem Strategy.process_message_updates {D : Type} (ops : DoubleOps D) (p : Strategy)
    (stats : SystemStatistics D) (msg : Message) (readings : List Nat)
    (hawake : Strategy.Awakes p readings) :
    (∃ s1 s2 s3, Strategy.process_message_trace ops p stats msg readings = .ok [s1, s2, s3] ∧
      Strategy.process_message ops p stats msg readings = .ok s3 ∧
      s1 = stats.track_message_order msg ∧
      s1.producer_order_trackers[msg.producer_id]? =
        (stats.producer_order_trackers[msg.producer_id]?).map (fun t => t.track msg) ∧
      (∀ i, i ≠ msg.producer_id →
        s1.producer_order_trackers[i]? = stats.producer_order_trackers[i]?) ∧
      s1 = { stats with producer_order_trackers := s1.producer_order_trackers } ∧
      s2 = { s1 with
        stage1_latencies :=
          { latencies := s1.stage1_latencies.latencies ++ [msg.stage1_latency_us ops] }
        processing_latencies :=
          { latencies := s1.processing_latencies.latencies ++ [msg.processing_latency_us ops] }
        stage2_latencies :=
          { latencies := s1.stage2_latencies.latencies ++ [msg.stage2_latency_us ops] }
        total_latencies :=
          { latencies := s1.total_latencies.latencies ++ [msg.end_to_end_latency_us ops] } } ∧
      s3 = { s2 with messages_delivered := (s2.messages_delivered + 1) % SIZE_T_MOD }) ∧
    (∀ num_producers num_processors num_strategies,
      Strategy.Counted
        (SystemStatistics.new num_producers num_processors num_strategies :
          SystemStatistics D)) ∧
    (∀ ds : List (Strategy × Message × List Nat),
      (∀ d ∈ ds, Strategy.Awakes d.1 d.2.2) → Strategy.Counted stats →
      stats.messages_delivered + ds.length < SIZE_T_MOD →
      ∃ s, Strategy.deliveries ops ds stats = .ok s ∧
        s.stage1_latencies.latencies.length = s.messages_delivered ∧
        s.processing_latencies.latencies.length = s.messages_delivered ∧
        s.stage2_latencies.latencies.length = s.messages_delivered ∧
        s.total_latencies.latencies.length = s.messages_delivered ∧
        s.messages_delivered = stats.messages_delivered + ds.length) := by
  refine ⟨⟨_, _, _, Strategy.process_message_trace_ok ops p stats msg readings hawake,
    Strategy.process_message_ok ops p stats msg readings hawake, rfl,
    (SystemStatistics.track_message_order_trackers stats msg).1,
    (SystemStatistics.track_message_order_trackers stats msg).2, ?_, rfl, rfl⟩, ?_, ?_⟩
  · unfold SystemStatistics.track_message_order
    cases stats.producer_order_trackers[msg.producer_id]? <;> rfl
  · intro np nproc ns
    exact ⟨rfl, rfl, rfl, rfl⟩
  · intro ds hds hc hroom
    obtain ⟨s, hs, ⟨h1, h2, h3, h4⟩, hd⟩ := Strategy.deliveries_counted ops ds stats hds hc hroom
    exact ⟨s, hs, h1, h2, h3, h4, hd⟩

theorem Strategy.process_message_updates_witness :
    Strategy.Awakes Scenario.strategy [5, 40, 900] ∧
    ∃ s, Strategy.deliveries DoubleOps.exact Scenario.twoDeliveries
        (SystemStatistics.new 2 2 1) = .ok s ∧
      s.stage1_latencies.latencies.length = 2 ∧
      s.processing_latencies.latencies.length = 2 ∧
      s.stage2_latencies.latencies.length = 2 ∧
      s.total_latencies.latencies.length = 2 ∧
      s.messages_delivered = 2 := by
  have hawake : Strategy.Awakes Scenario.strategy [5, 40, 900] :=
    Or.inr ⟨5, [40, 900], 900, rfl, by decide, by decide⟩
  refine ⟨hawake, ?_⟩
  obtain ⟨s, hs, h1, h2, h3, h4, hd⟩ :=
    (Strategy.process_message_updates DoubleOps.exact Scenario.strategy
      (SystemStatistics.new 2 2 1) Scenario.msgProcessed [5, 40, 900] hawake).2.2
      Scenario.twoDeliveries
      (by
        intro d hd
        simp only [Scenario.twoDeliveries, List.mem_cons, List.mem_singleton,
          List.not_mem_nil, or_false] at hd
        rcases hd with rfl | rfl
        · exact hawake
        · exact Or.inr ⟨1000, [2000], 2000, rfl, by decide, by decide⟩)
      ⟨rfl, rfl, rfl, rfl⟩ (by decide)
  have hd2 : s.messages_delivered = 2 := hd
  exact ⟨s, hs, by rw [h1, hd2], by rw [h2, hd2], by rw [h3, hd2], by rw [h4, hd2], hd2⟩

/-! ## Each hop writes its own fields only -/

theorem Processor.step_frames (C id : Nat) (s s' : ProcessorThread) (w w' : World)
    (hinv : Processor.Frames id s) (hstep : Processor.step C s w = .ok (s', w')) :
    Processor.Frames id s' := by
  obtain ⟨processor, pc, log⟩ := s
  obtain ⟨hid, hinv⟩ := hinv
  simp only at hid hinv
  cases pc with
  | returned =>
    simp only [Processor.step, Except.ok.injEq, Prod.mk.injEq] at hstep
    rw [← hstep.1]; exact ⟨hid, hinv⟩
  | loop_head =>
    simp only [Processor.step] at hstep
    split at hstep <;> simp only [Except.ok.injEq, Prod.mk.injEq] at hstep <;>
      rw [← hstep.1] <;> exact ⟨hid, hinv⟩
  | poll =>
    simp only [Processor.step] at hstep
    split at hstep
    · exact absurd hstep (by simp)
    · next q hq =>
      split at hstep
      · simp only [Except.ok.injEq, Prod.mk.injEq] at hstep
        rw [← hstep.1]
        have hk : ∃ log0 m, log ++ [Event.popped 0 (q.try_pop C Message.new).2.1] =
            log0 ++ [Event.popped 0 m] ∧ Handled (Message.processed_by id) log0 ∧
            m.entered_by id { (q.try_pop C Message.new).2.1 with
              processing_entry_ns := w.get_timestamp_ns, processor_id := processor.id_ } :=
          ⟨log, _, rfl, hinv, by rw [hid]; rfl⟩
        refine ⟨hid, ?_⟩
        by_cases hpt : processor.get_processing_time
            (q.try_pop C Message.new).2.1.msg_type > 0
        · simp only [hpt, if_true]
          exact hk
        · simp only [hpt, if_false]
          exact hk
      · simp only [Except.ok.injEq, Prod.mk.injEq] at hstep
        rw [← hstep.1]
        exact ⟨hid, hinv⟩
  | wait_start msg ns =>
    simp only [Processor.step, Except.ok.injEq, Prod.mk.injEq] at hstep
    rw [← hstep.1]
    exact ⟨hid, hinv⟩
  | waiting msg ns start =>
    simp only [Processor.step] at hstep
    split at hstep <;> simp only [Except.ok.injEq, Prod.mk.injEq] at hstep <;>
      rw [← hstep.1] <;> exact ⟨hid, hinv⟩
  | stamp_exit msg =>
    simp only [Processor.step, Except.ok.injEq, Prod.mk.injEq] at hstep
    rw [← hstep.1]
    obtain ⟨log0, m, hlog, hh, hm⟩ := hinv
    refine ⟨hid, log0, m, hlog, hh, ?_⟩
    unfold Message.entered_by at hm
    unfold Message.processed_by
    rw [hm]
  | push_head msg =>
    simp only [Processor.step] at hstep
    split at hstep
    · simp only [Except.ok.injEq, Prod.mk.injEq] at hstep
      rw [← hstep.1]
      exact ⟨hid, hinv⟩
    · simp only [Except.ok.injEq, Prod.mk.injEq] at hstep
      rw [← hstep.1]
      obtain ⟨log0, m, hlog, hh, -⟩ := hinv
      refine ⟨hid, ?_⟩
      show Handled (Message.processed_by id) log
      rw [hlog]
      exact Handled.dropped log0 m hh
  | push msg =>
    simp only [Processor.step] at hstep
    split at hstep
    · exact absurd hstep (by simp)
    · split at hstep
      · simp only [Except.ok.injEq, Prod.mk.injEq] at hstep
        rw [← hstep.1]
        obtain ⟨log0, m, hlog, hh, hm⟩ := hinv
        refine ⟨hid, ?_⟩
        show Handled (Message.processed_by id) (log ++ [Event.pushed 0 msg])
        rw [hlog, List.append_assoc, List.singleton_append]
        exact Handled.pushed log0 m msg hh hm
      · simp only [Except.ok.injEq, Prod.mk.injEq] at hstep
        rw [← hstep.1]
        exact ⟨hid, hinv⟩

theorem Processor.exec_frames (C id : Nat) (schedule : List (List EnvAction)) :
    ∀ (s s' : ProcessorThread) (w w' : World), Processor.Frames id s →
      Processor.exec C schedule s w = .ok (s', w') →
      Handled (Message.processed_by id) s'.log := by
  induction schedule with
  | nil =>
    intro s s' w w' h hexec
    simp only [Processor.exec] at hexec
    split at hexec
    · next hpc =>
      simp only [Except.ok.injEq, Prod.mk.injEq] at hexec
      obtain ⟨rfl, rfl⟩ := hexec
      have h2 := h.2
      rw [hpc] at h2
      exact h2
    · exact absurd hexec (by simp)
  | cons as rest ih =>
    intro s s' w w' h hexec
    simp only [Processor.exec] at hexec
    split at hexec
    · next hpc =>
      simp only [Except.ok.injEq, Prod.mk.injEq] at hexec
      obtain ⟨rfl, rfl⟩ := hexec
      have h2 := h.2
      rw [hpc] at h2
      exact h2
    · split at hexec
      · exact absurd hexec (by simp)
      · next s1 w1 hstep =>
        exact ih s1 s' w1 w' (Processor.step_frames C id s s1 _ w1 h hstep) hexec
theorem Producer.generate_message_type_id {D : Type} (p p' : Producer D) (t : Nat)
    (h : p.generate_message_type = .ok (t, p')) : p'.id_ = p.id_ := by
  unfold Producer.generate_message_type at h
  split at h
  · exact absurd h (by simp)
  · split at h
    · exact absurd h (by simp)
    · simp only [Except.ok.injEq, Prod.mk.injEq] at h
      rw [← h.2]

theorem Producer.step_creates {D : Type} (ops : DoubleOps D) (C duration_secs id : Nat)
    (s s' : ProducerThread D) (w w' : World) (h : Producer.Creates id s)
    (hstep : Producer.step ops C duration_secs s w = .ok (s', w')) :
    Producer.Creates id s' := by
  obtain ⟨producer, pc, log⟩ := s
  obtain ⟨h1, h2, h3⟩ := h
  simp only at h1 h2 h3
  cases pc with
  | returned =>
    simp only [Producer.step, Except.ok.injEq, Prod.mk.injEq] at hstep
    obtain ⟨rfl, rfl⟩ := hstep
    exact ⟨h1, h2, trivial⟩
  | start =>
    simp only [Producer.step] at hstep
    split at hstep
    · exact absurd hstep (by simp)
    · simp only [Except.ok.injEq, Prod.mk.injEq] at hstep
      obtain ⟨rfl, rfl⟩ := hstep
      exact ⟨h1, h2, trivial⟩
  | loop_head l =>
    simp only [Producer.step] at hstep
    split at hstep <;> simp only [Except.ok.injEq, Prod.mk.injEq] at hstep <;>
      obtain ⟨rfl, rfl⟩ := hstep <;> exact ⟨h1, h2, trivial⟩
  | check_duration l =>
    simp only [Producer.step] at hstep
    split at hstep <;> simp only [Except.ok.injEq, Prod.mk.injEq] at hstep <;>
      obtain ⟨rfl, rfl⟩ := hstep <;> exact ⟨h1, h2, trivial⟩
  | read_time l =>
    simp only [Producer.step] at hstep
    split at hstep
    · split at hstep
      · exact absurd hstep (by simp)
      · next t p' hg =>
        simp only [Except.ok.injEq, Prod.mk.injEq] at hstep
        obtain ⟨rfl, rfl⟩ := hstep
        exact ⟨(Producer.generate_message_type_id producer p' t hg).trans h1, h2, trivial⟩
    · simp only [Except.ok.injEq, Prod.mk.injEq] at hstep
      obtain ⟨rfl, rfl⟩ := hstep
      exact ⟨h1, h2, trivial⟩
  | create l current_time msg_type =>
    simp only [Producer.step, Except.ok.injEq, Prod.mk.injEq] at hstep
    obtain ⟨rfl, rfl⟩ := hstep
    exact ⟨h1, h2, msg_type, producer.sequence_number_, w.get_timestamp_ns, by rw [← h1]⟩
  | push_head l current_time msg =>
    simp only [Producer.step] at hstep
    split at hstep
    · simp only [Except.ok.injEq, Prod.mk.injEq] at hstep
      obtain ⟨rfl, rfl⟩ := hstep
      exact ⟨h1, h2, h3⟩
    · simp only [Except.ok.injEq, Prod.mk.injEq] at hstep
      obtain ⟨rfl, rfl⟩ := hstep
      exact ⟨h1, h2, trivial⟩
  | push l current_time msg =>
    simp only [Producer.step] at hstep
    split at hstep
    · exact absurd hstep (by simp)
    · split at hstep
      · simp only [Except.ok.injEq, Prod.mk.injEq] at hstep
        obtain ⟨rfl, rfl⟩ := hstep
        refine ⟨h1, ?_, trivial⟩
        intro j m hm
        rcases List.mem_append.1 hm with hm | hm
        · exact h2 j m hm
        · simp only [List.mem_singleton, Event.pushed.injEq] at hm
          rw [hm.2]
          exact h3
      · simp only [Except.ok.injEq, Prod.mk.injEq] at hstep
        obtain ⟨rfl, rfl⟩ := hstep
        exact ⟨h1, h2, h3⟩

theorem Producer.exec_creates {D : Type} (ops : DoubleOps D) (C duration_secs id : Nat)
    (schedule : List (List EnvAction)) :
    ∀ (s s' : ProducerThread D) (w w' : World), Producer.Creates id s →
      Producer.exec ops C duration_secs schedule s w = .ok (s', w') →
      Producer.Creates id s' := by
  induction schedule with
  | nil =>
    intro s s' w w' h hexec
    simp only [Producer.exec] at hexec
    split at hexec
    · simp only [Except.ok.injEq, Prod.mk.injEq] at hexec
      obtain ⟨rfl, rfl⟩ := hexec
      exact h
    · exact absurd hexec (by simp)
  | cons as rest ih =>
    intro s s' w w' h hexec
    simp only [Producer.exec] at hexec
    split at hexec
    · simp only [Except.ok.injEq, Prod.mk.injEq] at hexec
      obtain ⟨rfl, rfl⟩ := hexec
      exact h
    · split at hexec
      · exact absurd hexec (by simp)
      · next s1 w1 hstep =>
        exact ih s1 s' w1 w' (Producer.step_creates ops C duration_secs id s s1 _ w1 h hstep)
          hexec

/-- C29: each hop writes its own fields only. (1) Every message a producer with
id `id_` pushes is a `Message::create(type, id_, seq_num)` for some type, sequence
number and clock reading. (2) The record of a `Stage1Router::run` that returned
consists of pops each followed at once by one push, of the popped message with
at most `stage1_entry_ns` and `stage1_exit_ns` changed. (3) The record of a
`Processor::run` that returned consists of pops each followed at once by one push
or by none, the pushed message being the popped one with at most
`processing_entry_ns`, `processor_id`, `processing_exit_ns` and
`processing_ts_ns` changed, `processor_id` being the id of the processor and
`processing_ts_ns` being `processing_exit_ns`. (4) The record of a
`Stage2Router::run` that returned consists of pops each followed at once by one
push, of the popped message with at most `stage2_entry_ns` and `stage2_exit_ns`
changed. (5) So when a created message passes Stage1, a processor and Stage2, the
message pushed to the strategy has the `msg_type`, `producer_id`,
`sequence_number` and `timestamp_ns` that `Message::create` set, the
`processor_id` of the processor, and `processing_ts_ns = processing_exit_ns`. -/
theorem hops_change_own_fields_only :
    (∀ (D : Type) (ops : DoubleOps D) (C duration_secs : Nat)
        (schedule : List (List EnvAction)) (p : Producer D) (w w' : World)
        (s' : ProducerThread D),
      Producer.run ops C duration_secs schedule p w = .ok (s', w') →
      ∀ j m, Event.pushed j m ∈ s'.log →
        ∃ type seq_num now, m = Message.create type p.id_ seq_num now) ∧
    (∀ (C : Nat) (schedule : List (List EnvAction)) (r : Stage1Router) (w w' : World)
        (s' : Stage1Thread),
      Stage1Router.run C schedule r w = .ok (s', w') →
      Forwarded (fun m _ m' =>
        m' = { m with stage1_entry_ns := m'.stage1_entry_ns,
                      stage1_exit_ns := m'.stage1_exit_ns }) s'.log) ∧
    (∀ (C : Nat) (schedule : List (List EnvAction)) (p : Processor) (w w' : World)
        (s' : ProcessorThread),
      Processor.run C schedule p w = .ok (s', w') →
      Handled (fun m m' =>
        m' = { m with processing_entry_ns := m'.processing_entry_ns,
                      processor_id := p.id_,
                      processing_exit_ns := m'.processing_exit_ns,
                      processing_ts_ns := m'.processing_exit_ns }) s'.log) ∧
    (∀ (C : Nat) (schedule : List (List EnvAction)) (r : Stage2Router) (w w' : World)
        (s' : Stage2Thread),
      Stage2Router.run C schedule r w = .ok (s', w') →
      Forwarded (fun m _ m' =>
        m' = { m with stage2_entry_ns := m'.stage2_entry_ns,
                      stage2_exit_ns := m'.stage2_exit_ns }) s'.log) ∧
    (∀ (type producer_id seq_num now id : Nat) (m1 m2 m3 : Message),
      m1 = { Message.create type producer_id seq_num now with
             stage1_entry_ns := m1.stage1_entry_ns, stage1_exit_ns := m1.stage1_exit_ns } →
      m2 = { m1 with processing_entry_ns := m2.processing_entry_ns, processor_id := id,
                     processing_exit_ns := m2.processing_exit_ns,
                     processing_ts_ns := m2.processing_exit_ns } →
      m3 = { m2 with stage2_entry_ns := m3.stage2_entry_ns,
                     stage2_exit_ns := m3.stage2_exit_ns } →
      m3.msg_type = type ∧ m3.producer_id = producer_id ∧ m3.sequence_number = seq_num ∧
      m3.timestamp_ns = now ∧ m3.processor_id = id ∧
      m3.processing_ts_ns = m3.processing_exit_ns ∧
      m3.stage1_entry_ns = m1.stage1_entry_ns ∧ m3.stage1_exit_ns = m1.stage1_exit_ns ∧
      m3.processing_entry_ns = m2.processing_entry_ns ∧
      m3.processing_exit_ns = m2.processing_exit_ns) := by
  refine ⟨?_, ?_, ?_, ?_, ?_⟩
  · intro D ops C duration_secs schedule p w w' s' hrun j m hm
    exact (Producer.exec_creates ops C duration_secs p.id_ schedule _ s' w w'
      ⟨rfl, fun j m hm => absurd hm (List.not_mem_nil _), trivial⟩ hrun).2.1 j m hm
  · intro C schedule r w w' s' hrun
    exact Stage1Router.run_forwarded C schedule r w s' w' hrun
  · intro C schedule p w w' s' hrun
    exact Processor.exec_frames C p.id_ schedule _ s' w w'
      (⟨rfl, Handled.nil⟩ : Processor.Frames p.id_
        { processor := p, pc := .loop_head, log := [] }) hrun
  · intro C schedule r w w' s' hrun
    exact (Stage2Router.run_forwarded_stage2 C schedule r w s' w' hrun).mono
      (fun _ _ _ h => h.1)
  · intro type producer_id seq_num now id m1 m2 m3 h1 h2 h3
    rw [h3, h2, h1]
    exact ⟨rfl, rfl, rfl, rfl, rfl, rfl, rfl, rfl, rfl, rfl⟩

theorem hops_change_own_fields_only_witness :
    ∃ s w, Processor.run 4 Scenario.processTwo Scenario.processorOne
        (Scenario.worldOf Scenario.msgA1 Scenario.msgB1) = .ok (s, w) ∧
      s.log = [Event.popped 0 Scenario.msgA1,
        Event.pushed 0 { Scenario.msgA1 with processing_entry_ns := 5, processor_id := 1,
                                             processing_exit_ns := 5,
                                             processing_ts_ns := 5 },
        Event.popped 0 Scenario.msgB1,
        Event.pushed 0 { Scenario.msgB1 with processing_entry_ns := 5, processor_id := 1,
                                             processing_exit_ns := 5,
                                             processing_ts_ns := 5 }] ∧
      Handled (fun m m' =>
        m' = { m with processing_entry_ns := m'.processing_entry_ns,
                      processor_id := 1,
                      processing_exit_ns := m'.processing_exit_ns,
                      processing_ts_ns := m'.processing_exit_ns }) s.log :=
  ⟨_, _, rfl, rfl,
    hops_change_own_fields_only.2.2.1 4 Scenario.processTwo Scenario.processorOne
      (Scenario.worldOf Scenario.msgA1 Scenario.msgB1) _ _ rfl⟩

end MessageRouter
